import Mathlib

/-! Port scan orchestration of `scan/portscan.go`.

A shallow embedding of the port scan core: destination resolution
(`detectScanDest`), engine selection (`execPortsScan`), the two probe engines
(`execNativePortScan`, `execExternalPortScan`), the technique table
(`setScanTechnique`) and reconciliation (`updatePortStatus`,
`findPortScanSuccessOn`, `parseListenPorts`).

Conventions of the embedding.

* A Go `string` is a sequence of bytes. It is the Lean `String` that has one
  character per byte, the character whose code is that byte (below 256). ASCII
  text is therefore the text itself, and `goString` gives the Go string of any
  other text from its UTF-8 encoding. The length, the indices and the slices
  of a Go string are the length, the indices and `take`/`drop` of the list of
  characters; comparison, concatenation and search go byte by byte.
* A Go `error` is `Option String`: `none` is `nil`, `some msg` an error with
  message `msg`. A function returning `(T, error)` returns a pair.
* A Go `map[string]V` is the list of its entries (`GoMap V`); the keys of a map
  are distinct. A `range` over a map visits the entries in an order Go leaves
  unspecified: every such loop takes a `RangeOrder`, an arbitrary rearrangement
  of the entries, and the theorems hold for all of them.
* A `nil` slice and an empty slice are both the empty list (the code only
  ranges over them or appends to them).
* A run-time panic (slice bounds out of range) is the result `none` of the
  functions that can reach one.
-/

namespace Scan

/-! ## Strings -/

/-- Go `strings.LastIndex(s, string(c))` on the bytes of `s`: the index of the
last occurrence of `c`, or `-1` when there is none. -/
def LastIndex (c : Char) : List Char → Int
  | [] => -1
  | x :: xs =>
    let r := LastIndex c xs
    if 0 ≤ r then r + 1 else if x = c then 0 else -1

/-- Does `s` begin with the bytes `sub`. -/
def startsWith : List Char → List Char → Bool
  | [], _ => true
  | _ :: _, [] => false
  | a :: sub, b :: s => a == b && startsWith sub s

/-- Does `sub` occur in `s` as a contiguous block. -/
def containsChars (sub : List Char) : List Char → Bool
  | [] => startsWith sub []
  | c :: s => startsWith sub (c :: s) || containsChars sub s

/-- Go `strings.Contains(s, substr)`. -/
def Contains (s substr : String) : Bool :=
  containsChars substr.data s.data

/-- Go slice expression `s[lo:hi]` on a string: the bytes from index `lo` up to
index `hi`, with `len(s)` the number of bytes; `none` is the run-time panic
for indices out of range. -/
def sliceStr (s : String) (lo hi : Int) : Option String :=
  if 0 ≤ lo ∧ lo ≤ hi ∧ hi ≤ (s.data.length : Int) then
    some (String.mk ((s.data.take hi.toNat).drop lo.toNat))
  else none

/-- The UTF-8 encoding of a character, as the list of its bytes. -/
def utf8Bytes (c : Char) : List Nat :=
  let n := c.toNat
  if n < 128 then [n]
  else if n < 2048 then [192 + n / 64, 128 + n % 64]
  else if n < 65536 then [224 + n / 4096, 128 + n / 64 % 64, 128 + n % 64]
  else [240 + n / 262144, 128 + n / 4096 % 64, 128 + n / 64 % 64, 128 + n % 64]

/-- The Go string of a text: one character per byte of the UTF-8 encoding of
the text. -/
def goString (text : String) : String :=
  String.mk (text.data.flatMap (fun c => (utf8Bytes c).map Char.ofNat))

/-! ## Go maps and their iteration order -/

/-- A Go `map[string]V` as the list of its entries. -/
abbrev GoMap (V : Type) := List (String × V)

/-- The keys of a map, in the order the entries are kept. -/
def keys {V : Type} (m : GoMap V) : List String := m.map Prod.fst

/-- Go `m[k]` for a `map[string][]string`: the zero value (the `nil` slice)
when the key is absent. -/
def lookup : GoMap (List String) → String → List String
  | [], _ => []
  | (k', v) :: m, k => if k' = k then v else lookup m k

/-- Go `m[k] = v`. -/
def assign : GoMap (List String) → String → List String → GoMap (List String)
  | [], k, v => [(k, v)]
  | (k', v') :: m, k, v => if k' = k then (k', v) :: m else (k', v') :: assign m k v

/-- Go `m[k] = append(m[k], vs...)`. -/
def appendTo (m : GoMap (List String)) (k : String) (vs : List String) :
    GoMap (List String) :=
  assign m k (lookup m k ++ vs)

/-- The order in which one `range` statement visits the entries of a map: some
rearrangement of them. -/
structure RangeOrder (α : Type) where
  visit : List α → List α
  perm : ∀ l, List.Perm (visit l) l

/-- Visit the entries in the order they are kept. -/
def RangeOrder.stored (α : Type) : RangeOrder α :=
  ⟨fun l => l, fun l => List.Perm.refl l⟩

/-- Visit the entries in the opposite order. -/
def RangeOrder.backward (α : Type) : RangeOrder α :=
  ⟨List.reverse, fun l => List.reverse_perm l⟩

/-- Go `xs[i] = f(xs[i])` for an index in range. -/
def modifyAt {α : Type} (f : α → α) : Nat → List α → List α
  | _, [] => []
  | 0, x :: xs => f x :: xs
  | n + 1, x :: xs => x :: modifyAt f n xs

/-! ## Data model -/

/-- Modelled from the spec: `models.ListenPort`, whose declaration is outside
the scanned sources; the three fields the code reads and writes. -/
structure ListenPort where
  Address : String
  Port : String
  PortScanSuccessOn : List String
  deriving DecidableEq, Repr

/-- Modelled from the spec: `models.AffectedProcess`, reduced to the field the
code uses, the ordered sequence of listen ports. -/
structure AffectedProcess where
  ListenPorts : List ListenPort
  deriving DecidableEq, Repr

/-- Modelled from the spec: `models.Package`, reduced to the field the code
uses, the affected processes. -/
structure Package where
  AffectedProcs : List AffectedProcess
  deriving DecidableEq, Repr

/-- Modelled from the spec: `models.Packages`, a map from package name to
package (the code ranges over it with `name, p` and writes through
`Packages[name]`). -/
abbrev Packages := GoMap Package

/-- Modelled from the spec: the fields of `config.ServerInfo` the code reads. -/
structure ServerInfo where
  IPv4Addrs : List String
  Port : String
  Host : String

/-- The receiver `l *base`: the inventory `l.osPackages.Packages` and
`l.ServerInfo`. -/
structure base where
  Packages : Packages
  ServerInfo : ServerInfo

/-- The fields of `config.Conf.PortScan` the code reads. -/
structure PortScanConf where
  ScannerBinPath : String
  HasPrivileged : Bool
  ScanTechnique : String

/-- The scan techniques of the engine library (`nmap.WithSYNScan()` and so on). -/
inductive Technique where
  | SYNScan
  | ConnectScan
  | TCPNullScan
  | TCPFINScan
  | TCPXmasScan
  | ACKScan
  | WindowScan
  | MaimonScan
  deriving DecidableEq, Repr

/-- A port of an engine result: `port.ID` (a `uint16`) and `port.Status()`. -/
structure NmapPort where
  ID : Nat
  Status : String
  deriving DecidableEq, Repr

/-- A host of an engine result. -/
structure NmapHost where
  Ports : List NmapPort
  Addresses : List String
  deriving DecidableEq, Repr

/-- The options one loop iteration of `execExternalPortScan` adds to the
scanner before `Run`. -/
structure Invocation where
  technique : Technique
  privileged : Bool
  target : String
  ports : List String
  ipv6 : Bool
  deriving DecidableEq, Repr

/-- Everything the code calls that lies outside the scanned sources, as
oracles. `nativeScanPort` is the per-target verdict of the native dial. -/
structure Env where
  isLocalExec : String → String → Bool
  IsLoopback : String → Bool
  nativeScanPort : String → Bool × Option String
  NewScanner : String → Option String
  Run : Invocation → List NmapHost × Option String

/-- One iteration order for each `range` over a map in the code. -/
structure Schedule where
  packages : RangeOrder (String × Package)
  scanIPPorts : RangeOrder (String × List String)
  scanDestIPPorts : RangeOrder (String × List String)
  targets : RangeOrder (String × List String)
  update : RangeOrder (String × Package)

/-- Every loop visits the entries in the order they are kept. -/
def Schedule.stored : Schedule :=
  ⟨RangeOrder.stored _, RangeOrder.stored _, RangeOrder.stored _, RangeOrder.stored _,
    RangeOrder.stored _⟩

/-! ## The code -/

/-- The function `parseListenPorts`: split at the last `:`; a string without
`:` gives the empty `ListenPort`. The slices `port[:sep]` and `port[sep+1:]`
are within bounds since `0 ≤ sep < len(port)`. -/
def parseListenPorts (port : String) : ListenPort :=
  let sep := LastIndex ':' port.data
  if sep = -1 then
    { Address := "", Port := "", PortScanSuccessOn := [] }
  else
    { Address := String.mk (port.data.take sep.toNat),
      Port := String.mk (port.data.drop (sep.toNat + 1)),
      PortScanSuccessOn := [] }

/-- First loop of `detectScanDest`: `address → [ports]` over the whole walk. -/
def collectListenPorts (o : RangeOrder (String × Package)) (pkgs : Packages) :
    GoMap (List String) :=
  (o.visit pkgs).foldl (fun scanIPPortsMap np =>
    np.2.AffectedProcs.foldl (fun scanIPPortsMap proc =>
      proc.ListenPorts.foldl (fun scanIPPortsMap port =>
        appendTo scanIPPortsMap port.Address [port.Port]) scanIPPortsMap) scanIPPortsMap) []

/-- Second loop of `detectScanDest`: the wildcard entry is replicated under
every host address, the others pass through. -/
def expandWildcard (o : RangeOrder (String × List String)) (IPv4Addrs : List String)
    (scanIPPortsMap : GoMap (List String)) : GoMap (List String) :=
  (o.visit scanIPPortsMap).foldl (fun scanDestIPPorts ap =>
    if ap.1 = "*" then
      IPv4Addrs.foldl (fun scanDestIPPorts addr => appendTo scanDestIPPorts addr ap.2)
        scanDestIPPorts
    else
      appendTo scanDestIPPorts ap.1 ap.2) []

/-- Inner loop of the third loop of `detectScanDest`, on the pair of the seen
set `m` (a `map[string]bool`, kept as the list of keys set to `true`) and the
output map. -/
def uniqStep (i : String) (st : List String × GoMap (List String)) (e : String) :
    List String × GoMap (List String) :=
  if !(st.1.contains e) then (e :: st.1, appendTo st.2 i [e]) else st

/-- Third loop of `detectScanDest`: distinct ports per address. -/
def uniqPorts (o : RangeOrder (String × List String))
    (scanDestIPPorts : GoMap (List String)) : GoMap (List String) :=
  (o.visit scanDestIPPorts).foldl (fun uniqScanDestIPPorts is =>
    (is.2.foldl (uniqStep is.1) ([], uniqScanDestIPPorts)).2) []

/-- The function `detectScanDest`: the three loops in sequence. -/
def detectScanDest (sch : Schedule) (l : base) : GoMap (List String) :=
  uniqPorts sch.scanDestIPPorts
    (expandWildcard sch.scanIPPorts l.ServerInfo.IPv4Addrs
      (collectListenPorts sch.packages l.Packages))

/-- The inner loop of `execNativePortScan` over the ports of one address, with
the list collected so far. An error of `nativeScanPort` returns at once with
the empty list. -/
def nativePortLoop (env : Env) (ip : String) :
    List String → List String → List String × Option String
  | [], listenIPPorts => (listenIPPorts, none)
  | port :: more, listenIPPorts =>
    let scanDest := ip ++ ":" ++ port
    match env.nativeScanPort scanDest with
    | (_, some err) => ([], some err)
    | (isOpen, none) =>
      nativePortLoop env ip more
        (if isOpen then listenIPPorts ++ [scanDest] else listenIPPorts)

/-- The outer loop of `execNativePortScan` over the entries still to visit. -/
def nativeLoop (env : Env) (si : ServerInfo) :
    List (String × List String) → List String → List String × Option String
  | [], listenIPPorts => (listenIPPorts, none)
  | (ip, ports) :: rest, listenIPPorts =>
    if !env.isLocalExec si.Port si.Host && env.IsLoopback ip then
      nativeLoop env si rest listenIPPorts
    else
      match nativePortLoop env ip ports listenIPPorts with
      | (_, some err) => ([], some err)
      | (acc, none) => nativeLoop env si rest acc

/-- The function `execNativePortScan`: the loop over the target map, started
with the empty list. -/
def execNativePortScan (env : Env) (o : RangeOrder (String × List String)) (l : base)
    (scanDestIPPorts : GoMap (List String)) : List String × Option String :=
  nativeLoop env l.ServerInfo (o.visit scanDestIPPorts) []

/-- The function `setScanTechnique`: the technique for the configured identifier, or the
error for an identifier outside the table. -/
def setScanTechnique (conf : PortScanConf) : Option Technique × Option String :=
  if conf.ScanTechnique = "" then
    if conf.HasPrivileged then (some Technique.SYNScan, none)
    else (some Technique.ConnectScan, none)
  else if conf.ScanTechnique = "sS" then (some Technique.SYNScan, none)
  else if conf.ScanTechnique = "sT" then (some Technique.ConnectScan, none)
  else if conf.ScanTechnique = "sN" then (some Technique.TCPNullScan, none)
  else if conf.ScanTechnique = "sF" then (some Technique.TCPFINScan, none)
  else if conf.ScanTechnique = "sX" then (some Technique.TCPXmasScan, none)
  else if conf.ScanTechnique = "sA" then (some Technique.ACKScan, none)
  else if conf.ScanTechnique = "sW" then (some Technique.WindowScan, none)
  else if conf.ScanTechnique = "sM" then (some Technique.MaimonScan, none)
  else
    (none, some ("Failed to setScanTechnique. cannot support ScanTechnique: "
      ++ conf.ScanTechnique))

/-- The targets and ports options of one iteration of `execExternalPortScan`:
an address containing `:` is passed as `ip[1:len(ip)-1]`, the address without
its first and its last byte, with IPv6 scanning. The result `none` is the
panic of that slice expression. -/
def buildInvocation (conf : PortScanConf) (technique : Technique) (ip : String)
    (ports : List String) : Option Invocation :=
  if Contains ip ":" then
    (sliceStr ip 1 ((ip.data.length : Int) - 1)).map (fun target =>
      { technique := technique, privileged := conf.HasPrivileged, target := target,
        ports := ports, ipv6 := true })
  else
    some { technique := technique, privileged := conf.HasPrivileged, target := ip,
           ports := ports, ipv6 := false }

/-- The result loop of `execExternalPortScan` over the ports of one host. -/
def recordPorts (ip : String) (ports : List NmapPort) (listenIPPorts : List String) :
    List String :=
  ports.foldl (fun listenIPPorts port =>
    if Contains port.Status "open" then
      listenIPPorts ++ [ip ++ ":" ++ toString port.ID]
    else listenIPPorts) listenIPPorts

/-- The result loop of `execExternalPortScan` over the hosts of one run. -/
def recordHosts (ip : String) (hosts : List NmapHost) (listenIPPorts : List String) :
    List String :=
  hosts.foldl (fun listenIPPorts host =>
    if host.Ports.length = 0 ∨ host.Addresses.length = 0 then listenIPPorts
    else recordPorts ip host.Ports listenIPPorts) listenIPPorts

/-- The loop of `execExternalPortScan` over the entries still to visit, with the
list collected so far; `none` is a panic. -/
def externalLoop (env : Env) (conf : PortScanConf) (si : ServerInfo) :
    List (String × List String) → List String → Option (List String × Option String)
  | [], listenIPPorts => some (listenIPPorts, none)
  | (ip, ports) :: rest, listenIPPorts =>
    if !env.isLocalExec si.Port si.Host && env.IsLoopback ip then
      externalLoop env conf si rest listenIPPorts
    else
      match env.NewScanner conf.ScannerBinPath with
      | some err => some ([], some ("unable to create nmap scanner: " ++ err))
      | none =>
        match setScanTechnique conf with
        | (_, some err) => some ([], some err)
        | (none, none) => none
        | (some technique, none) =>
          match buildInvocation conf technique ip ports with
          | none => none
          | some inv =>
            match env.Run inv with
            | (_, some err) => some ([], some ("unable to run nmap sacn: " ++ err))
            | (hosts, none) =>
              externalLoop env conf si rest (recordHosts ip hosts listenIPPorts)

/-- The function `execExternalPortScan`: the loop over the target map, started
with the empty list. -/
def execExternalPortScan (env : Env) (conf : PortScanConf)
    (o : RangeOrder (String × List String)) (l : base)
    (scanDestIPPorts : GoMap (List String)) : Option (List String × Option String) :=
  externalLoop env conf l.ServerInfo (o.visit scanDestIPPorts) []

/-- The function `execPortsScan`: the external engine when a scanner binary is configured,
the native engine otherwise. -/
def execPortsScan (env : Env) (conf : PortScanConf) (o : RangeOrder (String × List String))
    (l : base) (scanDestIPPorts : GoMap (List String)) :
    Option (List String × Option String) :=
  if conf.ScannerBinPath ≠ "" then
    match execExternalPortScan env conf o l scanDestIPPorts with
    | none => none
    | some (_, some err) => some ([], some err)
    | some (listenIPPorts, none) => some (listenIPPorts, none)
  else
    match execNativePortScan env o l scanDestIPPorts with
    | (_, some err) => some ([], some err)
    | (listenIPPorts, none) => some (listenIPPorts, none)

/-- The function `findPortScanSuccessOn`: the loop over the probe result,
started with the empty list of addresses. -/
def findPortScanSuccessOn (listenIPPorts : List String) (searchListenPort : ListenPort) :
    List String :=
  listenIPPorts.foldl (fun addrs ipPort =>
    let ipPort := parseListenPorts ipPort
    if searchListenPort.Address = "*" then
      if searchListenPort.Port = ipPort.Port then addrs ++ [ipPort.Address] else addrs
    else if searchListenPort.Address = ipPort.Address ∧ searchListenPort.Port = ipPort.Port then
      addrs ++ [ipPort.Address]
    else addrs) []

/-- The assignment
`Packages[name].AffectedProcs[i].ListenPorts[j].PortScanSuccessOn = v`. -/
def setPortScanSuccessOn (pkgs : Packages) (name : String) (i j : Nat) (v : List String) :
    Packages :=
  pkgs.map (fun np =>
    if np.1 = name then
      (np.1, { np.2 with AffectedProcs := modifyAt (fun proc =>
        { proc with ListenPorts := modifyAt (fun port =>
          { port with PortScanSuccessOn := v }) j proc.ListenPorts }) i np.2.AffectedProcs })
    else np)

/-- The function `updatePortStatus`: the three nested loops, each iteration writing one
`PortScanSuccessOn` field of the inventory. The loop variables `p`, `proc` and
`port` are the values read when the package is visited. -/
def updatePortStatus (o : RangeOrder (String × Package)) (pkgs : Packages)
    (listenIPPorts : List String) : Packages :=
  (o.visit pkgs).foldl (fun st np =>
    np.2.AffectedProcs.enum.foldl (fun st iproc =>
      iproc.2.ListenPorts.enum.foldl (fun st jport =>
        setPortScanSuccessOn st np.1 iproc.1 jport.1
          (findPortScanSuccessOn listenIPPorts jport.2)) st) st) pkgs

/-- The function `scanPorts`: the inventory after the call and the returned error; `none` is
a panic. -/
def scanPorts (env : Env) (conf : PortScanConf) (sch : Schedule) (l : base) :
    Option (base × Option String) :=
  let dest := detectScanDest sch l
  match execPortsScan env conf sch.targets l dest with
  | none => none
  | some (_, some err) => some (l, some err)
  | some (listenIPPorts, none) =>
    some ({ l with Packages := updatePortStatus sch.update l.Packages listenIPPorts }, none)

/-- The function `nativeScanPort` over the outcomes of the successive calls of
`net.DialTimeout`: the head of `dials` answers the next call, given the
address dialled, with `none` for a connection and `some msg` for an error with
message `msg`. The result is the returned pair together with the outcomes not
yet consumed; `none` means the outcomes listed ran out while the function was
still retrying. -/
def nativeScanPort (scanDest : String) :
    List (String → Option String) → Option ((Bool × Option String) × List (String → Option String))
  | [] => none
  | dial :: later =>
    match dial scanDest with
    | none => some ((true, none), later)
    | some err =>
      if Contains err "i/o timeout" || Contains err "connection refused" then
        some ((false, none), later)
      else if Contains err "too many open files" then
        nativeScanPort scanDest later
      else
        some ((false, some err), later)

/-- The inner loop of `execNativePortScan` with, next to its result, the
addresses handed to `nativeScanPort` so far, in call order. -/
def nativePortLoopLog (env : Env) (ip : String) :
    List String → List String → List String → (List String × Option String) × List String
  | [], listenIPPorts, dialled => ((listenIPPorts, none), dialled)
  | port :: more, listenIPPorts, dialled =>
    let scanDest := ip ++ ":" ++ port
    match env.nativeScanPort scanDest with
    | (_, some err) => (([], some err), dialled ++ [scanDest])
    | (isOpen, none) =>
      nativePortLoopLog env ip more
        (if isOpen then listenIPPorts ++ [scanDest] else listenIPPorts) (dialled ++ [scanDest])

/-- The outer loop of `execNativePortScan` with the addresses handed to
`nativeScanPort` so far. -/
def nativeLoopLog (env : Env) (si : ServerInfo) :
    List (String × List String) → List String → List String →
      (List String × Option String) × List String
  | [], listenIPPorts, dialled => ((listenIPPorts, none), dialled)
  | (ip, ports) :: rest, listenIPPorts, dialled =>
    if !env.isLocalExec si.Port si.Host && env.IsLoopback ip then
      nativeLoopLog env si rest listenIPPorts dialled
    else
      match nativePortLoopLog env ip ports listenIPPorts dialled with
      | ((_, some err), dialled') => (([], some err), dialled')
      | ((acc, none), dialled') => nativeLoopLog env si rest acc dialled'

/-- The function `execNativePortScan` with the addresses it dials, in order. -/
def execNativePortScanLog (env : Env) (o : RangeOrder (String × List String)) (l : base)
    (scanDestIPPorts : GoMap (List String)) : (List String × Option String) × List String :=
  nativeLoopLog env l.ServerInfo (o.visit scanDestIPPorts) [] []

/-- The loop of `execExternalPortScan` with, next to its result, the
invocations handed to `Run` so far, in call order. -/
def externalLoopLog (env : Env) (conf : PortScanConf) (si : ServerInfo) :
    List (String × List String) → List String → List Invocation →
      Option (List String × Option String) × List Invocation
  | [], listenIPPorts, runs => (some (listenIPPorts, none), runs)
  | (ip, ports) :: rest, listenIPPorts, runs =>
    if !env.isLocalExec si.Port si.Host && env.IsLoopback ip then
      externalLoopLog env conf si rest listenIPPorts runs
    else
      match env.NewScanner conf.ScannerBinPath with
      | some err => (some ([], some ("unable to create nmap scanner: " ++ err)), runs)
      | none =>
        match setScanTechnique conf with
        | (_, some err) => (some ([], some err), runs)
        | (none, none) => (none, runs)
        | (some technique, none) =>
          match buildInvocation conf technique ip ports with
          | none => (none, runs)
          | some inv =>
            match env.Run inv with
            | (_, some err) =>
              (some ([], some ("unable to run nmap sacn: " ++ err)), runs ++ [inv])
            | (hosts, none) =>
              externalLoopLog env conf si rest (recordHosts ip hosts listenIPPorts)
                (runs ++ [inv])

/-- The function `execExternalPortScan` with the invocations it runs, in
order. -/
def execExternalPortScanLog (env : Env) (conf : PortScanConf)
    (o : RangeOrder (String × List String)) (l : base)
    (scanDestIPPorts : GoMap (List String)) :
    Option (List String × Option String) × List Invocation :=
  externalLoopLog env conf l.ServerInfo (o.visit scanDestIPPorts) [] []

/-! ## Specification-level views used in the statements -/

/-- The loopback rule of both engines: the address is left out when the scan
does not run locally and the address is a loopback address. -/
def skipped (env : Env) (si : ServerInfo) (ip : String) : Bool :=
  !env.isLocalExec si.Port si.Host && env.IsLoopback ip

/-- The strings `ip:port`, over the ports of one address, that the dial oracle
reports open. -/
def nativeOpen (env : Env) (ip : String) (ports : List String) : List String :=
  (ports.map (fun port => ip ++ ":" ++ port)).filter (fun s => (env.nativeScanPort s).1)

/-- The strings `ip:id` for the ports of an engine result whose status contains
`open`, over the hosts that report at least one port and one address. -/
def recordedOf (ip : String) (hosts : List NmapHost) : List String :=
  hosts.flatMap (fun host =>
    if host.Ports = [] ∨ host.Addresses = [] then []
    else (host.Ports.filter (fun port => Contains port.Status "open")).map
      (fun port => ip ++ ":" ++ toString port.ID))

/-- The hosts the engine reports for one address of the target map, when the
invocation can be built. -/
def engineHosts (env : Env) (conf : PortScanConf) (technique : Technique) (ip : String)
    (ports : List String) : List NmapHost :=
  match buildInvocation conf technique ip ports with
  | some inv => (env.Run inv).1
  | none => []

/-- The statement `m[x.1] = append(m[x.1], x.2...)` for each `x` of a list, in
order. -/
def appendAll (m : GoMap (List String)) (xs : List (String × List String)) :
    GoMap (List String) :=
  xs.foldl (fun m x => appendTo m x.1 x.2) m

/-- The entries one entry of `scanIPPortsMap` contributes: a copy under every
host address for the wildcard, itself otherwise. -/
def expandEntry (IPv4Addrs : List String) (ap : String × List String) :
    List (String × List String) :=
  if ap.1 = "*" then IPv4Addrs.map (fun addr => (addr, ap.2)) else [ap]

/-- The elements of a list that are not in `seen` and not earlier in the list,
in the order of their first occurrence. -/
def firstSeen : List String → List String → List String
  | _, [] => []
  | seen, e :: l =>
    if seen.contains e then firstSeen seen l else e :: firstSeen (e :: seen) l

/-- The entry with its result replaced by the matches of the probe result. -/
def reconcilePort (listenIPPorts : List String) (port : ListenPort) : ListenPort :=
  { port with PortScanSuccessOn := findPortScanSuccessOn listenIPPorts port }

/-- The process with every entry reconciled. -/
def reconcileProc (listenIPPorts : List String) (proc : AffectedProcess) : AffectedProcess :=
  { ListenPorts := proc.ListenPorts.map (reconcilePort listenIPPorts) }

/-- The package with every entry of every affected process reconciled. -/
def reconcilePackage (listenIPPorts : List String) (p : Package) : Package :=
  { AffectedProcs := p.AffectedProcs.map (reconcileProc listenIPPorts) }

/-- The inventory with every entry reconciled, the packages kept in place. -/
def reconcile (listenIPPorts : List String) (pkgs : Packages) : Packages :=
  pkgs.map (fun np => (np.1, reconcilePackage listenIPPorts np.2))

/-- The writes of the innermost loop of `updatePortStatus` for one process, on
a list of listen ports. -/
def writePorts (listenIPPorts : List String) (proc : AffectedProcess)
    (ports : List ListenPort) : List ListenPort :=
  proc.ListenPorts.enum.foldl (fun ports jport =>
    modifyAt (fun port =>
      { port with PortScanSuccessOn := findPortScanSuccessOn listenIPPorts jport.2 })
      jport.1 ports) ports

/-- The writes of the two inner loops of `updatePortStatus` for one package, on
a list of processes. -/
def writeProcs (listenIPPorts : List String) (p : Package)
    (procs : List AffectedProcess) : List AffectedProcess :=
  p.AffectedProcs.enum.foldl (fun procs iproc =>
    modifyAt (fun proc => { ListenPorts := writePorts listenIPPorts iproc.2 proc.ListenPorts })
      iproc.1 procs) procs

/-- Apply `f` to the processes of the package called `name`. -/
def onPackage (name : String) (f : List AffectedProcess → List AffectedProcess)
    (pkgs : Packages) : Packages :=
  pkgs.map (fun np => if np.1 = name then (np.1, { AffectedProcs := f np.2.AffectedProcs })
    else np)

/-- Apply `f` to the listen ports of process `i` of the package called `name`. -/
def onProc (name : String) (i : Nat) (f : List ListenPort → List ListenPort)
    (pkgs : Packages) : Packages :=
  onPackage name (modifyAt (fun proc => { ListenPorts := f proc.ListenPorts }) i) pkgs

/-- All listen-port entries of an inventory (any order of the packages). -/
def listenPortsOf (pkgs : Packages) : List ListenPort :=
  pkgs.flatMap (fun np => np.2.AffectedProcs.flatMap (fun proc => proc.ListenPorts))

/-- The ports that the entries of a walk declare under the address `a`, in the
order of the walk. -/
def declaredPorts (walk : List ListenPort) (a : String) : List String :=
  (walk.filter (fun port => port.Address = a)).map (fun port => port.Port)

/-- The timeout and connection-refused class of a dial error, as
`nativeScanPort` tests it. -/
def closedClass (err : String) : Bool :=
  Contains err "i/o timeout" || Contains err "connection refused"

/-- The resource-exhaustion class of a dial error, as `nativeScanPort` tests
it: the message names the exhausted descriptors and is not of the class tested
before it. -/
def exhaustedClass (err : String) : Bool :=
  !closedClass err && Contains err "too many open files"

/-! ## Concrete scenarios -/

/-- A remote host: nothing runs locally, `127.0.0.1` is the loopback address,
the dial finds `192.168.1.10:22` and `10.0.0.5:80` open, refuses everything
else except `10.0.0.7:1`, where it fails with a fatal error; the scanner can
be created; the engine reports port 22 open, port 80 `open|filtered` and port
81 closed on the target it is given. -/
def remoteEnv : Env where
  isLocalExec := fun _ _ => false
  IsLoopback := fun ip => ip == "127.0.0.1"
  nativeScanPort := fun s =>
    if s = "10.0.0.7:1" then (false, some "network is unreachable")
    else (s == "192.168.1.10:22" || s == "10.0.0.5:80", none)
  NewScanner := fun _ => none
  Run := fun inv =>
    ([{ Ports := [⟨22, "open"⟩, ⟨80, "open|filtered"⟩, ⟨81, "closed"⟩],
        Addresses := [inv.target] }], none)

/-- The environment `remoteEnv` with an engine that reports one port, 80, with
the status `open|filtered`. -/
def filteredEnv : Env :=
  { remoteEnv with
    Run := fun inv => ([{ Ports := [⟨80, "open|filtered"⟩], Addresses := [inv.target] }], none) }

/-- An inventory of two packages in which the pair `10.0.0.5`, `80` is declared
three times and the wildcard with port `22` twice. -/
def dupInventory : Packages :=
  [("nginx", ⟨[⟨[⟨"10.0.0.5", "80", []⟩, ⟨"*", "22", []⟩, ⟨"10.0.0.5", "80", []⟩]⟩]⟩),
   ("openssh", ⟨[⟨[⟨"*", "22", []⟩]⟩, ⟨[⟨"10.0.0.5", "80", ["stale"]⟩]⟩]⟩)]

/-- A remote server with two addresses and the inventory `dupInventory`. -/
def dupBase : base :=
  ⟨dupInventory, ⟨["192.168.1.10", "192.168.1.11"], "22", "192.168.1.10"⟩⟩

/-- The native engine is selected: no scanner binary is configured. -/
def nativeConf : PortScanConf := ⟨"", false, ""⟩

/-- The external engine is selected, with the default technique. -/
def externalConf : PortScanConf := ⟨"/usr/bin/nmap", false, ""⟩

/-- The information of a remote server with one address. -/
def oneAddr : ServerInfo := ⟨["192.168.1.10"], "22", "192.168.1.10"⟩

/-- A remote server whose inventory declares `10.0.0.7` port `1`, where the dial
of `remoteEnv` fails with a fatal error, after a port that is open. -/
def fatalBase : base :=
  ⟨[("agent", ⟨[⟨[⟨"10.0.0.5", "80", ["old"]⟩, ⟨"10.0.0.7", "1", []⟩]⟩]⟩)],
    ⟨["192.168.1.10"], "22", "192.168.1.10"⟩⟩

/-- The end-to-end scenario of the specification: one package, one process, one
listen port with the wildcard address and port `22`, one host address. -/
def sshBase : base :=
  ⟨[("openssh", ⟨[⟨[⟨"*", "22", []⟩]⟩]⟩)], oneAddr⟩


/-- A dial that fails with a resource-exhaustion error at `10.0.0.5:80` and
connects elsewhere. -/
def exhaustedDial : String → Option String :=
  fun addr =>
    if addr = "10.0.0.5:80" then some "dial tcp 10.0.0.5:80: socket: too many open files"
    else none

/-- A dial that connects. -/
def connectedDial : String → Option String := fun _ => none

/-- A dial that is refused. -/
def refusedDial : String → Option String :=
  fun addr => some ("dial tcp " ++ addr ++ ": connect: connection refused")

/-- A dial that fails because the network is unreachable. -/
def unreachableDial : String → Option String :=
  fun _ => some "connect: network is unreachable"

/-- A remote host as seen through Go's address parser: `127.0.0.1` and `::1`
parse to loopback addresses, a bracketed literal does not parse and so is not
one; the dial finds `[::1]:22` open; the engine reports port 22 open. -/
def bracketEnv : Env where
  isLocalExec := fun _ _ => false
  IsLoopback := fun ip => ip == "127.0.0.1" || ip == "::1"
  nativeScanPort := fun s => (s == "[::1]:22", none)
  NewScanner := fun _ => none
  Run := fun inv => ([{ Ports := [⟨22, "open"⟩], Addresses := [inv.target] }], none)

/-- The external engine is selected, with a technique identifier that is not in
the table. -/
def badConf : PortScanConf := ⟨"/usr/bin/nmap", false, "sZ"⟩

/-- An inventory whose walk sees, for the host address `192.168.1.10`, port 80
declared under the address, then port 22 declared with the wildcard, then port
443 declared under the address. -/
def orderBase : base :=
  ⟨[("web", ⟨[⟨[⟨"192.168.1.10", "80", []⟩, ⟨"*", "22", []⟩,
      ⟨"192.168.1.10", "443", []⟩]⟩]⟩)], oneAddr⟩

/-- The iteration orders of `Schedule.stored`, except that the loop over the
intermediate map `scanIPPortsMap` visits the entries in the opposite order. -/
def Schedule.wildcardFirst : Schedule :=
  ⟨RangeOrder.stored _, RangeOrder.backward _, RangeOrder.stored _, RangeOrder.stored _,
    RangeOrder.stored _⟩

theorem LastIndex_cons (c x : Char) (xs : List Char) :
    LastIndex c (x :: xs) =
      if 0 ≤ LastIndex c xs then LastIndex c xs + 1 else if x = c then 0 else -1 := rfl

theorem LastIndex_ge (c : Char) (s : List Char) : -1 ≤ LastIndex c s := by
  induction s with
  | nil => simp [LastIndex]
  | cons x xs ih =>
    simp only [LastIndex]
    split_ifs <;> omega

theorem LastIndex_nonneg_iff (c : Char) (s : List Char) : 0 ≤ LastIndex c s ↔ c ∈ s := by
  induction s with
  | nil => simp [LastIndex]
  | cons x xs ih =>
    simp only [LastIndex, List.mem_cons]
    have hge := LastIndex_ge c xs
    by_cases h : 0 ≤ LastIndex c xs
    · simp only [h, if_true]
      constructor
      · intro _; exact Or.inr (ih.mp h)
      · intro _; omega
    · simp only [h, if_false]
      have hn : c ∉ xs := fun hm => h (ih.mpr hm)
      by_cases hx : x = c
      · simp [hx]
      · simp only [hx, if_false]
        constructor
        · intro h0; omega
        · rintro (h1 | h1)
          · exact absurd h1.symm hx
          · exact absurd h1 hn

theorem LastIndex_eq_neg_one_iff (c : Char) (s : List Char) : LastIndex c s = -1 ↔ c ∉ s := by
  have h1 := LastIndex_ge c s
  have h2 := LastIndex_nonneg_iff c s
  constructor
  · intro h hm
    have := h2.mpr hm
    omega
  · intro h
    have : ¬ 0 ≤ LastIndex c s := fun h0 => h (h2.mp h0)
    omega

theorem LastIndex_append_of_mem (c : Char) (xs ys : List Char) (h : c ∈ ys) :
    LastIndex c (xs ++ ys) = (xs.length : Int) + LastIndex c ys := by
  induction xs with
  | nil => simp
  | cons x xs ih =>
    have h0 : 0 ≤ LastIndex c ys := (LastIndex_nonneg_iff c ys).mpr h
    have : 0 ≤ (xs.length : Int) + LastIndex c ys := by omega
    rw [List.cons_append, LastIndex_cons, ih, if_pos this, List.length_cons]
    omega

theorem LastIndex_append_cons_of_not_mem (c : Char) (xs ys : List Char) (h : c ∉ ys) :
    LastIndex c (xs ++ c :: ys) = (xs.length : Int) := by
  have h1 : LastIndex c (c :: ys) = 0 := by
    have := (LastIndex_eq_neg_one_iff c ys).mpr h
    simp [LastIndex, this]
  rw [LastIndex_append_of_mem c xs (c :: ys) (List.mem_cons_self c ys), h1]
  simp

/-- Splitting `address:port` at the last colon gives back the two parts when the
port has no colon. -/
theorem parseListenPorts_join (a p : String) (h : ':' ∉ p.data) :
    parseListenPorts (a ++ ":" ++ p) = ⟨a, p, []⟩ := by
  have hd : (a ++ ":" ++ p).data = a.data ++ ':' :: p.data := by
    simp [String.data_append]
  have hl := LastIndex_append_cons_of_not_mem ':' a.data p.data h
  unfold parseListenPorts
  simp only [hd, hl]
  have hne : ¬ ((a.data.length : Int) = -1) := by omega
  simp only [hne, if_false, Int.toNat_ofNat]
  have h1 : List.take a.data.length (a.data ++ ':' :: p.data) = a.data := by simp
  have h2 : List.drop (a.data.length + 1) (a.data ++ ':' :: p.data) = p.data := by
    rw [List.drop_append]; rfl
  rw [h1, h2]

/-- A string with a colon is cut at its last colon: the two parts joined by a
colon give the string back and the port part has no colon. -/
theorem parseListenPorts_split (s : String) (h : ':' ∈ s.data) :
    (parseListenPorts s).Address ++ ":" ++ (parseListenPorts s).Port = s ∧
      ':' ∉ (parseListenPorts s).Port.data := by
  obtain ⟨xs, ys, hs, hys⟩ : ∃ xs ys, s.data = xs ++ ':' :: ys ∧ ':' ∉ ys := by
    have : ∀ l : List Char, ':' ∈ l → ∃ xs ys, l = xs ++ ':' :: ys ∧ ':' ∉ ys := by
      intro l
      induction l with
      | nil => intro hm; simp at hm
      | cons x l ih =>
        intro hm
        by_cases hl : ':' ∈ l
        · obtain ⟨xs, ys, e, hy⟩ := ih hl
          exact ⟨x :: xs, ys, by simp [e], hy⟩
        · have hx : x = ':' := by
            rcases List.mem_cons.mp hm with h1 | h1
            · exact h1.symm
            · exact absurd h1 hl
          exact ⟨[], l, by simp [hx], hl⟩
    exact this s.data h
  have e : s = String.mk xs ++ ":" ++ String.mk ys := by
    apply String.ext
    simp [String.data_append, hs]
  have hp := parseListenPorts_join (String.mk xs) (String.mk ys) hys
  rw [e, hp]
  exact ⟨rfl, hys⟩

theorem parseListenPorts_no_colon (s : String) (h : ':' ∉ s.data) :
    parseListenPorts s = ⟨"", "", []⟩ := by
  unfold parseListenPorts
  simp [(LastIndex_eq_neg_one_iff ':' s.data).mpr h]


/-! ## Loops that append to an accumulator -/

theorem foldl_append_if {α β : Type} (P : α → Bool) (f : α → β) (l : List α) (init : List β) :
    l.foldl (fun acc x => if P x then acc ++ [f x] else acc) init =
      init ++ (l.filter P).map f := by
  induction l generalizing init with
  | nil => simp
  | cons x l ih =>
    rw [List.foldl_cons, ih]
    by_cases h : P x <;> simp [h, List.filter_cons]

theorem findPortScanSuccessOn_eq (l : List String) (e : ListenPort) :
    findPortScanSuccessOn l e =
      ((l.map parseListenPorts).filter (fun q =>
        decide (q.Port = e.Port ∧ (e.Address = "*" ∨ e.Address = q.Address)))).map
        (fun q => q.Address) := by
  unfold findPortScanSuccessOn
  have hstep : (fun (addrs : List String) (ipPort : String) =>
      let ipPort := parseListenPorts ipPort
      if e.Address = "*" then
        if e.Port = ipPort.Port then addrs ++ [ipPort.Address] else addrs
      else if e.Address = ipPort.Address ∧ e.Port = ipPort.Port then
        addrs ++ [ipPort.Address]
      else addrs) =
      (fun addrs ipPort =>
        if (fun s => decide ((parseListenPorts s).Port = e.Port ∧
            (e.Address = "*" ∨ e.Address = (parseListenPorts s).Address))) ipPort
        then addrs ++ [(fun s => (parseListenPorts s).Address) ipPort] else addrs) := by
    funext addrs ipPort
    by_cases h1 : e.Address = "*"
    · by_cases h2 : e.Port = (parseListenPorts ipPort).Port
      · simp [h1, h2]
      · have h2' : ¬ (parseListenPorts ipPort).Port = e.Port := fun h => h2 h.symm
        simp [h1, h2, h2']
    · by_cases h2 : e.Port = (parseListenPorts ipPort).Port
      · by_cases h3 : e.Address = (parseListenPorts ipPort).Address
        · simp [h1, h2, h3]
        · simp [h1, h2, h3]
      · have h2' : ¬ (parseListenPorts ipPort).Port = e.Port := fun h => h2 h.symm
        simp [h1, h2, h2']
  rw [hstep, foldl_append_if]
  simp [List.filter_map, List.map_map, Function.comp_def]

/-- C1. `findPortScanSuccessOn` returns, in the order of the probe result, the
address part of exactly those strings whose port part is the port of the entry
and whose address part is the address of the entry, or any address when the
entry declares the wildcard. The parts of a string are those of
`parseListenPorts`: a string with a colon is cut at its last colon (the parts
joined by a colon give the string back and the port part has no colon), a
string without a colon has empty parts. The two scenarios of the
specification are instances. -/
theorem findPortScanSuccessOn_spec :
    (∀ (l : List String) (e : ListenPort),
      findPortScanSuccessOn l e =
        ((l.map parseListenPorts).filter (fun q =>
          decide (q.Port = e.Port ∧ (e.Address = "*" ∨ e.Address = q.Address)))).map
          (fun q => q.Address)) ∧
    (∀ s : String, ':' ∈ s.data →
      (parseListenPorts s).Address ++ ":" ++ (parseListenPorts s).Port = s ∧
        ':' ∉ (parseListenPorts s).Port.data) ∧
    (∀ s : String, ':' ∉ s.data → parseListenPorts s = ⟨"", "", []⟩) ∧
    findPortScanSuccessOn ["10.0.0.5:80"] ⟨"*", "80", []⟩ = ["10.0.0.5"] ∧
    findPortScanSuccessOn ["10.0.0.5:80"] ⟨"10.0.0.9", "80", []⟩ = [] :=
  ⟨findPortScanSuccessOn_eq, parseListenPorts_split, parseListenPorts_no_colon,
    by decide, by decide⟩

/-- Witness of C1 on a probe result of three strings and a wildcard entry. -/
theorem findPortScanSuccessOn_spec_witness :
    findPortScanSuccessOn ["10.0.0.5:80", "10.0.0.6:443", "[::1]:80"] ⟨"*", "80", []⟩ =
        ["10.0.0.5", "[::1]"] ∧
      (parseListenPorts "[::1]:80").Address ++ ":" ++ (parseListenPorts "[::1]:80").Port =
        "[::1]:80" :=
  ⟨(findPortScanSuccessOn_spec.1 _ _).trans (by decide),
    (findPortScanSuccessOn_spec.2.1 "[::1]:80" (by decide)).1⟩


/-- C8. The technique table: the empty identifier gives the SYN scan when
privileged and the connect scan when not; the eight named identifiers give
their technique whatever the privilege flag; every other string, such as one
in another letter case or with surrounding blanks, gives no technique and the
error naming the unsupported identifier. -/
theorem setScanTechnique_table :
    (∀ bin, setScanTechnique ⟨bin, true, ""⟩ = (some Technique.SYNScan, none)) ∧
    (∀ bin, setScanTechnique ⟨bin, false, ""⟩ = (some Technique.ConnectScan, none)) ∧
    (∀ bin priv, setScanTechnique ⟨bin, priv, "sS"⟩ = (some Technique.SYNScan, none)) ∧
    (∀ bin priv, setScanTechnique ⟨bin, priv, "sT"⟩ = (some Technique.ConnectScan, none)) ∧
    (∀ bin priv, setScanTechnique ⟨bin, priv, "sN"⟩ = (some Technique.TCPNullScan, none)) ∧
    (∀ bin priv, setScanTechnique ⟨bin, priv, "sF"⟩ = (some Technique.TCPFINScan, none)) ∧
    (∀ bin priv, setScanTechnique ⟨bin, priv, "sX"⟩ = (some Technique.TCPXmasScan, none)) ∧
    (∀ bin priv, setScanTechnique ⟨bin, priv, "sA"⟩ = (some Technique.ACKScan, none)) ∧
    (∀ bin priv, setScanTechnique ⟨bin, priv, "sW"⟩ = (some Technique.WindowScan, none)) ∧
    (∀ bin priv, setScanTechnique ⟨bin, priv, "sM"⟩ = (some Technique.MaimonScan, none)) ∧
    (∀ conf : PortScanConf,
      conf.ScanTechnique ∉ ["", "sS", "sT", "sN", "sF", "sX", "sA", "sW", "sM"] →
      setScanTechnique conf =
        (none, some ("Failed to setScanTechnique. cannot support ScanTechnique: "
          ++ conf.ScanTechnique))) ∧
    (∀ bin priv, (setScanTechnique ⟨bin, priv, "SS"⟩).1 = none ∧
      (setScanTechnique ⟨bin, priv, "ss"⟩).1 = none ∧
      (setScanTechnique ⟨bin, priv, " sS"⟩).1 = none ∧
      (setScanTechnique ⟨bin, priv, "sS "⟩).1 = none ∧
      (setScanTechnique ⟨bin, priv, "-sS"⟩).1 = none) := by
  refine ⟨?_, ?_, ?_, ?_, ?_, ?_, ?_, ?_, ?_, ?_, ?_, ?_⟩
  · intro bin; simp [setScanTechnique]
  · intro bin; simp [setScanTechnique]
  · intro bin priv; simp [setScanTechnique]
  · intro bin priv; simp [setScanTechnique]
  · intro bin priv; simp [setScanTechnique]
  · intro bin priv; simp [setScanTechnique]
  · intro bin priv; simp [setScanTechnique]
  · intro bin priv; simp [setScanTechnique]
  · intro bin priv; simp [setScanTechnique]
  · intro bin priv; simp [setScanTechnique]
  · intro conf h
    simp only [List.mem_cons, List.mem_singleton, List.not_mem_nil, or_false, not_or] at h
    obtain ⟨h0, h1, h2, h3, h4, h5, h6, h7, h8⟩ := h
    simp [setScanTechnique, h0, h1, h2, h3, h4, h5, h6, h7, h8]
  · intro bin priv
    simp [setScanTechnique]

/-- Witness of C8: the identifier `sZ` is outside the table. -/
theorem setScanTechnique_table_witness :
    setScanTechnique ⟨"/usr/bin/nmap", true, "sZ"⟩ =
      (none, some "Failed to setScanTechnique. cannot support ScanTechnique: sZ") :=
  (setScanTechnique_table.2.2.2.2.2.2.2.2.2.2.1 ⟨"/usr/bin/nmap", true, "sZ"⟩
    (by decide)).trans (by decide)


/-! ## The native engine -/

theorem nativePortLoop_ok (env : Env) (ip : String) (ports acc : List String)
    (h : ∀ port ∈ ports, (env.nativeScanPort (ip ++ ":" ++ port)).2 = none) :
    nativePortLoop env ip ports acc = (acc ++ nativeOpen env ip ports, none) := by
  induction ports generalizing acc with
  | nil => simp [nativePortLoop, nativeOpen]
  | cons port more ih =>
    have h1 := h port (List.mem_cons_self _ _)
    have h2 : ∀ q ∈ more, (env.nativeScanPort (ip ++ ":" ++ q)).2 = none :=
      fun q hq => h q (List.mem_cons_of_mem _ hq)
    rcases hs : env.nativeScanPort (ip ++ ":" ++ port) with ⟨isOpen, err⟩
    rw [hs] at h1
    simp only at h1
    subst h1
    simp only [nativePortLoop, hs]
    rw [ih _ h2]
    cases isOpen <;> simp [nativeOpen, List.filter_cons, hs]

theorem nativePortLoop_err (env : Env) (ip : String) (ports acc : List String)
    (h : ∃ port ∈ ports, (env.nativeScanPort (ip ++ ":" ++ port)).2 ≠ none) :
    ∃ err, nativePortLoop env ip ports acc = ([], some err) ∧
      ∃ port ∈ ports, (env.nativeScanPort (ip ++ ":" ++ port)).2 = some err := by
  induction ports generalizing acc with
  | nil => obtain ⟨p, hp, _⟩ := h; simp at hp
  | cons port more ih =>
    rcases hs : env.nativeScanPort (ip ++ ":" ++ port) with ⟨isOpen, err⟩
    cases err with
    | some e =>
      refine ⟨e, ?_, port, List.mem_cons_self _ _, ?_⟩
      · simp [nativePortLoop, hs]
      · simp [hs]
    | none =>
      have h2 : ∃ q ∈ more, (env.nativeScanPort (ip ++ ":" ++ q)).2 ≠ none := by
        obtain ⟨q, hq, hne⟩ := h
        rcases List.mem_cons.mp hq with rfl | hq
        · rw [hs] at hne; exact absurd rfl hne
        · exact ⟨q, hq, hne⟩
      obtain ⟨e, he, q, hq, hqe⟩ := ih (if isOpen then acc ++ [ip ++ ":" ++ port] else acc) h2
      refine ⟨e, ?_, q, List.mem_cons_of_mem _ hq, hqe⟩
      simp only [nativePortLoop, hs]
      exact he

theorem nativeLoop_ok (env : Env) (si : ServerInfo) (es : List (String × List String))
    (acc : List String)
    (h : ∀ e ∈ es, skipped env si e.1 = false →
      ∀ port ∈ e.2, (env.nativeScanPort (e.1 ++ ":" ++ port)).2 = none) :
    nativeLoop env si es acc =
      (acc ++ (es.filter (fun e => !skipped env si e.1)).flatMap
        (fun e => nativeOpen env e.1 e.2), none) := by
  induction es generalizing acc with
  | nil => simp [nativeLoop]
  | cons e es ih =>
    obtain ⟨ip, ports⟩ := e
    have h2 : ∀ e ∈ es, skipped env si e.1 = false →
        ∀ port ∈ e.2, (env.nativeScanPort (e.1 ++ ":" ++ port)).2 = none :=
      fun e he => h e (List.mem_cons_of_mem _ he)
    by_cases hsk : skipped env si ip = true
    · have hc : (!env.isLocalExec si.Port si.Host && env.IsLoopback ip) = true := hsk
      simp only [nativeLoop, hc, if_true]
      rw [ih _ h2]
      simp [List.filter_cons, hsk]
    · have hsk' : skipped env si ip = false := by simpa using hsk
      have hc : (!env.isLocalExec si.Port si.Host && env.IsLoopback ip) = false := hsk'
      have h1 := nativePortLoop_ok env ip ports acc
        (h (ip, ports) (List.mem_cons_self _ _) hsk')
      simp only [nativeLoop, hc, h1, Bool.false_eq_true, if_false]
      rw [ih _ h2]
      simp [List.filter_cons, hsk']

theorem nativeLoop_err (env : Env) (si : ServerInfo) (es : List (String × List String))
    (acc : List String)
    (h : ∃ e ∈ es, skipped env si e.1 = false ∧
      ∃ port ∈ e.2, (env.nativeScanPort (e.1 ++ ":" ++ port)).2 ≠ none) :
    ∃ err, nativeLoop env si es acc = ([], some err) ∧
      ∃ e ∈ es, skipped env si e.1 = false ∧
        ∃ port ∈ e.2, (env.nativeScanPort (e.1 ++ ":" ++ port)).2 = some err := by
  induction es generalizing acc with
  | nil => obtain ⟨e, he, _⟩ := h; simp at he
  | cons e es ih =>
    obtain ⟨ip, ports⟩ := e
    by_cases hsk : skipped env si ip = true
    · have hc : (!env.isLocalExec si.Port si.Host && env.IsLoopback ip) = true := hsk
      have h2 : ∃ e ∈ es, skipped env si e.1 = false ∧
          ∃ port ∈ e.2, (env.nativeScanPort (e.1 ++ ":" ++ port)).2 ≠ none := by
        obtain ⟨e, he, hs, hp⟩ := h
        rcases List.mem_cons.mp he with rfl | he
        · simp [hsk] at hs
        · exact ⟨e, he, hs, hp⟩
      obtain ⟨err, he, e, hem, hr⟩ := ih acc h2
      refine ⟨err, ?_, e, List.mem_cons_of_mem _ hem, hr⟩
      simp only [nativeLoop, hc, if_true]
      exact he
    · have hsk' : skipped env si ip = false := by simpa using hsk
      have hc : (!env.isLocalExec si.Port si.Host && env.IsLoopback ip) = false := hsk'
      by_cases hp : ∃ port ∈ ports, (env.nativeScanPort (ip ++ ":" ++ port)).2 ≠ none
      · obtain ⟨err, he, q, hq, hqe⟩ := nativePortLoop_err env ip ports acc hp
        refine ⟨err, ?_, (ip, ports), List.mem_cons_self _ _, hsk', q, hq, hqe⟩
        simp only [nativeLoop, hc, he, Bool.false_eq_true, if_false]
      · have hall : ∀ port ∈ ports, (env.nativeScanPort (ip ++ ":" ++ port)).2 = none := by
          intro port hport
          by_contra hne
          exact hp ⟨port, hport, hne⟩
        have h1 := nativePortLoop_ok env ip ports acc hall
        have h2 : ∃ e ∈ es, skipped env si e.1 = false ∧
            ∃ port ∈ e.2, (env.nativeScanPort (e.1 ++ ":" ++ port)).2 ≠ none := by
          obtain ⟨e, he, hs, hq⟩ := h
          rcases List.mem_cons.mp he with rfl | he
          · exact absurd hq hp
          · exact ⟨e, he, hs, hq⟩
        obtain ⟨err, he, e, hem, hr⟩ := ih (acc ++ nativeOpen env ip ports) h2
        refine ⟨err, ?_, e, List.mem_cons_of_mem _ hem, hr⟩
        simp only [nativeLoop, hc, h1, Bool.false_eq_true, if_false]
        exact he


theorem join_injective (a b p q : String) (hp : ':' ∉ p.data) (hq : ':' ∉ q.data)
    (h : a ++ ":" ++ p = b ++ ":" ++ q) : a = b ∧ p = q := by
  have h1 := parseListenPorts_join a p hp
  rw [h, parseListenPorts_join b q hq] at h1
  injection h1 with h2 h3 _
  exact ⟨h2.symm, h3.symm⟩

theorem mem_nativeOpen (env : Env) (ip : String) (ports : List String) (s : String) :
    s ∈ nativeOpen env ip ports ↔
      ∃ port ∈ ports, s = ip ++ ":" ++ port ∧ (env.nativeScanPort s).1 = true := by
  unfold nativeOpen
  simp only [List.mem_filter, List.mem_map]
  constructor
  · rintro ⟨⟨port, hp, rfl⟩, ho⟩
    exact ⟨port, hp, rfl, ho⟩
  · rintro ⟨port, hp, rfl, ho⟩
    exact ⟨⟨port, hp, rfl⟩, ho⟩

theorem nodup_nativeOpen (env : Env) (ip : String) (ports : List String) (hn : ports.Nodup)
    (hc : ∀ port ∈ ports, ':' ∉ port.data) : (nativeOpen env ip ports).Nodup := by
  unfold nativeOpen
  apply List.Nodup.filter
  apply List.Nodup.map_on _ hn
  intro x hx y hy hxy
  exact (join_injective ip ip x y (hc x hx) (hc y hy) hxy).2

theorem nodup_flatMap_nativeOpen (env : Env) (es : List (String × List String))
    (hk : (keys es).Nodup)
    (hp : ∀ e ∈ es, e.2.Nodup ∧ ∀ port ∈ e.2, ':' ∉ port.data) :
    (es.flatMap (fun e => nativeOpen env e.1 e.2)).Nodup := by
  rw [List.nodup_flatMap]
  refine ⟨fun e he => nodup_nativeOpen env e.1 e.2 (hp e he).1 (hp e he).2, ?_⟩
  have hpw : es.Pairwise (fun a b => a.1 ≠ b.1) := by
    have := hk
    unfold keys at this
    exact (List.pairwise_map.mp this)
  refine List.Pairwise.imp_of_mem ?_ hpw
  intro a b ha hb hab
  show List.Disjoint _ _
  intro s hsa hsb
  obtain ⟨p, hpm, rfl, _⟩ := (mem_nativeOpen env a.1 a.2 s).mp hsa
  obtain ⟨q, hqm, hq, _⟩ := (mem_nativeOpen env b.1 b.2 _).mp hsb
  exact hab (join_injective a.1 b.1 p q ((hp a ha).2 p hpm) ((hp b hb).2 q hqm) hq).1

theorem keys_perm {V : Type} {m m' : GoMap V} (h : List.Perm m m') :
    List.Perm (keys m) (keys m') := h.map _

/-- C10. The native engine over a dial oracle. When no address:port pair that
is not skipped yields an error, `execNativePortScan` returns without error the
strings `address:port` of the pairs that are not skipped and that the oracle
reports open, one for each such pair, in the order of the visit: a rearrangement
of the same list taken over the target map as it is kept; a string is in the
result exactly when it is such a pair, and no string occurs twice when the keys
are distinct and the ports of each address are distinct and without colon.
When some pair that is not skipped yields an error, the call returns the empty
list together with the error of such a pair. -/
theorem execNativePortScan_result (env : Env) (o : RangeOrder (String × List String))
    (l : base) (dest : GoMap (List String)) :
    ((∀ e ∈ dest, skipped env l.ServerInfo e.1 = false →
        ∀ port ∈ e.2, (env.nativeScanPort (e.1 ++ ":" ++ port)).2 = none) →
      execNativePortScan env o l dest =
          (((o.visit dest).filter (fun e => !skipped env l.ServerInfo e.1)).flatMap
            (fun e => nativeOpen env e.1 e.2), none) ∧
        List.Perm (execNativePortScan env o l dest).1
          ((dest.filter (fun e => !skipped env l.ServerInfo e.1)).flatMap
            (fun e => nativeOpen env e.1 e.2)) ∧
        (∀ s, s ∈ (execNativePortScan env o l dest).1 ↔
          ∃ e ∈ dest, skipped env l.ServerInfo e.1 = false ∧
            ∃ port ∈ e.2, s = e.1 ++ ":" ++ port ∧ (env.nativeScanPort s).1 = true) ∧
        ((keys dest).Nodup → (∀ e ∈ dest, e.2.Nodup ∧ ∀ port ∈ e.2, ':' ∉ port.data) →
          (execNativePortScan env o l dest).1.Nodup)) ∧
    ((∃ e ∈ dest, skipped env l.ServerInfo e.1 = false ∧
        ∃ port ∈ e.2, (env.nativeScanPort (e.1 ++ ":" ++ port)).2 ≠ none) →
      ∃ err, execNativePortScan env o l dest = ([], some err) ∧
        ∃ e ∈ dest, skipped env l.ServerInfo e.1 = false ∧
          ∃ port ∈ e.2, (env.nativeScanPort (e.1 ++ ":" ++ port)).2 = some err) := by
  have hperm := o.perm dest
  constructor
  · intro h
    have hv : ∀ e ∈ o.visit dest, skipped env l.ServerInfo e.1 = false →
        ∀ port ∈ e.2, (env.nativeScanPort (e.1 ++ ":" ++ port)).2 = none :=
      fun e he => h e (hperm.mem_iff.mp he)
    have heq := nativeLoop_ok env l.ServerInfo (o.visit dest) [] hv
    rw [List.nil_append] at heq
    have hp : List.Perm
        (((o.visit dest).filter (fun e => !skipped env l.ServerInfo e.1)).flatMap
          (fun e => nativeOpen env e.1 e.2))
        ((dest.filter (fun e => !skipped env l.ServerInfo e.1)).flatMap
          (fun e => nativeOpen env e.1 e.2)) :=
      (hperm.filter _).flatMap_right _
    unfold execNativePortScan
    rw [heq]
    refine ⟨rfl, hp, ?_, ?_⟩
    · intro s
      rw [hp.mem_iff]
      simp only [List.mem_flatMap, List.mem_filter, mem_nativeOpen]
      constructor
      · rintro ⟨e, ⟨he, hs⟩, port, hport, rfl, ho⟩
        exact ⟨e, he, by simpa using hs, port, hport, rfl, ho⟩
      · rintro ⟨e, he, hs, port, hport, rfl, ho⟩
        exact ⟨e, ⟨he, by simpa using hs⟩, port, hport, rfl, ho⟩
    · intro hk hports
      apply hp.nodup_iff.mpr
      apply nodup_flatMap_nativeOpen
      · exact List.Nodup.sublist ((List.filter_sublist _).map _) hk
      · intro e he
        exact hports e (List.mem_of_mem_filter he)
  · rintro ⟨e, he, hs, hp⟩
    obtain ⟨err, hres, e', he', hr⟩ := nativeLoop_err env l.ServerInfo (o.visit dest) []
      ⟨e, hperm.mem_iff.mpr he, hs, hp⟩
    exact ⟨err, hres, e', hperm.mem_iff.mp he', hr⟩

/-- Witness of C10: a target map of three addresses without fatal error (the
loopback address is skipped), and one with a fatal error after an open port. -/
theorem execNativePortScan_result_witness :
    execNativePortScan remoteEnv (RangeOrder.stored _) ⟨[], oneAddr⟩
        [("192.168.1.10", ["22", "80"]), ("127.0.0.1", ["22"]), ("10.0.0.5", ["80"])] =
      (["192.168.1.10:22", "10.0.0.5:80"], none) ∧
    (∃ err, execNativePortScan remoteEnv (RangeOrder.stored _) ⟨[], oneAddr⟩
        [("192.168.1.10", ["22"]), ("10.0.0.7", ["1"])] = ([], some err)) :=
  ⟨(((execNativePortScan_result remoteEnv (RangeOrder.stored _) ⟨[], oneAddr⟩
      [("192.168.1.10", ["22", "80"]), ("127.0.0.1", ["22"]), ("10.0.0.5", ["80"])]).1
      (by decide)).1).trans (by decide),
    (((execNativePortScan_result remoteEnv (RangeOrder.stored _) ⟨[], oneAddr⟩
      [("192.168.1.10", ["22"]), ("10.0.0.7", ["1"])]).2 (by decide)).imp
      (fun _ h => h.1))⟩


/-! ## The external engine -/

theorem startsWith_iff (sub s : List Char) :
    startsWith sub s = true ↔ ∃ t, s = sub ++ t := by
  induction sub generalizing s with
  | nil => simp [startsWith]
  | cons a sub ih =>
    cases s with
    | nil => simp [startsWith]
    | cons b s =>
      simp only [startsWith, Bool.and_eq_true, beq_iff_eq, ih, List.cons_append,
        List.cons.injEq]
      constructor
      · rintro ⟨rfl, t, rfl⟩
        exact ⟨t, rfl, rfl⟩
      · rintro ⟨t, rfl, rfl⟩
        exact ⟨rfl, t, rfl⟩

/-- The test `Contains` holds exactly when the second string occurs in the first
as a contiguous block. -/
theorem Contains_iff (s sub : String) :
    Contains s sub = true ↔ ∃ pre post, s.data = pre ++ sub.data ++ post := by
  unfold Contains
  generalize s.data = cs
  generalize sub.data = bs
  induction cs with
  | nil =>
    simp only [containsChars, startsWith_iff]
    constructor
    · rintro ⟨t, ht⟩
      exact ⟨[], t, by simpa using ht⟩
    · rintro ⟨pre, post, h⟩
      have h1 : pre = [] ∧ bs = [] ∧ post = [] := by
        have := congrArg List.length h
        simp at this
        simpa [List.length_eq_zero] using (show pre.length = 0 ∧ bs.length = 0 ∧
          post.length = 0 by omega)
      exact ⟨[], by simp [h1.2.1]⟩
  | cons c cs ih =>
    simp only [containsChars, Bool.or_eq_true, startsWith_iff, ih]
    constructor
    · rintro (⟨t, ht⟩ | ⟨pre, post, h⟩)
      · exact ⟨[], t, by simpa using ht⟩
      · exact ⟨c :: pre, post, by simp [h]⟩
    · rintro ⟨pre, post, h⟩
      cases pre with
      | nil => exact Or.inl ⟨post, by simpa using h⟩
      | cons x pre =>
        simp only [List.cons_append, List.cons.injEq] at h
        exact Or.inr ⟨pre, post, h.2⟩

theorem recordPorts_eq (ip : String) (ports : List NmapPort) (acc : List String) :
    recordPorts ip ports acc =
      acc ++ (ports.filter (fun port => Contains port.Status "open")).map
        (fun port => ip ++ ":" ++ toString port.ID) := by
  unfold recordPorts
  exact foldl_append_if (fun port : NmapPort => Contains port.Status "open")
    (fun port => ip ++ ":" ++ toString port.ID) ports acc

theorem recordHosts_eq (ip : String) (hosts : List NmapHost) (acc : List String) :
    recordHosts ip hosts acc = acc ++ recordedOf ip hosts := by
  unfold recordHosts recordedOf
  induction hosts generalizing acc with
  | nil => simp
  | cons host hosts ih =>
    rw [List.foldl_cons, ih]
    by_cases h : host.Ports = [] ∨ host.Addresses = []
    · have h' : host.Ports.length = 0 ∨ host.Addresses.length = 0 := by
        simpa [List.length_eq_zero] using h
      simp [h, h']
    · have h' : ¬ (host.Ports.length = 0 ∨ host.Addresses.length = 0) := by
        simpa [List.length_eq_zero] using h
      simp only [h', if_false, recordPorts_eq, List.flatMap_cons, h, List.append_assoc]

theorem externalLoop_ok (env : Env) (conf : PortScanConf) (si : ServerInfo) (t : Technique)
    (es : List (String × List String)) (acc : List String)
    (hN : env.NewScanner conf.ScannerBinPath = none)
    (hT : setScanTechnique conf = (some t, none))
    (hB : ∀ e ∈ es, skipped env si e.1 = false →
      ∃ inv, buildInvocation conf t e.1 e.2 = some inv ∧ (env.Run inv).2 = none) :
    externalLoop env conf si es acc =
      some (acc ++ (es.filter (fun e => !skipped env si e.1)).flatMap
        (fun e => recordedOf e.1 (engineHosts env conf t e.1 e.2)), none) := by
  induction es generalizing acc with
  | nil => simp [externalLoop]
  | cons e es ih =>
    obtain ⟨ip, ports⟩ := e
    have h2 : ∀ e ∈ es, skipped env si e.1 = false →
        ∃ inv, buildInvocation conf t e.1 e.2 = some inv ∧ (env.Run inv).2 = none :=
      fun e he => hB e (List.mem_cons_of_mem _ he)
    by_cases hsk : skipped env si ip = true
    · have hc : (!env.isLocalExec si.Port si.Host && env.IsLoopback ip) = true := hsk
      simp only [externalLoop, hc, if_true]
      rw [ih _ h2]
      simp [List.filter_cons, hsk]
    · have hsk' : skipped env si ip = false := by simpa using hsk
      have hc : (!env.isLocalExec si.Port si.Host && env.IsLoopback ip) = false := hsk'
      obtain ⟨inv, hinv, hrun⟩ := hB (ip, ports) (List.mem_cons_self _ _) hsk'
      rcases hr : env.Run inv with ⟨hosts, err⟩
      rw [hr] at hrun
      simp only at hrun
      subst hrun
      have hh : engineHosts env conf t ip ports = hosts := by
        simp [engineHosts, hinv, hr]
      simp only [externalLoop, hc, hN, hT, hinv, hr, Bool.false_eq_true, if_false]
      rw [ih _ h2, recordHosts_eq]
      simp [List.filter_cons, hsk', hh]


theorem mem_recordedOf (ip : String) (hosts : List NmapHost) (s : String) :
    s ∈ recordedOf ip hosts ↔
      ∃ host ∈ hosts, host.Ports ≠ [] ∧ host.Addresses ≠ [] ∧
        ∃ port ∈ host.Ports, Contains port.Status "open" = true ∧
          s = ip ++ ":" ++ toString port.ID := by
  unfold recordedOf
  simp only [List.mem_flatMap]
  constructor
  · rintro ⟨host, hh, hs⟩
    by_cases h : host.Ports = [] ∨ host.Addresses = []
    · simp [h] at hs
    · rw [if_neg h] at hs
      obtain ⟨port, hp, rfl⟩ := List.mem_map.mp hs
      obtain ⟨hp1, hp2⟩ := List.mem_filter.mp hp
      exact ⟨host, hh, fun e => h (Or.inl e), fun e => h (Or.inr e), port, hp1, hp2, rfl⟩
  · rintro ⟨host, hh, h1, h2, port, hp, ho, rfl⟩
    refine ⟨host, hh, ?_⟩
    have h : ¬ (host.Ports = [] ∨ host.Addresses = []) := by
      rintro (e | e)
      · exact h1 e
      · exact h2 e
    rw [if_neg h]
    exact List.mem_map.mpr ⟨port, List.mem_filter.mpr ⟨hp, ho⟩, rfl⟩

/-- C9, as the code has it. When the scanner can be created, the technique is
supported and every invocation for an address that is not skipped is built and
run without error, `execExternalPortScan` returns without error, for the
addresses that are not skipped in the order of the visit, the strings
`address:port` of exactly the reported ports whose host reports at least one
port and at least one address and whose status contains `open` as a
contiguous block: the status `open` and also `open|filtered` are recorded,
`closed` and `filtered` are not. -/
theorem execExternalPortScan_records (env : Env) (conf : PortScanConf)
    (o : RangeOrder (String × List String)) (l : base) (dest : GoMap (List String))
    (t : Technique)
    (hN : env.NewScanner conf.ScannerBinPath = none)
    (hT : setScanTechnique conf = (some t, none))
    (hB : ∀ e ∈ dest, skipped env l.ServerInfo e.1 = false →
      ∃ inv, buildInvocation conf t e.1 e.2 = some inv ∧ (env.Run inv).2 = none) :
    (∃ out, execExternalPortScan env conf o l dest = some (out, none) ∧
      out = ((o.visit dest).filter (fun e => !skipped env l.ServerInfo e.1)).flatMap
        (fun e => recordedOf e.1 (engineHosts env conf t e.1 e.2)) ∧
      ∀ s, s ∈ out ↔
        ∃ e ∈ dest, skipped env l.ServerInfo e.1 = false ∧
          ∃ host ∈ engineHosts env conf t e.1 e.2, host.Ports ≠ [] ∧ host.Addresses ≠ [] ∧
            ∃ port ∈ host.Ports, Contains port.Status "open" = true ∧
              s = e.1 ++ ":" ++ toString port.ID) ∧
    (∀ status : String, Contains status "open" = true ↔
      ∃ pre post, status.data = pre ++ "open".data ++ post) ∧
    Contains "open" "open" = true ∧ Contains "open|filtered" "open" = true ∧
    Contains "closed" "open" = false ∧ Contains "filtered" "open" = false := by
  have hperm := o.perm dest
  refine ⟨⟨_, ?_, rfl, ?_⟩, fun status => Contains_iff status "open", by decide, by decide,
    by decide, by decide⟩
  · have := externalLoop_ok env conf l.ServerInfo t (o.visit dest) [] hN hT
      (fun e he => hB e (hperm.mem_iff.mp he))
    rw [List.nil_append] at this
    exact this
  · intro s
    simp only [List.mem_flatMap, List.mem_filter, mem_recordedOf]
    constructor
    · rintro ⟨e, ⟨he, hs⟩, rest⟩
      exact ⟨e, hperm.mem_iff.mp he, by simpa using hs, rest⟩
    · rintro ⟨e, he, hs, rest⟩
      exact ⟨e, ⟨hperm.mem_iff.mpr he, by simpa using hs⟩, rest⟩

/-- Witness of C9 on two addresses, one of them the skipped loopback address:
port 22 (`open`) and port 80 (`open|filtered`) are recorded, port 81 (`closed`)
is not. -/
theorem execExternalPortScan_records_witness :
    ∃ out, execExternalPortScan remoteEnv externalConf (RangeOrder.stored _) ⟨[], oneAddr⟩
        [("127.0.0.1", ["22"]), ("10.0.0.5", ["22", "80", "81"])] = some (out, none) ∧
      out = ["10.0.0.5:22", "10.0.0.5:80"] :=
  ((execExternalPortScan_records remoteEnv externalConf (RangeOrder.stored _) ⟨[], oneAddr⟩
    [("127.0.0.1", ["22"]), ("10.0.0.5", ["22", "80", "81"])] Technique.ConnectScan rfl
    (by decide)
    (by
      intro e he hs
      rcases List.mem_cons.mp he with rfl | he
      · exact absurd hs (by decide)
      · rw [List.mem_singleton.mp he]
        exact ⟨_, rfl, rfl⟩)).1).imp
    (fun _ h => ⟨h.1, h.2.1.trans (by decide)⟩)

/-- Counterexample to C9 as stated: the engine reports port 80 with the status
`open|filtered`, which is not the string `open`, and `10.0.0.5:80` is
recorded. -/
theorem execExternalPortScan_exact_open_counterexample :
    filteredEnv.Run ⟨Technique.ConnectScan, false, "10.0.0.5", ["80"], false⟩ =
        ([{ Ports := [⟨80, "open|filtered"⟩], Addresses := ["10.0.0.5"] }], none) ∧
      "open|filtered" ≠ "open" ∧
      execExternalPortScan filteredEnv externalConf (RangeOrder.stored _) ⟨[], oneAddr⟩
        [("10.0.0.5", ["80"])] = some (["10.0.0.5:80"], none) := by
  refine ⟨rfl, by decide, by decide⟩


/-! ## Go maps -/

theorem lookup_assign (m : GoMap (List String)) (k : String) (v : List String) (k' : String) :
    lookup (assign m k v) k' = if k = k' then v else lookup m k' := by
  induction m with
  | nil => simp [assign, lookup]
  | cons e m ih =>
    obtain ⟨k0, v0⟩ := e
    by_cases h : k0 = k
    · subst h
      by_cases h' : k0 = k' <;> simp [assign, lookup, h']
    · by_cases h' : k0 = k'
      · subst h'
        have : ¬ k = k0 := fun e => h e.symm
        simp [assign, lookup, h, this]
      · simp [assign, lookup, h, h', ih]

theorem keys_assign (m : GoMap (List String)) (k : String) (v : List String) :
    keys (assign m k v) = if k ∈ keys m then keys m else keys m ++ [k] := by
  induction m with
  | nil => simp [assign, keys]
  | cons e m ih =>
    obtain ⟨k0, v0⟩ := e
    unfold keys at ih ⊢
    by_cases h : k0 = k
    · subst h
      simp [assign]
    · have h' : ¬ k = k0 := fun e => h e.symm
      simp only [assign, h, if_false, List.map_cons, ih, List.mem_cons, h', false_or]
      split_ifs <;> simp

theorem mem_keys_assign (m : GoMap (List String)) (k : String) (v : List String) (k' : String) :
    k' ∈ keys (assign m k v) ↔ k' = k ∨ k' ∈ keys m := by
  rw [keys_assign]
  by_cases h : k ∈ keys m
  · simp only [h, if_true]
    constructor
    · exact Or.inr
    · rintro (rfl | h')
      · exact h
      · exact h'
  · simp only [h, if_false, List.mem_append, List.mem_singleton]
    tauto

theorem nodup_keys_assign (m : GoMap (List String)) (k : String) (v : List String)
    (h : (keys m).Nodup) : (keys (assign m k v)).Nodup := by
  rw [keys_assign]
  by_cases hk : k ∈ keys m
  · simpa [hk] using h
  · simp only [hk, if_false]
    rw [List.nodup_append]
    refine ⟨h, List.nodup_singleton k, ?_⟩
    intro a ha hb
    rw [List.mem_singleton] at hb
    exact hk (hb ▸ ha)

theorem lookup_appendTo (m : GoMap (List String)) (k : String) (vs : List String)
    (k' : String) :
    lookup (appendTo m k vs) k' = if k = k' then lookup m k ++ vs else lookup m k' := by
  unfold appendTo
  exact lookup_assign m k _ k'

theorem lookup_of_not_mem_keys (m : GoMap (List String)) (k : String) (h : k ∉ keys m) :
    lookup m k = [] := by
  induction m with
  | nil => rfl
  | cons e m ih =>
    obtain ⟨k0, v0⟩ := e
    simp only [keys, List.map_cons, List.mem_cons, not_or] at h
    have h0 : ¬ k0 = k := fun e => h.1 e.symm
    simp only [lookup, h0, if_false]
    exact ih h.2

theorem mem_iff_lookup (m : GoMap (List String)) (h : (keys m).Nodup) (k : String)
    (v : List String) : (k, v) ∈ m ↔ k ∈ keys m ∧ lookup m k = v := by
  induction m with
  | nil => simp [keys]
  | cons e m ih =>
    obtain ⟨k0, v0⟩ := e
    simp only [keys, List.map_cons, List.nodup_cons] at h
    have ih' := ih h.2
    by_cases hk : k0 = k
    · subst hk
      have hnot : (k0, v) ∉ m := fun hm => h.1 (List.mem_map_of_mem Prod.fst hm)
      simp only [List.mem_cons, Prod.mk.injEq, true_and, hnot, or_false, keys, List.map_cons,
        true_or, lookup, if_true]
      exact eq_comm
    · have hk' : ¬ k = k0 := fun e => hk e.symm
      simp only [List.mem_cons, Prod.mk.injEq, hk', false_and, false_or, keys, List.map_cons,
        lookup, hk, if_false]
      exact ih'

theorem lookup_appendAll (xs : List (String × List String)) (m : GoMap (List String))
    (k : String) :
    lookup (appendAll m xs) k =
      lookup m k ++ (xs.filter (fun x => x.1 = k)).flatMap (fun x => x.2) := by
  unfold appendAll
  induction xs generalizing m with
  | nil => simp
  | cons x xs ih =>
    rw [List.foldl_cons, ih, lookup_appendTo]
    by_cases h : x.1 = k
    · subst h
      simp [List.filter_cons]
    · simp [List.filter_cons, h]

theorem mem_keys_appendAll (xs : List (String × List String)) (m : GoMap (List String))
    (k : String) :
    k ∈ keys (appendAll m xs) ↔ k ∈ keys m ∨ ∃ x ∈ xs, x.1 = k := by
  unfold appendAll
  induction xs generalizing m with
  | nil => simp
  | cons x xs ih =>
    rw [List.foldl_cons, ih]
    unfold appendTo
    rw [mem_keys_assign]
    simp only [List.mem_cons, exists_eq_or_imp]
    constructor
    · rintro ((h | h) | h)
      · exact Or.inr (Or.inl h.symm)
      · exact Or.inl h
      · exact Or.inr (Or.inr h)
    · rintro (h | h | h)
      · exact Or.inl (Or.inr h)
      · exact Or.inl (Or.inl h.symm)
      · exact Or.inr h

theorem nodup_keys_appendAll (xs : List (String × List String)) (m : GoMap (List String))
    (h : (keys m).Nodup) : (keys (appendAll m xs)).Nodup := by
  unfold appendAll
  induction xs generalizing m with
  | nil => simpa using h
  | cons x xs ih =>
    rw [List.foldl_cons]
    exact ih _ (nodup_keys_assign m _ _ h)

theorem mem_lookup_appendAll_nil (xs : List (String × List String)) (k p : String) :
    p ∈ lookup (appendAll [] xs) k ↔ ∃ x ∈ xs, x.1 = k ∧ p ∈ x.2 := by
  rw [lookup_appendAll]
  simp only [lookup, List.nil_append, List.mem_flatMap, List.mem_filter, decide_eq_true_eq]
  constructor
  · rintro ⟨x, ⟨hx, hk⟩, hp⟩
    exact ⟨x, hx, hk, hp⟩
  · rintro ⟨x, hx, hk, hp⟩
    exact ⟨x, ⟨hx, hk⟩, hp⟩

theorem foldl_flatMap {α β γ : Type} (f : α → List β) (g : γ → β → γ) (l : List α)
    (init : γ) :
    (l.flatMap f).foldl g init = l.foldl (fun acc x => (f x).foldl g acc) init := by
  induction l generalizing init with
  | nil => simp
  | cons x l ih => simp [List.foldl_append, ih]


/-! ## The three loops of `detectScanDest` -/

theorem collectListenPorts_eq (o : RangeOrder (String × Package)) (pkgs : Packages) :
    collectListenPorts o pkgs =
      appendAll [] ((listenPortsOf (o.visit pkgs)).map
        (fun port => (port.Address, [port.Port]))) := by
  unfold collectListenPorts appendAll listenPortsOf
  rw [List.foldl_map, foldl_flatMap]
  congr 1
  funext m np
  rw [foldl_flatMap]

theorem expandWildcard_eq (o : RangeOrder (String × List String)) (IPv4Addrs : List String)
    (m : GoMap (List String)) :
    expandWildcard o IPv4Addrs m =
      appendAll [] ((o.visit m).flatMap (expandEntry IPv4Addrs)) := by
  unfold expandWildcard appendAll
  rw [foldl_flatMap]
  congr 1
  funext d ap
  unfold expandEntry
  by_cases h : ap.1 = "*"
  · simp only [h, if_true, List.foldl_map]
  · simp only [h, if_false, List.foldl_cons, List.foldl_nil]

theorem assign_assign (m : GoMap (List String)) (k : String) (v v' : List String) :
    assign (assign m k v) k v' = assign m k v' := by
  induction m with
  | nil => simp [assign]
  | cons e m ih =>
    obtain ⟨k0, v0⟩ := e
    by_cases h : k0 = k
    · simp [assign, h]
    · simp [assign, h, ih]

theorem appendTo_appendTo (m : GoMap (List String)) (k : String) (a b : List String) :
    appendTo (appendTo m k a) k b = appendTo m k (a ++ b) := by
  unfold appendTo
  rw [lookup_assign, assign_assign]
  simp

theorem uniqStep_foldl (i : String) (l seen : List String) (u : GoMap (List String)) :
    (l.foldl (uniqStep i) (seen, u)).2 =
      if firstSeen seen l = [] then u else appendTo u i (firstSeen seen l) := by
  induction l generalizing seen u with
  | nil => simp [firstSeen]
  | cons e l ih =>
    rw [List.foldl_cons]
    by_cases he : e ∈ seen
    · have hs : uniqStep i (seen, u) e = (seen, u) := by simp [uniqStep, he]
      have hf : firstSeen seen (e :: l) = firstSeen seen l := by simp [firstSeen, he]
      rw [hs, ih, hf]
    · have hs : uniqStep i (seen, u) e = (e :: seen, appendTo u i [e]) := by
        simp [uniqStep, he]
      have hf : firstSeen seen (e :: l) = e :: firstSeen (e :: seen) l := by
        simp [firstSeen, he]
      rw [hs, ih, hf]
      by_cases hn : firstSeen (e :: seen) l = []
      · simp [hn]
      · simp only [hn, if_false, appendTo_appendTo]
        simp

theorem uniqPorts_foldl (es : List (String × List String)) (u0 : GoMap (List String)) :
    es.foldl (fun u is => (is.2.foldl (uniqStep is.1) ([], u)).2) u0 =
      appendAll u0 ((es.map (fun is => (is.1, firstSeen [] is.2))).filter
        (fun x => decide (x.2 ≠ []))) := by
  unfold appendAll
  induction es generalizing u0 with
  | nil => simp
  | cons is es ih =>
    rw [List.foldl_cons, ih, uniqStep_foldl]
    by_cases hn : firstSeen [] is.2 = []
    · simp [hn, List.filter_cons]
    · simp [hn, List.filter_cons]

theorem uniqPorts_eq (o : RangeOrder (String × List String)) (m : GoMap (List String)) :
    uniqPorts o m =
      appendAll [] (((o.visit m).map (fun is => (is.1, firstSeen [] is.2))).filter
        (fun x => decide (x.2 ≠ []))) := by
  unfold uniqPorts
  exact uniqPorts_foldl _ _

theorem firstSeen_cons_of_mem (l seen : List String) (e : String) (he : e ∈ seen) :
    firstSeen seen (e :: l) = firstSeen seen l := by
  simp [firstSeen, he]

theorem firstSeen_cons_of_not_mem (l seen : List String) (e : String) (he : e ∉ seen) :
    firstSeen seen (e :: l) = e :: firstSeen (e :: seen) l := by
  simp [firstSeen, he]

theorem mem_firstSeen (l seen : List String) (p : String) :
    p ∈ firstSeen seen l ↔ p ∈ l ∧ p ∉ seen := by
  induction l generalizing seen with
  | nil => simp [firstSeen]
  | cons e l ih =>
    by_cases he : e ∈ seen
    · rw [firstSeen_cons_of_mem l seen e he, ih, List.mem_cons]
      constructor
      · rintro ⟨h1, h2⟩; exact ⟨Or.inr h1, h2⟩
      · rintro ⟨h1 | h1, h2⟩
        · exact absurd (h1 ▸ he) h2
        · exact ⟨h1, h2⟩
    · rw [firstSeen_cons_of_not_mem l seen e he]
      simp only [List.mem_cons, ih, not_or]
      constructor
      · rintro (h | ⟨h1, h2, h3⟩)
        · exact ⟨Or.inl h, h ▸ he⟩
        · exact ⟨Or.inr h1, h3⟩
      · rintro ⟨h1 | h1, h2⟩
        · exact Or.inl h1
        · by_cases hpe : p = e
          · exact Or.inl hpe
          · exact Or.inr ⟨h1, hpe, h2⟩

theorem nodup_firstSeen (l seen : List String) : (firstSeen seen l).Nodup := by
  induction l generalizing seen with
  | nil => simp [firstSeen]
  | cons e l ih =>
    by_cases he : e ∈ seen
    · rw [firstSeen_cons_of_mem l seen e he]
      exact ih seen
    · rw [firstSeen_cons_of_not_mem l seen e he, List.nodup_cons]
      refine ⟨?_, ih _⟩
      rw [mem_firstSeen]
      simp


theorem nodup_keys_nil : (keys ([] : GoMap (List String))).Nodup := by
  simp [keys]

theorem nodup_keys_collectListenPorts (o : RangeOrder (String × Package)) (pkgs : Packages) :
    (keys (collectListenPorts o pkgs)).Nodup := by
  rw [collectListenPorts_eq]
  exact nodup_keys_appendAll _ _ nodup_keys_nil

theorem nodup_keys_expandWildcard (o : RangeOrder (String × List String))
    (IPv4Addrs : List String) (m : GoMap (List String)) :
    (keys (expandWildcard o IPv4Addrs m)).Nodup := by
  rw [expandWildcard_eq]
  exact nodup_keys_appendAll _ _ nodup_keys_nil

theorem nodup_keys_uniqPorts (o : RangeOrder (String × List String))
    (m : GoMap (List String)) : (keys (uniqPorts o m)).Nodup := by
  rw [uniqPorts_eq]
  exact nodup_keys_appendAll _ _ nodup_keys_nil

theorem listenPortsOf_perm {a b : Packages} (h : List.Perm a b) :
    List.Perm (listenPortsOf a) (listenPortsOf b) :=
  h.flatMap_right _

theorem mem_lookup_collectListenPorts (o : RangeOrder (String × Package)) (pkgs : Packages)
    (a p : String) :
    p ∈ lookup (collectListenPorts o pkgs) a ↔
      ∃ port ∈ listenPortsOf pkgs, port.Address = a ∧ port.Port = p := by
  rw [collectListenPorts_eq, mem_lookup_appendAll_nil]
  have hp : ∀ {x : ListenPort}, x ∈ listenPortsOf (o.visit pkgs) ↔ x ∈ listenPortsOf pkgs :=
    fun {_} => (listenPortsOf_perm (o.perm pkgs)).mem_iff
  constructor
  · rintro ⟨x, hx, hxa, hxp⟩
    obtain ⟨port, hport, rfl⟩ := List.mem_map.mp hx
    refine ⟨port, hp.mp hport, hxa, ?_⟩
    exact (List.mem_singleton.mp hxp).symm
  · rintro ⟨port, hport, ha, hpp⟩
    refine ⟨(port.Address, [port.Port]), List.mem_map.mpr ⟨port, hp.mpr hport, rfl⟩, ha, ?_⟩
    simp [hpp]

theorem mem_entry_iff_lookup (m : GoMap (List String)) (h : (keys m).Nodup) (x p : String) :
    (∃ ap ∈ m, ap.1 = x ∧ p ∈ ap.2) ↔ p ∈ lookup m x := by
  constructor
  · rintro ⟨⟨k, v⟩, hm, rfl, hp⟩
    rw [((mem_iff_lookup m h k v).mp hm).2]
    exact hp
  · intro hp
    have hk : x ∈ keys m := by
      by_contra hn
      rw [lookup_of_not_mem_keys m x hn] at hp
      simp at hp
    exact ⟨(x, lookup m x), (mem_iff_lookup m h x _).mpr ⟨hk, rfl⟩, rfl, hp⟩

theorem mem_lookup_expandWildcard (o : RangeOrder (String × List String))
    (IPv4Addrs : List String) (m : GoMap (List String)) (h : (keys m).Nodup) (a p : String) :
    p ∈ lookup (expandWildcard o IPv4Addrs m) a ↔
      (a ∈ IPv4Addrs ∧ p ∈ lookup m "*") ∨ (a ≠ "*" ∧ p ∈ lookup m a) := by
  rw [expandWildcard_eq, mem_lookup_appendAll_nil, ← mem_entry_iff_lookup m h "*" p,
    ← mem_entry_iff_lookup m h a p]
  have hp : ∀ {x : String × List String}, x ∈ o.visit m ↔ x ∈ m :=
    fun {_} => (o.perm m).mem_iff
  constructor
  · rintro ⟨x, hx, hxa, hxp⟩
    obtain ⟨ap, hap, hxe⟩ := List.mem_flatMap.mp hx
    unfold expandEntry at hxe
    by_cases hw : ap.1 = "*"
    · rw [if_pos hw] at hxe
      obtain ⟨addr, haddr, rfl⟩ := List.mem_map.mp hxe
      exact Or.inl ⟨hxa ▸ haddr, ap, hp.mp hap, hw, hxp⟩
    · rw [if_neg hw, List.mem_singleton] at hxe
      subst hxe
      exact Or.inr ⟨hxa ▸ hw, x, hp.mp hap, hxa, hxp⟩
  · rintro (⟨ha, ap, hap, hw, hpp⟩ | ⟨ha, ap, hap, hw, hpp⟩)
    · refine ⟨(a, ap.2), List.mem_flatMap.mpr ⟨ap, hp.mpr hap, ?_⟩, rfl, hpp⟩
      unfold expandEntry
      rw [if_pos hw]
      exact List.mem_map.mpr ⟨a, ha, rfl⟩
    · refine ⟨ap, List.mem_flatMap.mpr ⟨ap, hp.mpr hap, ?_⟩, hw, hpp⟩
      unfold expandEntry
      rw [if_neg (hw ▸ ha)]
      exact List.mem_singleton.mpr rfl

theorem lookup_perm {m m' : GoMap (List String)} (hp : List.Perm m' m) (h : (keys m).Nodup)
    (k : String) : lookup m' k = lookup m k := by
  have h' : (keys m').Nodup := (keys_perm hp).nodup_iff.mpr h
  by_cases hk : k ∈ keys m
  · have h1 := (mem_iff_lookup m h k (lookup m k)).mpr ⟨hk, rfl⟩
    exact ((mem_iff_lookup m' h' k _).mp (hp.mem_iff.mpr h1)).2
  · have hk' : k ∉ keys m' := fun hm => hk ((keys_perm hp).mem_iff.mp hm)
    rw [lookup_of_not_mem_keys m k hk, lookup_of_not_mem_keys m' k hk']

theorem uniq_filter_of_not_mem (es : List (String × List String)) (k : String)
    (hk : k ∉ keys es) :
    (((es.map (fun is => (is.1, firstSeen [] is.2))).filter
      (fun x => decide (x.2 ≠ []))).filter (fun x => decide (x.1 = k))) = [] := by
  rw [List.filter_eq_nil_iff]
  intro x hx
  have hx' := List.mem_of_mem_filter hx
  obtain ⟨is, his, rfl⟩ := List.mem_map.mp hx'
  have : is.1 ≠ k := fun e => hk (e ▸ List.mem_map_of_mem Prod.fst his)
  simpa using this

theorem uniq_flatMap_eq (es : List (String × List String)) (h : (keys es).Nodup)
    (k : String) :
    ((((es.map (fun is => (is.1, firstSeen [] is.2))).filter
      (fun x => decide (x.2 ≠ []))).filter (fun x => decide (x.1 = k))).flatMap
        (fun x => x.2)) = firstSeen [] (lookup es k) := by
  induction es with
  | nil => simp [lookup, firstSeen]
  | cons e es ih =>
    obtain ⟨k0, v0⟩ := e
    simp only [keys, List.map_cons, List.nodup_cons] at h
    by_cases hk : k0 = k
    · subst hk
      have htail := uniq_filter_of_not_mem es k0 h.1
      by_cases hn : firstSeen [] v0 = []
      · simp only [List.map_cons, List.filter_cons, hn, ne_eq, not_true_eq_false,
          decide_False, Bool.false_eq_true, if_false, htail, List.flatMap_nil, lookup, if_true]
      · simp only [List.map_cons, List.filter_cons, hn, ne_eq, not_false_eq_true,
          decide_True, if_true, htail, List.flatMap_cons, List.flatMap_nil, List.append_nil,
          lookup]
    · have ih' := ih h.2
      by_cases hn : firstSeen [] v0 = []
      · simp only [List.map_cons, List.filter_cons, hn, ne_eq, not_true_eq_false,
          decide_False, Bool.false_eq_true, if_false, lookup, hk]
        exact ih'
      · simp only [List.map_cons, List.filter_cons, hn, ne_eq, not_false_eq_true,
          decide_True, if_true, hk, decide_False, Bool.false_eq_true, if_false, lookup]
        exact ih'

theorem lookup_uniqPorts (o : RangeOrder (String × List String)) (m : GoMap (List String))
    (h : (keys m).Nodup) (k : String) :
    lookup (uniqPorts o m) k = firstSeen [] (lookup m k) := by
  have hv : (keys (o.visit m)).Nodup := (keys_perm (o.perm m)).nodup_iff.mpr h
  rw [uniqPorts_eq, lookup_appendAll, uniq_flatMap_eq _ hv, lookup_perm (o.perm m) h]
  simp [lookup]

theorem mem_keys_iff_lookup_uniqPorts (o : RangeOrder (String × List String))
    (m : GoMap (List String)) (h : (keys m).Nodup) (k : String) :
    k ∈ keys (uniqPorts o m) ↔ lookup (uniqPorts o m) k ≠ [] := by
  constructor
  · intro hk
    rw [uniqPorts_eq, mem_keys_appendAll] at hk
    rcases hk with hk | ⟨x, hx, rfl⟩
    · simp [keys] at hk
    · obtain ⟨hx1, hx2⟩ := List.mem_filter.mp hx
      obtain ⟨is, his, rfl⟩ := List.mem_map.mp hx1
      have hm : is ∈ m := (o.perm m).mem_iff.mp his
      have hl := ((mem_iff_lookup m h is.1 is.2).mp hm).2
      rw [lookup_uniqPorts o m h, hl]
      simpa using hx2
  · intro hne
    by_contra hk
    exact hne (lookup_of_not_mem_keys _ _ hk)


/-! ## The target map -/

theorem nodup_keys_detectScanDest (sch : Schedule) (l : base) :
    (keys (detectScanDest sch l)).Nodup :=
  nodup_keys_uniqPorts _ _

theorem lookup_detectScanDest (sch : Schedule) (l : base) (a : String) :
    lookup (detectScanDest sch l) a =
      firstSeen [] (lookup (expandWildcard sch.scanIPPorts l.ServerInfo.IPv4Addrs
        (collectListenPorts sch.packages l.Packages)) a) :=
  lookup_uniqPorts _ _ (nodup_keys_expandWildcard _ _ _) a

theorem nodup_lookup_detectScanDest (sch : Schedule) (l : base) (a : String) :
    (lookup (detectScanDest sch l) a).Nodup := by
  rw [lookup_detectScanDest]
  exact nodup_firstSeen _ _

theorem mem_lookup_detectScanDest (sch : Schedule) (l : base) (a p : String) :
    p ∈ lookup (detectScanDest sch l) a ↔
      ∃ port ∈ listenPortsOf l.Packages, port.Port = p ∧
        ((port.Address = "*" ∧ a ∈ l.ServerInfo.IPv4Addrs) ∨
          (port.Address ≠ "*" ∧ port.Address = a)) := by
  rw [lookup_detectScanDest, mem_firstSeen,
    mem_lookup_expandWildcard _ _ _ (nodup_keys_collectListenPorts _ _),
    mem_lookup_collectListenPorts, mem_lookup_collectListenPorts]
  constructor
  · rintro ⟨(⟨ha, port, hport, hw, hp⟩ | ⟨ha, port, hport, hw, hp⟩), _⟩
    · exact ⟨port, hport, hp, Or.inl ⟨hw, ha⟩⟩
    · exact ⟨port, hport, hp, Or.inr ⟨hw ▸ ha, hw⟩⟩
  · rintro ⟨port, hport, hp, (⟨hw, ha⟩ | ⟨hw, ha⟩)⟩
    · exact ⟨Or.inl ⟨ha, port, hport, hw, hp⟩, by simp⟩
    · exact ⟨Or.inr ⟨ha ▸ hw, port, hport, ha, hp⟩, by simp⟩

theorem mem_keys_detectScanDest (sch : Schedule) (l : base) (a : String) :
    a ∈ keys (detectScanDest sch l) ↔ lookup (detectScanDest sch l) a ≠ [] :=
  mem_keys_iff_lookup_uniqPorts _ _ (nodup_keys_expandWildcard _ _ _) a

theorem mem_keys_detectScanDest_of_mem (sch : Schedule) (l : base) (a p : String)
    (h : p ∈ lookup (detectScanDest sch l) a) : a ∈ keys (detectScanDest sch l) := by
  rw [mem_keys_detectScanDest]
  intro hn
  rw [hn] at h
  simp at h

theorem mem_detectScanDest (sch : Schedule) (l : base) (e : String × List String)
    (h : e ∈ detectScanDest sch l) : e.2 = lookup (detectScanDest sch l) e.1 :=
  ((mem_iff_lookup _ (nodup_keys_detectScanDest sch l) e.1 e.2).mp h).2.symm

/-- C2. Every port list of the map returned by `detectScanDest` is free of
duplicates and no address is a key twice; so a port declared under an address
other than the wildcard, however many entries declare the pair, occurs exactly
once in the list of that address. -/
theorem detectScanDest_dedup (sch : Schedule) (l : base) :
    (∀ e ∈ detectScanDest sch l, e.2.Nodup) ∧
    (keys (detectScanDest sch l)).Nodup ∧
    (∀ port ∈ listenPortsOf l.Packages, port.Address ≠ "*" →
      (∃ ps, (port.Address, ps) ∈ detectScanDest sch l ∧ ps.count port.Port = 1) ∧
      (lookup (detectScanDest sch l) port.Address).count port.Port = 1) := by
  refine ⟨?_, nodup_keys_detectScanDest sch l, ?_⟩
  · intro e he
    rw [mem_detectScanDest sch l e he]
    exact nodup_lookup_detectScanDest sch l e.1
  · intro port hport hw
    have hm : port.Port ∈ lookup (detectScanDest sch l) port.Address :=
      (mem_lookup_detectScanDest sch l _ _).mpr ⟨port, hport, rfl, Or.inr ⟨hw, rfl⟩⟩
    have hc := List.count_eq_one_of_mem (nodup_lookup_detectScanDest sch l port.Address) hm
    have hk := mem_keys_detectScanDest_of_mem sch l _ _ hm
    exact ⟨⟨_, (mem_iff_lookup _ (nodup_keys_detectScanDest sch l) _ _).mpr ⟨hk, rfl⟩, hc⟩, hc⟩

/-- Witness of C2: the pair `10.0.0.5`, `80`, declared three times in
`dupInventory`, is once in the target map. -/
theorem detectScanDest_dedup_witness :
    (lookup (detectScanDest Schedule.stored dupBase) "10.0.0.5").count "80" = 1 ∧
      ((listenPortsOf dupInventory).filter
        (fun q => q.Address = "10.0.0.5" ∧ q.Port = "80")).length = 3 :=
  ⟨((detectScanDest_dedup Schedule.stored dupBase).2.2 ⟨"10.0.0.5", "80", []⟩
    (by decide) (by decide)).2, by decide⟩

/-- C3. A listen port declared with the wildcard address and port `P` puts `P`,
exactly once, under every address of the host address list: each such address
is a key of the map returned by `detectScanDest` and its port list contains
`P` once. -/
theorem detectScanDest_wildcard (sch : Schedule) (l : base) (P A : String)
    (hdecl : ∃ port ∈ listenPortsOf l.Packages, port.Address = "*" ∧ port.Port = P)
    (hA : A ∈ l.ServerInfo.IPv4Addrs) :
    A ∈ keys (detectScanDest sch l) ∧
      ∃ ps, (A, ps) ∈ detectScanDest sch l ∧ lookup (detectScanDest sch l) A = ps ∧
        P ∈ ps ∧ ps.count P = 1 := by
  obtain ⟨port, hport, hw, hp⟩ := hdecl
  have hm : P ∈ lookup (detectScanDest sch l) A :=
    (mem_lookup_detectScanDest sch l _ _).mpr ⟨port, hport, hp, Or.inl ⟨hw, hA⟩⟩
  have hk := mem_keys_detectScanDest_of_mem sch l _ _ hm
  exact ⟨hk, _, (mem_iff_lookup _ (nodup_keys_detectScanDest sch l) _ _).mpr ⟨hk, rfl⟩, rfl, hm,
    List.count_eq_one_of_mem (nodup_lookup_detectScanDest sch l A) hm⟩

/-- Witness of C3: with the host addresses `192.168.1.10` and `192.168.1.11`
the wildcard port `22` of `dupInventory` is under both. -/
theorem detectScanDest_wildcard_witness :
    ("192.168.1.10" ∈ keys (detectScanDest Schedule.stored dupBase) ∧
      ∃ ps, ("192.168.1.10", ps) ∈ detectScanDest Schedule.stored dupBase ∧
        lookup (detectScanDest Schedule.stored dupBase) "192.168.1.10" = ps ∧
        "22" ∈ ps ∧ ps.count "22" = 1) ∧
    ("192.168.1.11" ∈ keys (detectScanDest Schedule.stored dupBase) ∧
      ∃ ps, ("192.168.1.11", ps) ∈ detectScanDest Schedule.stored dupBase ∧
        lookup (detectScanDest Schedule.stored dupBase) "192.168.1.11" = ps ∧
        "22" ∈ ps ∧ ps.count "22" = 1) :=
  ⟨detectScanDest_wildcard Schedule.stored dupBase "22" "192.168.1.10"
      ⟨⟨"*", "22", []⟩, by decide, rfl, rfl⟩ (by decide),
    detectScanDest_wildcard Schedule.stored dupBase "22" "192.168.1.11"
      ⟨⟨"*", "22", []⟩, by decide, rfl, rfl⟩ (by decide)⟩


theorem mem_nativePortLoop (env : Env) (ip : String) (ports acc : List String) (s : String)
    (h : s ∈ (nativePortLoop env ip ports acc).1) :
    s ∈ acc ∨ ∃ port ∈ ports, s = ip ++ ":" ++ port := by
  induction ports generalizing acc with
  | nil => exact Or.inl (by simpa [nativePortLoop] using h)
  | cons port more ih =>
    rcases hs : env.nativeScanPort (ip ++ ":" ++ port) with ⟨isOpen, err⟩
    cases err with
    | some e => simp [nativePortLoop, hs] at h
    | none =>
      simp only [nativePortLoop, hs] at h
      rcases ih _ h with h1 | ⟨q, hq, hqs⟩
      · cases isOpen with
        | false => exact Or.inl (by simpa using h1)
        | true =>
          simp only [if_true, List.mem_append, List.mem_singleton] at h1
          rcases h1 with h1 | h1
          · exact Or.inl h1
          · exact Or.inr ⟨port, List.mem_cons_self _ _, h1⟩
      · exact Or.inr ⟨q, List.mem_cons_of_mem _ hq, hqs⟩

theorem mem_nativeLoop (env : Env) (si : ServerInfo) (es : List (String × List String))
    (acc : List String) (s : String) (h : s ∈ (nativeLoop env si es acc).1) :
    s ∈ acc ∨ ∃ e ∈ es, ∃ port ∈ e.2, s = e.1 ++ ":" ++ port := by
  induction es generalizing acc with
  | nil => exact Or.inl (by simpa [nativeLoop] using h)
  | cons e es ih =>
    obtain ⟨ip, ports⟩ := e
    by_cases hc : (!env.isLocalExec si.Port si.Host && env.IsLoopback ip) = true
    · simp only [nativeLoop, hc, if_true] at h
      rcases ih _ h with h1 | ⟨e, he, hp⟩
      · exact Or.inl h1
      · exact Or.inr ⟨e, List.mem_cons_of_mem _ he, hp⟩
    · rcases hl : nativePortLoop env ip ports acc with ⟨acc', err⟩
      cases err with
      | some e => simp [nativeLoop, hc, hl] at h
      | none =>
        simp only [nativeLoop, hc, hl, if_false] at h
        rcases ih _ h with h1 | ⟨e, he, hp⟩
        · have h2 : s ∈ (nativePortLoop env ip ports acc).1 := by rw [hl]; exact h1
          rcases mem_nativePortLoop env ip ports acc s h2 with h3 | ⟨q, hq, hqs⟩
          · exact Or.inl h3
          · exact Or.inr ⟨(ip, ports), List.mem_cons_self _ _, q, hq, hqs⟩
        · exact Or.inr ⟨e, List.mem_cons_of_mem _ he, hp⟩

theorem take_colon_ne_star (xs ys : List Char) (n : Nat) (hn : xs.length + 1 ≤ n) :
    List.take n (xs ++ ':' :: ys) ≠ ['*'] := by
  intro h
  cases xs with
  | nil =>
    obtain ⟨k, rfl⟩ : ∃ k, n = k + 1 := ⟨n - 1, by omega⟩
    simp only [List.nil_append, List.take_succ_cons, List.cons.injEq] at h
    exact absurd h.1 (by decide)
  | cons x xs =>
    have hlen := congrArg List.length h
    rw [List.length_take] at hlen
    simp only [List.length_cons, List.length_append, List.length_nil] at hlen hn
    omega

/-- The address part of `a:p` is not the wildcard when `a` is not, whatever the
port string is. -/
theorem parseListenPorts_join_ne_star (a p : String) (ha : a ≠ "*") :
    (parseListenPorts (a ++ ":" ++ p)).Address ≠ "*" := by
  by_cases hp : ':' ∈ p.data
  · have hd : (a ++ ":" ++ p).data = a.data ++ ':' :: p.data := by
      simp [String.data_append]
    have hl := LastIndex_append_of_mem ':' (a.data ++ [':']) p.data hp
    have h0 := (LastIndex_nonneg_iff ':' p.data).mpr hp
    have hd' : a.data ++ ':' :: p.data = (a.data ++ [':']) ++ p.data := by simp
    have hl' : LastIndex ':' (a.data ++ ':' :: p.data) =
        ((a.data.length + 1 : Nat) : Int) + LastIndex ':' p.data := by
      rw [hd', hl]; simp
    unfold parseListenPorts
    simp only [hd, hl']
    have hne : ¬ (((a.data.length + 1 : Nat) : Int) + LastIndex ':' p.data = -1) := by omega
    rw [if_neg hne]
    intro hstar
    have hdata := congrArg String.data hstar
    have h1 : ("*" : String).data = ['*'] := by decide
    rw [h1] at hdata
    exact take_colon_ne_star a.data p.data _ (by omega) hdata
  · rw [parseListenPorts_join a p hp]
    exact ha

/-- C4. With a host address list that does not contain the wildcard marker, the
marker is not a key of the map returned by `detectScanDest`, and no string of
the probe result the native engine computes from that map has the marker as
its address part. -/
theorem detectScanDest_no_wildcard (sch : Schedule) (l : base)
    (h : "*" ∉ l.ServerInfo.IPv4Addrs) :
    "*" ∉ keys (detectScanDest sch l) ∧
      ∀ (env : Env) (o : RangeOrder (String × List String)),
        ∀ s ∈ (execNativePortScan env o l (detectScanDest sch l)).1,
          (parseListenPorts s).Address ≠ "*" := by
  have hk : "*" ∉ keys (detectScanDest sch l) := by
    intro hm
    rw [mem_keys_detectScanDest] at hm
    obtain ⟨p, hp⟩ := List.exists_mem_of_ne_nil _ hm
    obtain ⟨port, _, _, (⟨_, ha⟩ | ⟨hw, ha⟩)⟩ := (mem_lookup_detectScanDest sch l _ _).mp hp
    · exact h ha
    · exact hw ha
  refine ⟨hk, ?_⟩
  intro env o s hs
  unfold execNativePortScan at hs
  rcases mem_nativeLoop env l.ServerInfo _ [] s hs with h1 | ⟨e, he, port, _, rfl⟩
  · simp at h1
  · have he' : e ∈ detectScanDest sch l := (o.perm _).mem_iff.mp he
    have hne : e.1 ≠ "*" := by
      intro heq
      exact hk (heq ▸ List.mem_map_of_mem Prod.fst he')
    exact parseListenPorts_join_ne_star e.1 port hne

/-- Witness of C4 on `dupBase`, whose inventory declares the wildcard twice. -/
theorem detectScanDest_no_wildcard_witness :
    "*" ∉ keys (detectScanDest Schedule.stored dupBase) ∧
      ∀ s ∈ (execNativePortScan remoteEnv (RangeOrder.stored _) dupBase
          (detectScanDest Schedule.stored dupBase)).1,
        (parseListenPorts s).Address ≠ "*" :=
  ⟨(detectScanDest_no_wildcard Schedule.stored dupBase (by decide)).1,
    (detectScanDest_no_wildcard Schedule.stored dupBase (by decide)).2 remoteEnv
      (RangeOrder.stored _)⟩


/-! ## Reconciliation -/

theorem modifyAt_id {α : Type} (i : Nat) (l : List α) : modifyAt (fun x => x) i l = l := by
  induction l generalizing i with
  | nil => cases i <;> rfl
  | cons x l ih => cases i <;> simp [modifyAt, ih]

theorem modifyAt_comp {α : Type} (f g : α → α) (i : Nat) (l : List α) :
    modifyAt g i (modifyAt f i l) = modifyAt (g ∘ f) i l := by
  induction l generalizing i with
  | nil => cases i <;> rfl
  | cons x l ih => cases i <;> simp [modifyAt, ih]

theorem modifyAt_append_length {α : Type} (f : α → α) (pre : List α) (x : α) (xs : List α) :
    modifyAt f pre.length (pre ++ x :: xs) = pre ++ f x :: xs := by
  induction pre with
  | nil => rfl
  | cons y pre ih => simp [modifyAt, ih]

theorem enumFrom_foldl_modifyAt {α : Type} (g : α → α → α) (xs pre : List α) :
    (xs.enumFrom pre.length).foldl (fun l jx => modifyAt (g jx.2) jx.1 l) (pre ++ xs) =
      pre ++ xs.map (fun x => g x x) := by
  induction xs generalizing pre with
  | nil => simp
  | cons x xs ih =>
    rw [List.enumFrom_cons, List.foldl_cons]
    simp only
    rw [modifyAt_append_length]
    have h := ih (pre ++ [g x x])
    simp only [List.length_append, List.length_singleton, List.append_assoc,
      List.singleton_append] at h
    rw [h]
    simp

theorem enum_foldl_modifyAt {α : Type} (g : α → α → α) (xs : List α) :
    xs.enum.foldl (fun l jx => modifyAt (g jx.2) jx.1 l) xs = xs.map (fun x => g x x) := by
  have := enumFrom_foldl_modifyAt g xs []
  simpa [List.enum] using this

theorem foldl_lens {S B X : Type} (upd : (B → B) → S → S)
    (hid : ∀ s, upd (fun b => b) s = s)
    (hcomp : ∀ f g s, upd g (upd f s) = upd (g ∘ f) s)
    (h : X → B → B) (xs : List X) (s : S) :
    xs.foldl (fun s x => upd (h x) s) s = upd (fun b => xs.foldl (fun b x => h x b) b) s := by
  induction xs generalizing s with
  | nil => simp [hid]
  | cons x xs ih =>
    rw [List.foldl_cons, ih, hcomp]
    rfl

theorem onPackage_id (name : String) (pkgs : Packages) :
    onPackage name (fun b => b) pkgs = pkgs := by
  unfold onPackage
  have : (fun np : String × Package =>
      if np.1 = name then (np.1, ({ AffectedProcs := np.2.AffectedProcs } : Package))
      else np) = fun np => np := by
    funext np
    split_ifs <;> rfl
  rw [this, List.map_id']

theorem onPackage_comp (name : String) (f g : List AffectedProcess → List AffectedProcess)
    (pkgs : Packages) :
    onPackage name g (onPackage name f pkgs) = onPackage name (g ∘ f) pkgs := by
  unfold onPackage
  rw [List.map_map]
  congr 1
  funext np
  by_cases h : np.1 = name <;> simp [h]

theorem onProc_id (name : String) (i : Nat) (pkgs : Packages) :
    onProc name i (fun b => b) pkgs = pkgs := by
  unfold onProc
  have : (fun proc : AffectedProcess => ({ ListenPorts := proc.ListenPorts } : AffectedProcess))
      = fun proc => proc := rfl
  rw [this, show modifyAt (fun proc : AffectedProcess => proc) i = fun b => b from
    funext (modifyAt_id i)]
  exact onPackage_id name pkgs

theorem onProc_comp (name : String) (i : Nat) (f g : List ListenPort → List ListenPort)
    (pkgs : Packages) :
    onProc name i g (onProc name i f pkgs) = onProc name i (g ∘ f) pkgs := by
  unfold onProc
  rw [onPackage_comp]
  congr 1
  funext procs
  simp only [Function.comp_apply]
  rw [modifyAt_comp]
  rfl

theorem setPortScanSuccessOn_eq (pkgs : Packages) (name : String) (i j : Nat)
    (v : List String) :
    setPortScanSuccessOn pkgs name i j v =
      onProc name i (modifyAt (fun port => { port with PortScanSuccessOn := v }) j) pkgs := rfl

theorem writePorts_self (listenIPPorts : List String) (proc : AffectedProcess) :
    writePorts listenIPPorts proc proc.ListenPorts =
      proc.ListenPorts.map (reconcilePort listenIPPorts) := by
  unfold writePorts
  exact enum_foldl_modifyAt
    (fun (x port : ListenPort) =>
      { port with PortScanSuccessOn := findPortScanSuccessOn listenIPPorts x })
    proc.ListenPorts

theorem writeProcs_self (listenIPPorts : List String) (p : Package) :
    writeProcs listenIPPorts p p.AffectedProcs =
      p.AffectedProcs.map (reconcileProc listenIPPorts) := by
  unfold writeProcs
  have := enum_foldl_modifyAt
    (fun (x proc : AffectedProcess) =>
      ({ ListenPorts := writePorts listenIPPorts x proc.ListenPorts } : AffectedProcess))
    p.AffectedProcs
  rw [this]
  apply List.map_congr_left
  intro proc _
  simp only [writePorts_self]
  rfl

/-- The loops of `updatePortStatus` for one visited package amount to one
update of the package of that name. -/
theorem updatePortStatus_step (listenIPPorts : List String) (np : String × Package)
    (st : Packages) :
    np.2.AffectedProcs.enum.foldl (fun st iproc =>
      iproc.2.ListenPorts.enum.foldl (fun st jport =>
        setPortScanSuccessOn st np.1 iproc.1 jport.1
          (findPortScanSuccessOn listenIPPorts jport.2)) st) st =
      onPackage np.1 (writeProcs listenIPPorts np.2) st := by
  have hinner : ∀ (iproc : Nat × AffectedProcess) (st : Packages),
      iproc.2.ListenPorts.enum.foldl (fun st jport =>
        setPortScanSuccessOn st np.1 iproc.1 jport.1
          (findPortScanSuccessOn listenIPPorts jport.2)) st =
      onPackage np.1 (modifyAt (fun proc =>
        { ListenPorts := writePorts listenIPPorts iproc.2 proc.ListenPorts }) iproc.1) st := by
    intro iproc st
    simp only [setPortScanSuccessOn_eq]
    exact foldl_lens (onProc np.1 iproc.1) (onProc_id np.1 iproc.1) (onProc_comp np.1 iproc.1)
      (fun (jport : Nat × ListenPort) => modifyAt (fun port =>
        { port with PortScanSuccessOn := findPortScanSuccessOn listenIPPorts jport.2 })
        jport.1) _ st
  simp only [hinner]
  exact foldl_lens (onPackage np.1) (onPackage_id np.1) (onPackage_comp np.1)
    (fun (iproc : Nat × AffectedProcess) => modifyAt (fun proc =>
      { ListenPorts := writePorts listenIPPorts iproc.2 proc.ListenPorts }) iproc.1) _ st


theorem foldl_onPackage (W : Package → List AffectedProcess → List AffectedProcess)
    (vis : List (String × Package)) (st : Packages) :
    vis.foldl (fun st np => onPackage np.1 (W np.2) st) st =
      st.map (fun e => vis.foldl (fun e np =>
        if e.1 = np.1 then (e.1, ({ AffectedProcs := W np.2 e.2.AffectedProcs } : Package))
        else e) e) := by
  induction vis generalizing st with
  | nil => simp
  | cons np vis ih =>
    rw [List.foldl_cons, ih]
    unfold onPackage
    rw [List.map_map]
    rfl

theorem touch_of_not_mem (W : Package → List AffectedProcess → List AffectedProcess)
    (vis : List (String × Package)) (e : String × Package) (h : e.1 ∉ keys vis) :
    vis.foldl (fun e np =>
        if e.1 = np.1 then (e.1, ({ AffectedProcs := W np.2 e.2.AffectedProcs } : Package))
        else e) e = e := by
  induction vis with
  | nil => rfl
  | cons np vis ih =>
    simp only [keys, List.map_cons, List.mem_cons, not_or] at h
    rw [List.foldl_cons, if_neg h.1]
    exact ih h.2

theorem touch_of_mem (W : Package → List AffectedProcess → List AffectedProcess)
    (vis : List (String × Package)) (hn : (keys vis).Nodup) (e : String × Package)
    (h : e ∈ vis) :
    vis.foldl (fun e np =>
        if e.1 = np.1 then (e.1, ({ AffectedProcs := W np.2 e.2.AffectedProcs } : Package))
        else e) e = (e.1, { AffectedProcs := W e.2 e.2.AffectedProcs }) := by
  induction vis with
  | nil => simp at h
  | cons np vis ih =>
    simp only [keys, List.map_cons, List.nodup_cons] at hn
    rw [List.foldl_cons]
    rcases List.mem_cons.mp h with rfl | h
    · rw [if_pos rfl]
      exact touch_of_not_mem W vis _ hn.1
    · have hne : e.1 ≠ np.1 := by
        intro heq
        exact hn.1 (heq ▸ List.mem_map_of_mem Prod.fst h)
      rw [if_neg hne]
      exact ih hn.2 h

theorem updatePortStatus_eq_reconcile (o : RangeOrder (String × Package)) (pkgs : Packages)
    (listenIPPorts : List String) (h : (keys pkgs).Nodup) :
    updatePortStatus o pkgs listenIPPorts = reconcile listenIPPorts pkgs := by
  unfold updatePortStatus
  simp only [updatePortStatus_step]
  rw [foldl_onPackage (writeProcs listenIPPorts)]
  unfold reconcile
  apply List.map_congr_left
  intro e he
  have hv : (keys (o.visit pkgs)).Nodup := (keys_perm (o.perm pkgs)).nodup_iff.mpr h
  rw [touch_of_mem _ _ hv e ((o.perm pkgs).mem_iff.mpr he), writeProcs_self]
  rfl

theorem listenPortsOf_reconcile (listenIPPorts : List String) (pkgs : Packages) :
    listenPortsOf (reconcile listenIPPorts pkgs) =
      (listenPortsOf pkgs).map (reconcilePort listenIPPorts) := by
  unfold listenPortsOf reconcile reconcilePackage reconcileProc
  simp [List.flatMap_def, List.map_flatten, List.map_map, Function.comp_def]

theorem findPortScanSuccessOn_congr (listenIPPorts : List String) (e1 e2 : ListenPort)
    (ha : e1.Address = e2.Address) (hp : e1.Port = e2.Port) :
    findPortScanSuccessOn listenIPPorts e1 = findPortScanSuccessOn listenIPPorts e2 := by
  rw [findPortScanSuccessOn_eq, findPortScanSuccessOn_eq, ha, hp]

/-- C6. The write-back covers every entry. For an inventory whose package
names are distinct (it is a map) and any probe result, `updatePortStatus`
leaves the inventory in place with each listen-port entry `e`, whatever its
previous result, carrying `findPortScanSuccessOn` of the probe result and `e`
(the empty list when nothing matches, the address and port untouched); hence
two entries that declare the same address and port end with equal results. -/
theorem updatePortStatus_overwrites (o : RangeOrder (String × Package)) (pkgs : Packages)
    (listenIPPorts : List String) (h : (keys pkgs).Nodup) :
    updatePortStatus o pkgs listenIPPorts = reconcile listenIPPorts pkgs ∧
    listenPortsOf (updatePortStatus o pkgs listenIPPorts) =
      (listenPortsOf pkgs).map (fun e =>
        { Address := e.Address, Port := e.Port,
          PortScanSuccessOn := findPortScanSuccessOn listenIPPorts e }) ∧
    (∀ e ∈ listenPortsOf pkgs,
      (∀ s ∈ listenIPPorts, ¬ ((parseListenPorts s).Port = e.Port ∧
        (e.Address = "*" ∨ e.Address = (parseListenPorts s).Address))) →
      findPortScanSuccessOn listenIPPorts e = []) ∧
    (∀ e1 ∈ listenPortsOf (updatePortStatus o pkgs listenIPPorts),
      ∀ e2 ∈ listenPortsOf (updatePortStatus o pkgs listenIPPorts),
        e1.Address = e2.Address → e1.Port = e2.Port →
          e1.PortScanSuccessOn = e2.PortScanSuccessOn) := by
  have heq := updatePortStatus_eq_reconcile o pkgs listenIPPorts h
  have hl : listenPortsOf (updatePortStatus o pkgs listenIPPorts) =
      (listenPortsOf pkgs).map (fun e =>
        { Address := e.Address, Port := e.Port,
          PortScanSuccessOn := findPortScanSuccessOn listenIPPorts e }) := by
    rw [heq, listenPortsOf_reconcile]
    rfl
  refine ⟨heq, hl, ?_, ?_⟩
  · intro e _ hno
    rw [findPortScanSuccessOn_eq, List.map_eq_nil_iff, List.filter_eq_nil_iff]
    intro q hq
    obtain ⟨s, hs, rfl⟩ := List.mem_map.mp hq
    simpa using hno s hs
  · intro e1 h1 e2 h2 ha hp
    rw [hl] at h1 h2
    obtain ⟨x1, _, rfl⟩ := List.mem_map.mp h1
    obtain ⟨x2, _, rfl⟩ := List.mem_map.mp h2
    exact findPortScanSuccessOn_congr listenIPPorts x1 x2 ha hp

/-- Witness of C6 on `dupInventory`: the three entries for `10.0.0.5`, `80`,
one of which held a stale result, all end with `10.0.0.5`, and the wildcard
entries with the address their port was found open at. -/
theorem updatePortStatus_overwrites_witness :
    listenPortsOf (updatePortStatus (RangeOrder.backward _) dupInventory
        ["10.0.0.5:80", "192.168.1.10:22"]) =
      [⟨"10.0.0.5", "80", ["10.0.0.5"]⟩, ⟨"*", "22", ["192.168.1.10"]⟩,
       ⟨"10.0.0.5", "80", ["10.0.0.5"]⟩, ⟨"*", "22", ["192.168.1.10"]⟩,
       ⟨"10.0.0.5", "80", ["10.0.0.5"]⟩] :=
  ((updatePortStatus_overwrites (RangeOrder.backward _) dupInventory
    ["10.0.0.5:80", "192.168.1.10:22"] (by decide)).2.1).trans (by decide)


/-! ## The whole scan -/

/-- C7. No reconciliation on failure: when the engine selected by the
configuration returns an error, `scanPorts` returns that same error and the
inventory, with every `PortScanSuccessOn` field, is as it was before the
call. -/
theorem scanPorts_engine_error (env : Env) (conf : PortScanConf) (sch : Schedule) (l : base) :
    (∀ out err, conf.ScannerBinPath = "" →
      execNativePortScan env sch.targets l (detectScanDest sch l) = (out, some err) →
      scanPorts env conf sch l = some (l, some err)) ∧
    (∀ out err, conf.ScannerBinPath ≠ "" →
      execExternalPortScan env conf sch.targets l (detectScanDest sch l) =
        some (out, some err) →
      scanPorts env conf sch l = some (l, some err)) ∧
    (∀ out err,
      execPortsScan env conf sch.targets l (detectScanDest sch l) = some (out, some err) →
      scanPorts env conf sch l = some (l, some err)) := by
  refine ⟨?_, ?_, ?_⟩
  · intro out err hc he
    simp [scanPorts, execPortsScan, hc, he]
  · intro out err hc he
    simp [scanPorts, execPortsScan, hc, he]
  · intro out err he
    simp [scanPorts, he]

/-- Witness of C7: a fatal dial error of the native engine after an open port,
and an unsupported technique of the external engine; the inventory, stale
results included, is returned as it was. -/
theorem scanPorts_engine_error_witness :
    scanPorts remoteEnv nativeConf Schedule.stored fatalBase =
        some (fatalBase, some "network is unreachable") ∧
      scanPorts remoteEnv ⟨"/usr/bin/nmap", false, "sZ"⟩ Schedule.stored dupBase =
        some (dupBase,
          some "Failed to setScanTechnique. cannot support ScanTechnique: sZ") :=
  ⟨(scanPorts_engine_error remoteEnv nativeConf Schedule.stored fatalBase).1 []
      "network is unreachable" rfl (by decide),
    (scanPorts_engine_error remoteEnv ⟨"/usr/bin/nmap", false, "sZ"⟩ Schedule.stored
      dupBase).2.1 [] "Failed to setScanTechnique. cannot support ScanTechnique: sZ"
      (by decide) (by decide)⟩

theorem visit_singleton {α : Type} (o : RangeOrder α) (x : α) : o.visit [x] = [x] :=
  List.perm_singleton.mp (o.perm [x])

theorem mem_nativeOpen_flatMap (env : Env) (o : RangeOrder (String × List String))
    (si : ServerInfo) (dest : GoMap (List String)) (s : String) :
    s ∈ ((o.visit dest).filter (fun e => !skipped env si e.1)).flatMap
        (fun e => nativeOpen env e.1 e.2) ↔
      ∃ e ∈ dest, skipped env si e.1 = false ∧
        ∃ port ∈ e.2, s = e.1 ++ ":" ++ port ∧ (env.nativeScanPort s).1 = true := by
  have hperm := o.perm dest
  simp only [List.mem_flatMap, List.mem_filter, mem_nativeOpen]
  constructor
  · rintro ⟨e, ⟨he, hs⟩, port, hport, rfl, ho⟩
    exact ⟨e, hperm.mem_iff.mp he, by simpa using hs, port, hport, rfl, ho⟩
  · rintro ⟨e, he, hs, port, hport, rfl, ho⟩
    exact ⟨e, ⟨hperm.mem_iff.mpr he, by simpa using hs⟩, port, hport, rfl, ho⟩

theorem mem_findPortScanSuccessOn (listenIPPorts : List String) (e : ListenPort)
    (a : String) :
    a ∈ findPortScanSuccessOn listenIPPorts e ↔
      ∃ s ∈ listenIPPorts, (parseListenPorts s).Address = a ∧
        (parseListenPorts s).Port = e.Port ∧
        (e.Address = "*" ∨ e.Address = (parseListenPorts s).Address) := by
  rw [findPortScanSuccessOn_eq]
  simp only [List.mem_map, List.mem_filter, decide_eq_true_eq]
  constructor
  · rintro ⟨q, ⟨⟨s, hs, rfl⟩, hp, ha⟩, rfl⟩
    exact ⟨s, hs, rfl, hp, ha⟩
  · rintro ⟨s, hs, rfl, hp, ha⟩
    exact ⟨parseListenPorts s, ⟨⟨s, hs, rfl⟩, hp, ha⟩, rfl⟩

theorem scanPorts_native_ok (env : Env) (conf : PortScanConf) (sch : Schedule) (l : base)
    (hconf : conf.ScannerBinPath = "")
    (hdial : ∀ e ∈ detectScanDest sch l, skipped env l.ServerInfo e.1 = false →
      ∀ port ∈ e.2, (env.nativeScanPort (e.1 ++ ":" ++ port)).2 = none) :
    scanPorts env conf sch l =
      some (⟨updatePortStatus sch.update l.Packages
        (((sch.targets.visit (detectScanDest sch l)).filter
          (fun e => !skipped env l.ServerInfo e.1)).flatMap
            (fun e => nativeOpen env e.1 e.2)), l.ServerInfo⟩, none) := by
  have hv : ∀ e ∈ sch.targets.visit (detectScanDest sch l),
      skipped env l.ServerInfo e.1 = false →
      ∀ port ∈ e.2, (env.nativeScanPort (e.1 ++ ":" ++ port)).2 = none :=
    fun e he => hdial e ((sch.targets.perm _).mem_iff.mp he)
  have heq := nativeLoop_ok env l.ServerInfo _ [] hv
  rw [List.nil_append] at heq
  simp [scanPorts, execPortsScan, hconf, execNativePortScan, heq]


theorem detectScanDest_sshBase (sch : Schedule) :
    detectScanDest sch sshBase = [("192.168.1.10", ["22"])] := by
  have h1 : collectListenPorts sch.packages sshBase.Packages = [("*", ["22"])] := by
    unfold collectListenPorts
    rw [show sshBase.Packages = [("openssh", ⟨[⟨[⟨"*", "22", []⟩]⟩]⟩)] from rfl,
      visit_singleton]
    rfl
  have h2 : expandWildcard sch.scanIPPorts sshBase.ServerInfo.IPv4Addrs [("*", ["22"])] =
      [("192.168.1.10", ["22"])] := by
    unfold expandWildcard
    rw [visit_singleton]
    rfl
  have h3 : uniqPorts sch.scanDestIPPorts [("192.168.1.10", ["22"])] =
      [("192.168.1.10", ["22"])] := by
    unfold uniqPorts
    rw [visit_singleton]
    rfl
  unfold detectScanDest
  rw [h1, h2, h3]

/-- C5. End to end with the native engine and a dial oracle. When no scanner
binary is configured, the package names are distinct, no declared port string
contains a colon and the dial yields no fatal error on the targets that are
not skipped, `scanPorts` succeeds and leaves every listen-port entry `e` (its
address and port untouched) with a result that contains an address `a`
exactly when the target map lists the port of `e` under `a`, `a` is not
skipped by the loopback rule, the oracle reports `a:port` open, and the
declared address of `e` is the wildcard or `a`. In the scenario of the
specification (one entry with the wildcard and port 22, the one host address
192.168.1.10, where port 22 is found open) the entry ends with the result
`192.168.1.10`, whatever the iteration orders. -/
theorem scanPorts_native_end_to_end :
    (∀ (env : Env) (conf : PortScanConf) (sch : Schedule) (l : base),
      conf.ScannerBinPath = "" →
      (keys l.Packages).Nodup →
      (∀ e ∈ listenPortsOf l.Packages, ':' ∉ e.Port.data) →
      (∀ e ∈ detectScanDest sch l, skipped env l.ServerInfo e.1 = false →
        ∀ port ∈ e.2, (env.nativeScanPort (e.1 ++ ":" ++ port)).2 = none) →
      ∃ l', scanPorts env conf sch l = some (l', none) ∧
        l'.ServerInfo = l.ServerInfo ∧
        (listenPortsOf l'.Packages).map (fun e => (e.Address, e.Port)) =
          (listenPortsOf l.Packages).map (fun e => (e.Address, e.Port)) ∧
        ∀ e ∈ listenPortsOf l'.Packages, ∀ a,
          a ∈ e.PortScanSuccessOn ↔
            (e.Port ∈ lookup (detectScanDest sch l) a ∧
              skipped env l.ServerInfo a = false ∧
              (env.nativeScanPort (a ++ ":" ++ e.Port)).1 = true ∧
              (e.Address = "*" ∨ e.Address = a))) ∧
    (∀ (env : Env) (conf : PortScanConf) (sch : Schedule),
      conf.ScannerBinPath = "" →
      skipped env oneAddr "192.168.1.10" = false →
      env.nativeScanPort "192.168.1.10:22" = (true, none) →
      scanPorts env conf sch sshBase =
        some (⟨[("openssh", ⟨[⟨[⟨"*", "22", ["192.168.1.10"]⟩]⟩]⟩)], oneAddr⟩, none)) := by
  constructor
  · intro env conf sch l hconf hkeys hports hdial
    refine ⟨_, scanPorts_native_ok env conf sch l hconf hdial, rfl, ?_, ?_⟩
    · simp only
      rw [updatePortStatus_eq_reconcile _ _ _ hkeys, listenPortsOf_reconcile, List.map_map]
      rfl
    · simp only
      rw [updatePortStatus_eq_reconcile _ _ _ hkeys, listenPortsOf_reconcile]
      intro e he a
      obtain ⟨x, hx, rfl⟩ := List.mem_map.mp he
      have hxc := hports x hx
      show a ∈ findPortScanSuccessOn _ x ↔ (x.Port ∈ _ ∧ _ ∧ _ ∧ (x.Address = "*" ∨ x.Address = a))
      rw [mem_findPortScanSuccessOn]
      constructor
      · rintro ⟨s, hs, hsa, hsp, hsaddr⟩
        obtain ⟨ent, hent, hskip, port, hport, rfl, hopen⟩ :=
          (mem_nativeOpen_flatMap env sch.targets l.ServerInfo _ s).mp hs
        have hpl : port ∈ lookup (detectScanDest sch l) ent.1 := by
          rw [← mem_detectScanDest sch l ent hent]; exact hport
        obtain ⟨q, hq, hqp, _⟩ := (mem_lookup_detectScanDest sch l _ _).mp hpl
        have hpc : ':' ∉ port.data := hqp ▸ hports q hq
        rw [parseListenPorts_join ent.1 port hpc] at hsa hsp hsaddr
        simp only at hsa hsp hsaddr
        subst hsa
        subst hsp
        exact ⟨hpl, hskip, hopen, hsaddr⟩
      · rintro ⟨hpl, hskip, hopen, haddr⟩
        have hk := mem_keys_detectScanDest_of_mem sch l _ _ hpl
        have hent : (a, lookup (detectScanDest sch l) a) ∈ detectScanDest sch l :=
          (mem_iff_lookup _ (nodup_keys_detectScanDest sch l) _ _).mpr ⟨hk, rfl⟩
        refine ⟨a ++ ":" ++ x.Port, ?_, ?_⟩
        · exact (mem_nativeOpen_flatMap env sch.targets l.ServerInfo _ _).mpr
            ⟨_, hent, hskip, x.Port, hpl, rfl, hopen⟩
        · rw [parseListenPorts_join a x.Port hxc]
          exact ⟨rfl, rfl, haddr⟩
  · intro env conf sch hconf hskip hopen
    have hc : (!env.isLocalExec oneAddr.Port oneAddr.Host && env.IsLoopback "192.168.1.10") =
        false := hskip
    have hopen' : env.nativeScanPort ("192.168.1.10" ++ ":" ++ "22") = (true, none) := hopen
    have hn : execNativePortScan env sch.targets sshBase [("192.168.1.10", ["22"])] =
        (["192.168.1.10:22"], none) := by
      unfold execNativePortScan
      rw [visit_singleton]
      show nativeLoop env oneAddr [("192.168.1.10", ["22"])] [] = _
      simp only [nativeLoop, nativePortLoop, hc, hopen', Bool.false_eq_true, if_false, if_true]
      rfl
    have hu : updatePortStatus sch.update sshBase.Packages ["192.168.1.10:22"] =
        [("openssh", ⟨[⟨[⟨"*", "22", ["192.168.1.10"]⟩]⟩]⟩)] := by
      unfold updatePortStatus
      rw [show sshBase.Packages = [("openssh", ⟨[⟨[⟨"*", "22", []⟩]⟩]⟩)] from rfl,
        visit_singleton]
      rfl
    unfold scanPorts execPortsScan
    simp only [detectScanDest_sshBase, hconf, hn, hu, ne_eq, not_true_eq_false, if_false]
    rfl

/-- Witness of C5 on `dupBase` with the dial of `remoteEnv`: `10.0.0.5:80` and
`192.168.1.10:22` are open, `192.168.1.11:22` is closed. -/
theorem scanPorts_native_end_to_end_witness :
    ∃ l', scanPorts remoteEnv nativeConf Schedule.stored dupBase = some (l', none) ∧
      ∀ e ∈ listenPortsOf l'.Packages, ∀ a,
        a ∈ e.PortScanSuccessOn ↔
          (e.Port ∈ lookup (detectScanDest Schedule.stored dupBase) a ∧
            skipped remoteEnv dupBase.ServerInfo a = false ∧
            (remoteEnv.nativeScanPort (a ++ ":" ++ e.Port)).1 = true ∧
            (e.Address = "*" ∨ e.Address = a)) :=
  (scanPorts_native_end_to_end.1 remoteEnv nativeConf Schedule.stored dupBase rfl
    (by decide) (by decide) (by decide)).imp (fun _ h => ⟨h.1, h.2.2.2⟩)


/-! ## Parsing `address:port` -/

/-- C19. Parse round trip: for every address string `a`, which may itself
contain colons, and every port string `p` without a colon,
`parseListenPorts` of `a`, a colon and `p` is the `ListenPort` with address
`a` and port `p` (the cut is at the last colon); a string without a colon
parses to the empty `ListenPort`. -/
theorem parseListenPorts_round_trip :
    (∀ a p : String, ':' ∉ p.data →
      parseListenPorts (a ++ ":" ++ p) =
        { Address := a, Port := p, PortScanSuccessOn := [] }) ∧
    (∀ s : String, ':' ∉ s.data →
      parseListenPorts s = { Address := "", Port := "", PortScanSuccessOn := [] }) ∧
    parseListenPorts "[fe80::1]:8080" =
      { Address := "[fe80::1]", Port := "8080", PortScanSuccessOn := [] } ∧
    parseListenPorts "localhost" = { Address := "", Port := "", PortScanSuccessOn := [] } :=
  ⟨parseListenPorts_join, parseListenPorts_no_colon, by decide, by decide⟩

/-- Witness of C19: a bracketed IPv6 address with port 22, and a string without
a colon. -/
theorem parseListenPorts_round_trip_witness :
    parseListenPorts ("[::1]" ++ ":" ++ "22") =
        { Address := "[::1]", Port := "22", PortScanSuccessOn := [] } ∧
      parseListenPorts "22" = { Address := "", Port := "", PortScanSuccessOn := [] } :=
  ⟨parseListenPorts_round_trip.1 "[::1]" "22" (by decide),
    parseListenPorts_round_trip.2.1 "22" (by decide)⟩

/-! ## Exact content of the target map -/

theorem detectScanDest_nil (sch : Schedule) (si : ServerInfo) :
    detectScanDest sch ⟨[], si⟩ = [] := by
  have h1 : ∀ {α : Type} (o : RangeOrder α), o.visit [] = [] :=
    fun o => List.perm_nil.mp (o.perm [])
  unfold detectScanDest collectListenPorts
  simp only [h1, List.foldl_nil]
  unfold expandWildcard
  simp only [h1, List.foldl_nil]
  unfold uniqPorts
  simp only [h1, List.foldl_nil]

theorem mem_detectScanDest_iff (sch : Schedule) (l : base) (a : String) (ps : List String) :
    (a, ps) ∈ detectScanDest sch l ↔ ps = lookup (detectScanDest sch l) a ∧ ps ≠ [] := by
  rw [mem_iff_lookup _ (nodup_keys_detectScanDest sch l), mem_keys_detectScanDest]
  constructor
  · rintro ⟨h1, h2⟩
    exact ⟨h2.symm, h2 ▸ h1⟩
  · rintro ⟨h1, h2⟩
    exact ⟨h1 ▸ h2, h1.symm⟩

/-- C17. Exact content of the target map: the map returned by `detectScanDest`
lists the port `p` under the address `a` exactly when some listen port declares
`a` and `p` with `a` not the wildcard, or some listen port declares the
wildcard and `p` and `a` is a host address. So an empty inventory gives the
empty map, wildcard entries contribute nothing when there is no host address,
every port of the map is a declared port, and every address of the map is a
declared address or a host address reached through a declared wildcard. -/
theorem detectScanDest_content (sch : Schedule) (l : base) :
    (∀ a p, (∃ ps, (a, ps) ∈ detectScanDest sch l ∧ p ∈ ps) ↔
      ((∃ port ∈ listenPortsOf l.Packages, port.Address = a ∧ port.Port = p ∧ a ≠ "*") ∨
        (∃ port ∈ listenPortsOf l.Packages, port.Address = "*" ∧ port.Port = p ∧
          a ∈ l.ServerInfo.IPv4Addrs))) ∧
    (∀ a p, p ∈ lookup (detectScanDest sch l) a ↔ ∃ ps, (a, ps) ∈ detectScanDest sch l ∧ p ∈ ps) ∧
    (l.Packages = [] → detectScanDest sch l = []) ∧
    (l.ServerInfo.IPv4Addrs = [] →
      ∀ a p, p ∈ lookup (detectScanDest sch l) a ↔
        ∃ port ∈ listenPortsOf l.Packages, port.Address = a ∧ port.Port = p ∧ a ≠ "*") ∧
    (∀ e ∈ detectScanDest sch l, e.2 ≠ [] ∧
      ∀ p ∈ e.2, ∃ port ∈ listenPortsOf l.Packages, port.Port = p ∧
        (port.Address = e.1 ∨ (port.Address = "*" ∧ e.1 ∈ l.ServerInfo.IPv4Addrs))) := by
  have hentry : ∀ a p, p ∈ lookup (detectScanDest sch l) a ↔
      ∃ ps, (a, ps) ∈ detectScanDest sch l ∧ p ∈ ps := by
    intro a p
    constructor
    · intro hp
      refine ⟨_, (mem_detectScanDest_iff sch l a _).mpr ⟨rfl, ?_⟩, hp⟩
      intro hn
      rw [hn] at hp
      simp at hp
    · rintro ⟨ps, hps, hp⟩
      rw [((mem_detectScanDest_iff sch l a ps).mp hps).1] at hp
      exact hp
  have hmem : ∀ a p, p ∈ lookup (detectScanDest sch l) a ↔
      ((∃ port ∈ listenPortsOf l.Packages, port.Address = a ∧ port.Port = p ∧ a ≠ "*") ∨
        (∃ port ∈ listenPortsOf l.Packages, port.Address = "*" ∧ port.Port = p ∧
          a ∈ l.ServerInfo.IPv4Addrs)) := by
    intro a p
    rw [mem_lookup_detectScanDest]
    constructor
    · rintro ⟨port, hport, hp, (⟨hw, ha⟩ | ⟨hw, ha⟩)⟩
      · exact Or.inr ⟨port, hport, hw, hp, ha⟩
      · exact Or.inl ⟨port, hport, ha, hp, ha ▸ hw⟩
    · rintro (⟨port, hport, ha, hp, hw⟩ | ⟨port, hport, hw, hp, ha⟩)
      · exact ⟨port, hport, hp, Or.inr ⟨ha ▸ hw, ha⟩⟩
      · exact ⟨port, hport, hp, Or.inl ⟨hw, ha⟩⟩
  refine ⟨fun a p => (hentry a p).symm.trans (hmem a p), hentry, ?_, ?_, ?_⟩
  · intro hnil
    obtain ⟨pk, si⟩ := l
    simp only at hnil
    subst hnil
    exact detectScanDest_nil sch si
  · intro hH a p
    rw [hmem, hH]
    simp
  · intro e he
    have h1 := (mem_detectScanDest_iff sch l e.1 e.2).mp he
    refine ⟨h1.2, ?_⟩
    intro p hp
    rw [h1.1] at hp
    obtain ⟨port, hport, hpp, (⟨hw, ha⟩ | ⟨_, ha⟩)⟩ := (mem_lookup_detectScanDest sch l _ _).mp hp
    · exact ⟨port, hport, hpp, Or.inr ⟨hw, ha⟩⟩
    · exact ⟨port, hport, hpp, Or.inl ha⟩

/-- Witness of C17 on `dupBase`: port 22, declared with the wildcard, is listed
under the host address `192.168.1.11`, and port 80, declared under
`10.0.0.5` only, is not. -/
theorem detectScanDest_content_witness :
    (∃ ps, ("192.168.1.11", ps) ∈ detectScanDest Schedule.stored dupBase ∧ "22" ∈ ps) ∧
      ¬ (∃ ps, ("192.168.1.11", ps) ∈ detectScanDest Schedule.stored dupBase ∧ "80" ∈ ps) :=
  ⟨((detectScanDest_content Schedule.stored dupBase).1 "192.168.1.11" "22").mpr
      (Or.inr ⟨⟨"*", "22", []⟩, by decide, rfl, rfl, by decide⟩),
    fun h => by
      rcases ((detectScanDest_content Schedule.stored dupBase).1 "192.168.1.11" "80").mp h with
        ⟨port, hport, ha, hp, _⟩ | ⟨port, hport, ha, hp, _⟩
      · revert ha hp
        revert port
        decide
      · revert ha hp
        revert port
        decide⟩


/-! ## The retry of `nativeScanPort` -/

theorem nativeScanPort_cons_connected (scanDest : String) (d : String → Option String)
    (later : List (String → Option String)) (h : d scanDest = none) :
    nativeScanPort scanDest (d :: later) = some ((true, none), later) := by
  simp [nativeScanPort, h]

theorem nativeScanPort_cons_closed (scanDest err : String) (d : String → Option String)
    (later : List (String → Option String)) (h : d scanDest = some err)
    (hc : closedClass err = true) :
    nativeScanPort scanDest (d :: later) = some ((false, none), later) := by
  unfold closedClass at hc
  simp only [nativeScanPort, h, hc, if_true]

theorem nativeScanPort_cons_exhausted (scanDest err : String) (d : String → Option String)
    (later : List (String → Option String)) (h : d scanDest = some err)
    (hx : exhaustedClass err = true) :
    nativeScanPort scanDest (d :: later) = nativeScanPort scanDest later := by
  unfold exhaustedClass closedClass at hx
  simp only [Bool.and_eq_true, Bool.not_eq_true'] at hx
  simp only [nativeScanPort, h, hx.1, hx.2, Bool.false_eq_true, if_false, if_true]

theorem nativeScanPort_cons_other (scanDest err : String) (d : String → Option String)
    (later : List (String → Option String)) (h : d scanDest = some err)
    (hc : closedClass err = false) (hx : Contains err "too many open files" = false) :
    nativeScanPort scanDest (d :: later) = some ((false, some err), later) := by
  unfold closedClass at hc
  simp only [nativeScanPort, h, hc, hx, Bool.false_eq_true, if_false]

theorem nativeScanPort_skip_exhausted (scanDest : String)
    (pre later : List (String → Option String))
    (hpre : ∀ d ∈ pre, ∃ err, d scanDest = some err ∧ exhaustedClass err = true) :
    nativeScanPort scanDest (pre ++ later) = nativeScanPort scanDest later := by
  induction pre with
  | nil => rfl
  | cons d pre ih =>
    obtain ⟨err, he, hx⟩ := hpre d (List.mem_cons_self _ _)
    rw [List.cons_append, nativeScanPort_cons_exhausted scanDest err d _ he hx]
    exact ih (fun d' hd' => hpre d' (List.mem_cons_of_mem _ hd'))

/-- C12. Retry on resource exhaustion, over the outcomes of the successive
dials. When the first `N` dials of the address fail with an error of the
resource-exhaustion class (the message contains `too many open files` and is
not of the timeout or connection-refused class, which the code tests first),
`nativeScanPort` is still dialling the same address after them and its verdict
is that of dial `N + 1`, with exactly `N + 1` outcomes consumed: open without
error when that dial connects, closed without error when it fails with a
timeout or a refused connection, and that error when it fails with any other
error. From exhaustion alone no verdict is returned. -/
theorem nativeScanPort_retry (scanDest : String) (N : Nat)
    (pre : List (String → Option String)) (d : String → Option String)
    (later : List (String → Option String))
    (hN : pre.length = N)
    (hpre : ∀ f ∈ pre, ∃ err, f scanDest = some err ∧ exhaustedClass err = true) :
    (d scanDest = none →
      nativeScanPort scanDest (pre ++ d :: later) = some ((true, none), later)) ∧
    (∀ err, d scanDest = some err → closedClass err = true →
      nativeScanPort scanDest (pre ++ d :: later) = some ((false, none), later)) ∧
    (∀ err, d scanDest = some err → closedClass err = false →
      Contains err "too many open files" = false →
      nativeScanPort scanDest (pre ++ d :: later) = some ((false, some err), later)) ∧
    (pre ++ [d]).length = N + 1 ∧
    nativeScanPort scanDest pre = none := by
  have hskip := nativeScanPort_skip_exhausted scanDest pre (d :: later) hpre
  refine ⟨?_, ?_, ?_, ?_, ?_⟩
  · intro h
    rw [hskip]
    exact nativeScanPort_cons_connected scanDest d later h
  · intro err h hc
    rw [hskip]
    exact nativeScanPort_cons_closed scanDest err d later h hc
  · intro err h hc hx
    rw [hskip]
    exact nativeScanPort_cons_other scanDest err d later h hc hx
  · simp [hN]
  · have := nativeScanPort_skip_exhausted scanDest pre [] hpre
    rw [List.append_nil] at this
    rw [this]
    rfl


/-- Witness of C12 with two exhaustion failures: the third dial decides, and a
fourth outcome is left unconsumed. -/
theorem nativeScanPort_retry_witness :
    (nativeScanPort "10.0.0.5:80" ([exhaustedDial, exhaustedDial] ++
        connectedDial :: [refusedDial])).map (fun r => r.1) = some (true, none) ∧
    (nativeScanPort "10.0.0.5:80" ([exhaustedDial, exhaustedDial] ++
        refusedDial :: [connectedDial])).map (fun r => r.1) = some (false, none) ∧
    (nativeScanPort "10.0.0.5:80" ([exhaustedDial, exhaustedDial] ++
        unreachableDial :: [connectedDial])).map (fun r => r.1) =
      some (false, some "connect: network is unreachable") ∧
    (nativeScanPort "10.0.0.5:80" [exhaustedDial, exhaustedDial]).isNone = true :=
  have hpre : ∀ f ∈ [exhaustedDial, exhaustedDial],
      ∃ err, f "10.0.0.5:80" = some err ∧ exhaustedClass err = true := by
    intro f hf
    have : f = exhaustedDial := by
      rcases List.mem_cons.mp hf with h | h
      · exact h
      · exact List.mem_singleton.mp h
    subst this
    exact ⟨_, rfl, by decide⟩
  ⟨by
      rw [(nativeScanPort_retry "10.0.0.5:80" 2 [exhaustedDial, exhaustedDial] connectedDial
        [refusedDial] rfl hpre).1 rfl]
      rfl,
    by
      rw [(nativeScanPort_retry "10.0.0.5:80" 2 [exhaustedDial, exhaustedDial] refusedDial
        [connectedDial] rfl hpre).2.1 _ rfl (by decide)]
      rfl,
    by
      rw [(nativeScanPort_retry "10.0.0.5:80" 2 [exhaustedDial, exhaustedDial] unreachableDial
        [connectedDial] rfl hpre).2.2.1 _ rfl (by decide) (by decide)]
      rfl,
    by
      rw [(nativeScanPort_retry "10.0.0.5:80" 2 [exhaustedDial, exhaustedDial] connectedDial
        [] rfl hpre).2.2.2.2]
      rfl⟩


/-! ## The results written back -/

theorem colon_mem_join (a p : String) : ':' ∈ (a ++ ":" ++ p).data := by
  simp [String.data_append]

theorem nodup_findPortScanSuccessOn (out : List String) (e : ListenPort) (hn : out.Nodup)
    (hc : ∀ s ∈ out, ':' ∈ s.data) : (findPortScanSuccessOn out e).Nodup := by
  rw [findPortScanSuccessOn_eq, List.filter_map, List.map_map]
  apply List.Nodup.map_on _ (hn.filter _)
  intro s1 h1 s2 h2 heq
  obtain ⟨hm1, hp1⟩ := List.mem_filter.mp h1
  obtain ⟨hm2, hp2⟩ := List.mem_filter.mp h2
  simp only [Function.comp_apply, decide_eq_true_eq] at hp1 hp2 heq
  have e1 := (parseListenPorts_split s1 (hc s1 hm1)).1
  have e2 := (parseListenPorts_split s2 (hc s2 hm2)).1
  rw [← e1, ← e2, heq, hp1.1, hp2.1]

theorem nodup_all_eq {α : Type} (l : List α) (c : α) (hn : l.Nodup) (h : ∀ x ∈ l, x = c) :
    l = [] ∨ l = [c] := by
  cases l with
  | nil => exact Or.inl rfl
  | cons x l =>
    right
    have hx := h x (List.mem_cons_self _ _)
    subst hx
    cases l with
    | nil => rfl
    | cons y l =>
      have hy := h y (List.mem_cons_of_mem _ (List.mem_cons_self _ _))
      subst hy
      simp at hn

theorem nodup_native_result (env : Env) (sch : Schedule) (l : base)
    (hports : ∀ e ∈ listenPortsOf l.Packages, ':' ∉ e.Port.data) :
    (((sch.targets.visit (detectScanDest sch l)).filter
      (fun e => !skipped env l.ServerInfo e.1)).flatMap
        (fun e => nativeOpen env e.1 e.2)).Nodup := by
  have hperm := sch.targets.perm (detectScanDest sch l)
  apply nodup_flatMap_nativeOpen
  · have hk : (keys (sch.targets.visit (detectScanDest sch l))).Nodup :=
      (keys_perm hperm).nodup_iff.mpr (nodup_keys_detectScanDest sch l)
    exact List.Nodup.sublist ((List.filter_sublist _).map _) hk
  · intro e he
    have he' : e ∈ detectScanDest sch l := hperm.mem_iff.mp (List.mem_of_mem_filter he)
    have hl := mem_detectScanDest sch l e he'
    refine ⟨hl ▸ nodup_lookup_detectScanDest sch l e.1, ?_⟩
    intro port hport
    rw [hl] at hport
    obtain ⟨q, hq, hqp, _⟩ := (mem_lookup_detectScanDest sch l _ _).mp hport
    exact hqp ▸ hports q hq

theorem colon_mem_native_result (env : Env) (o : RangeOrder (String × List String))
    (si : ServerInfo) (dest : GoMap (List String)) (s : String)
    (h : s ∈ ((o.visit dest).filter (fun e => !skipped env si e.1)).flatMap
        (fun e => nativeOpen env e.1 e.2)) : ':' ∈ s.data := by
  obtain ⟨e, _, _, port, _, rfl, _⟩ := (mem_nativeOpen_flatMap env o si dest s).mp h
  exact colon_mem_join e.1 port

/-- C15. The result of an entry is a set. With the native engine, distinct
package names, no colon in a declared port string and no fatal dial error on
the targets that are not skipped, `scanPorts` succeeds and the result of every
entry contains no address twice; the result of an entry that does not declare
the wildcard is empty or is its own address alone. -/
theorem scanPorts_successOn_nodup (env : Env) (conf : PortScanConf) (sch : Schedule)
    (l : base)
    (hconf : conf.ScannerBinPath = "")
    (hkeys : (keys l.Packages).Nodup)
    (hports : ∀ e ∈ listenPortsOf l.Packages, ':' ∉ e.Port.data)
    (hdial : ∀ e ∈ detectScanDest sch l, skipped env l.ServerInfo e.1 = false →
      ∀ port ∈ e.2, (env.nativeScanPort (e.1 ++ ":" ++ port)).2 = none) :
    ∃ l', scanPorts env conf sch l = some (l', none) ∧
      ∀ e ∈ listenPortsOf l'.Packages,
        e.PortScanSuccessOn.Nodup ∧
        (e.Address ≠ "*" → e.PortScanSuccessOn = [] ∨ e.PortScanSuccessOn = [e.Address]) := by
  refine ⟨_, scanPorts_native_ok env conf sch l hconf hdial, ?_⟩
  simp only
  rw [updatePortStatus_eq_reconcile _ _ _ hkeys, listenPortsOf_reconcile]
  intro e he
  obtain ⟨x, _, rfl⟩ := List.mem_map.mp he
  have hn : (findPortScanSuccessOn
      (((sch.targets.visit (detectScanDest sch l)).filter
        (fun e => !skipped env l.ServerInfo e.1)).flatMap
          (fun e => nativeOpen env e.1 e.2)) x).Nodup :=
    nodup_findPortScanSuccessOn _ x (nodup_native_result env sch l hports)
      (fun s hs => colon_mem_native_result env sch.targets l.ServerInfo _ s hs)
  refine ⟨hn, ?_⟩
  intro hw
  apply nodup_all_eq _ _ hn
  intro a ha
  obtain ⟨s, _, hsa, _, haddr⟩ := (mem_findPortScanSuccessOn _ x a).mp ha
  rcases haddr with h | h
  · exact absurd h hw
  · exact hsa ▸ h.symm

/-- Witness of C15 on `dupBase` with the dial of `remoteEnv`. -/
theorem scanPorts_successOn_nodup_witness :
    ∃ l', scanPorts remoteEnv nativeConf Schedule.stored dupBase = some (l', none) ∧
      ∀ e ∈ listenPortsOf l'.Packages,
        e.PortScanSuccessOn.Nodup ∧
        (e.Address ≠ "*" → e.PortScanSuccessOn = [] ∨ e.PortScanSuccessOn = [e.Address]) :=
  scanPorts_successOn_nodup remoteEnv nativeConf Schedule.stored dupBase rfl
    (by decide) (by decide) (by decide)


theorem nativePortLoopLog_fst (env : Env) (ip : String) (ports acc dialled : List String) :
    (nativePortLoopLog env ip ports acc dialled).1 = nativePortLoop env ip ports acc := by
  induction ports generalizing acc dialled with
  | nil => rfl
  | cons port more ih =>
    rcases hs : env.nativeScanPort (ip ++ ":" ++ port) with ⟨isOpen, err⟩
    cases err with
    | some e => simp [nativePortLoopLog, nativePortLoop, hs]
    | none =>
      simp only [nativePortLoopLog, nativePortLoop, hs]
      exact ih _ _

theorem nativeLoopLog_fst (env : Env) (si : ServerInfo) (es : List (String × List String))
    (acc dialled : List String) :
    (nativeLoopLog env si es acc dialled).1 = nativeLoop env si es acc := by
  induction es generalizing acc dialled with
  | nil => rfl
  | cons e es ih =>
    obtain ⟨ip, ports⟩ := e
    by_cases hc : (!env.isLocalExec si.Port si.Host && env.IsLoopback ip) = true
    · simp only [nativeLoopLog, nativeLoop, hc, if_true]
      exact ih _ _
    · have hc' : (!env.isLocalExec si.Port si.Host && env.IsLoopback ip) = false := by
        simpa using hc
      have h1 := nativePortLoopLog_fst env ip ports acc dialled
      rcases hl : nativePortLoopLog env ip ports acc dialled with ⟨⟨acc', err⟩, d'⟩
      rw [hl] at h1
      simp only at h1
      cases err with
      | some e =>
        simp only [nativeLoopLog, nativeLoop, hc', hl, ← h1, Bool.false_eq_true, if_false]
      | none =>
        simp only [nativeLoopLog, nativeLoop, hc', hl, ← h1, Bool.false_eq_true, if_false]
        exact ih _ _

theorem execNativePortScanLog_fst (env : Env) (o : RangeOrder (String × List String))
    (l : base) (dest : GoMap (List String)) :
    (execNativePortScanLog env o l dest).1 = execNativePortScan env o l dest :=
  nativeLoopLog_fst env l.ServerInfo _ [] []

theorem externalLoopLog_fst (env : Env) (conf : PortScanConf) (si : ServerInfo)
    (es : List (String × List String)) (acc : List String) (runs : List Invocation) :
    (externalLoopLog env conf si es acc runs).1 = externalLoop env conf si es acc := by
  induction es generalizing acc runs with
  | nil => rfl
  | cons e es ih =>
    obtain ⟨ip, ports⟩ := e
    by_cases hc : (!env.isLocalExec si.Port si.Host && env.IsLoopback ip) = true
    · simp only [externalLoopLog, externalLoop, hc, if_true]
      exact ih _ _
    · have hc' : (!env.isLocalExec si.Port si.Host && env.IsLoopback ip) = false := by
        simpa using hc
      simp only [externalLoopLog, externalLoop, hc', Bool.false_eq_true, if_false]
      cases hN : env.NewScanner conf.ScannerBinPath with
      | some e1 => rfl
      | none =>
        rcases hT : setScanTechnique conf with ⟨t, terr⟩
        cases t with
        | none => cases terr <;> rfl
        | some t =>
          cases terr with
          | some e2 => rfl
          | none =>
            simp only
            cases hB : buildInvocation conf t ip ports with
            | none => rfl
            | some inv =>
              simp only
              rcases hR : env.Run inv with ⟨hosts, rerr⟩
              cases rerr with
              | some e3 => rfl
              | none => exact ih _ _

theorem execExternalPortScanLog_fst (env : Env) (conf : PortScanConf)
    (o : RangeOrder (String × List String)) (l : base) (dest : GoMap (List String)) :
    (execExternalPortScanLog env conf o l dest).1 = execExternalPortScan env conf o l dest :=
  externalLoopLog_fst env conf l.ServerInfo _ [] []

theorem nativePortLoopLog_ok (env : Env) (ip : String) (ports acc dialled : List String)
    (h : ∀ port ∈ ports, (env.nativeScanPort (ip ++ ":" ++ port)).2 = none) :
    nativePortLoopLog env ip ports acc dialled =
      ((acc ++ nativeOpen env ip ports, none),
        dialled ++ ports.map (fun port => ip ++ ":" ++ port)) := by
  induction ports generalizing acc dialled with
  | nil => simp [nativePortLoopLog, nativeOpen]
  | cons port more ih =>
    have h1 := h port (List.mem_cons_self _ _)
    have h2 : ∀ q ∈ more, (env.nativeScanPort (ip ++ ":" ++ q)).2 = none :=
      fun q hq => h q (List.mem_cons_of_mem _ hq)
    rcases hs : env.nativeScanPort (ip ++ ":" ++ port) with ⟨isOpen, err⟩
    rw [hs] at h1
    simp only at h1
    subst h1
    simp only [nativePortLoopLog, hs]
    rw [ih _ _ h2]
    cases isOpen <;> simp [nativeOpen, List.filter_cons, hs]

theorem nativeLoopLog_skip (env : Env) (si : ServerInfo) (ip : String) (ports : List String)
    (rest : List (String × List String)) (acc dialled : List String)
    (h : skipped env si ip = true) :
    nativeLoopLog env si ((ip, ports) :: rest) acc dialled =
      nativeLoopLog env si rest acc dialled := by
  have hc : (!env.isLocalExec si.Port si.Host && env.IsLoopback ip) = true := h
  simp only [nativeLoopLog, hc, if_true]

theorem nativeLoopLog_probe (env : Env) (si : ServerInfo) (ip : String) (ports : List String)
    (rest : List (String × List String)) (acc dialled : List String)
    (h : skipped env si ip = false)
    (hd : ∀ port ∈ ports, (env.nativeScanPort (ip ++ ":" ++ port)).2 = none) :
    nativeLoopLog env si ((ip, ports) :: rest) acc dialled =
      nativeLoopLog env si rest (acc ++ nativeOpen env ip ports)
        (dialled ++ ports.map (fun port => ip ++ ":" ++ port)) := by
  have hc : (!env.isLocalExec si.Port si.Host && env.IsLoopback ip) = false := h
  simp only [nativeLoopLog, hc, nativePortLoopLog_ok env ip ports acc dialled hd,
    Bool.false_eq_true, if_false]

theorem externalLoopLog_skip (env : Env) (conf : PortScanConf) (si : ServerInfo) (ip : String)
    (ports : List String) (rest : List (String × List String)) (acc : List String)
    (runs : List Invocation) (h : skipped env si ip = true) :
    externalLoopLog env conf si ((ip, ports) :: rest) acc runs =
      externalLoopLog env conf si rest acc runs := by
  have hc : (!env.isLocalExec si.Port si.Host && env.IsLoopback ip) = true := h
  simp only [externalLoopLog, hc, if_true]

theorem externalLoopLog_probe (env : Env) (conf : PortScanConf) (si : ServerInfo)
    (t : Technique) (ip : String) (ports : List String) (inv : Invocation)
    (hosts : List NmapHost) (rest : List (String × List String)) (acc : List String)
    (runs : List Invocation) (h : skipped env si ip = false)
    (hN : env.NewScanner conf.ScannerBinPath = none)
    (hT : setScanTechnique conf = (some t, none))
    (hB : buildInvocation conf t ip ports = some inv)
    (hR : env.Run inv = (hosts, none)) :
    externalLoopLog env conf si ((ip, ports) :: rest) acc runs =
      externalLoopLog env conf si rest (acc ++ recordedOf ip hosts) (runs ++ [inv]) := by
  have hc : (!env.isLocalExec si.Port si.Host && env.IsLoopback ip) = false := h
  simp only [externalLoopLog, hc, hN, hT, hB, hR, recordHosts_eq, Bool.false_eq_true, if_false]


/-! ## The loopback rule -/

theorem execNativePortScanLog_singleton (env : Env) (o : RangeOrder (String × List String))
    (l : base) (ip port : String) (h : skipped env l.ServerInfo ip = false) :
    (execNativePortScanLog env o l [(ip, [port])]).2 = [ip ++ ":" ++ port] := by
  have hc : (!env.isLocalExec l.ServerInfo.Port l.ServerInfo.Host && env.IsLoopback ip) =
      false := h
  unfold execNativePortScanLog
  rw [visit_singleton]
  rcases hs : env.nativeScanPort (ip ++ ":" ++ port) with ⟨isOpen, err⟩
  cases err with
  | some e =>
    simp only [nativeLoopLog, nativePortLoopLog, hc, hs, Bool.false_eq_true, if_false,
      List.nil_append]
  | none =>
    simp only [nativeLoopLog, nativePortLoopLog, hc, hs, Bool.false_eq_true, if_false,
      List.nil_append]

theorem execExternalPortScanLog_singleton (env : Env) (conf : PortScanConf)
    (o : RangeOrder (String × List String)) (l : base) (t : Technique) (ip : String)
    (ports : List String) (inv : Invocation)
    (h : skipped env l.ServerInfo ip = false)
    (hN : env.NewScanner conf.ScannerBinPath = none)
    (hT : setScanTechnique conf = (some t, none))
    (hB : buildInvocation conf t ip ports = some inv) :
    (execExternalPortScanLog env conf o l [(ip, ports)]).2 = [inv] := by
  have hc : (!env.isLocalExec l.ServerInfo.Port l.ServerInfo.Host && env.IsLoopback ip) =
      false := h
  unfold execExternalPortScanLog
  rw [visit_singleton]
  rcases hR : env.Run inv with ⟨hosts, rerr⟩
  cases rerr with
  | some e =>
    simp only [externalLoopLog, hc, hN, hT, hB, hR, Bool.false_eq_true, if_false,
      List.nil_append]
  | none =>
    simp only [externalLoopLog, hc, hN, hT, hB, hR, Bool.false_eq_true, if_false,
      List.nil_append]

/-- C11, the rule of the code and where it misses the claim. Both engines pass
over an address exactly when the scan does not run locally and
`net.ParseIP(address).IsLoopback()` holds: nothing of it is dialled or run and
nothing is recorded; an address that is not passed over has all its ports
dialled by the native engine (absent a fatal error) and is run by the external
engine. The bracketed literal `[::1]`, which the parser does not accept, is
therefore not passed over on a remote scan: the native engine dials
`[::1]:22` and records it when it is open, and the external engine runs the
target `::1`. -/
theorem loopback_skip_rule :
    (∀ (env : Env) (si : ServerInfo) (ip : String),
      skipped env si ip = (!env.isLocalExec si.Port si.Host && env.IsLoopback ip)) ∧
    (∀ (env : Env) (si : ServerInfo) (ip : String) (ports : List String)
        (rest : List (String × List String)) (acc dialled : List String),
      skipped env si ip = true →
      nativeLoopLog env si ((ip, ports) :: rest) acc dialled =
        nativeLoopLog env si rest acc dialled) ∧
    (∀ (env : Env) (conf : PortScanConf) (si : ServerInfo) (ip : String)
        (ports : List String) (rest : List (String × List String)) (acc : List String)
        (runs : List Invocation),
      skipped env si ip = true →
      externalLoopLog env conf si ((ip, ports) :: rest) acc runs =
        externalLoopLog env conf si rest acc runs) ∧
    (∀ (env : Env) (si : ServerInfo) (ip : String) (ports : List String)
        (rest : List (String × List String)) (acc dialled : List String),
      skipped env si ip = false →
      (∀ port ∈ ports, (env.nativeScanPort (ip ++ ":" ++ port)).2 = none) →
      nativeLoopLog env si ((ip, ports) :: rest) acc dialled =
        nativeLoopLog env si rest (acc ++ nativeOpen env ip ports)
          (dialled ++ ports.map (fun port => ip ++ ":" ++ port))) ∧
    (∀ (env : Env) (conf : PortScanConf) (si : ServerInfo) (t : Technique) (ip : String)
        (ports : List String) (inv : Invocation) (hosts : List NmapHost)
        (rest : List (String × List String)) (acc : List String) (runs : List Invocation),
      skipped env si ip = false →
      env.NewScanner conf.ScannerBinPath = none →
      setScanTechnique conf = (some t, none) →
      buildInvocation conf t ip ports = some inv →
      env.Run inv = (hosts, none) →
      externalLoopLog env conf si ((ip, ports) :: rest) acc runs =
        externalLoopLog env conf si rest (acc ++ recordedOf ip hosts) (runs ++ [inv])) ∧
    (∀ (env : Env) (conf : PortScanConf) (o : RangeOrder (String × List String)) (l : base)
        (t : Technique),
      env.isLocalExec l.ServerInfo.Port l.ServerInfo.Host = false →
      env.IsLoopback "[::1]" = false →
      (execNativePortScanLog env o l [("[::1]", ["22"])]).2 = ["[::1]:22"] ∧
      (env.nativeScanPort "[::1]:22" = (true, none) →
        execNativePortScan env o l [("[::1]", ["22"])] = (["[::1]:22"], none)) ∧
      (env.NewScanner conf.ScannerBinPath = none →
        setScanTechnique conf = (some t, none) →
        (execExternalPortScanLog env conf o l [("[::1]", ["22"])]).2 =
          [⟨t, conf.HasPrivileged, "::1", ["22"], true⟩])) := by
  refine ⟨fun _ _ _ => rfl, nativeLoopLog_skip, externalLoopLog_skip, nativeLoopLog_probe,
    externalLoopLog_probe, ?_⟩
  intro env conf o l t hlocal hparse
  have hsk : skipped env l.ServerInfo "[::1]" = false := by
    simp [skipped, hlocal, hparse]
  have hjoin : "[::1]" ++ ":" ++ "22" = "[::1]:22" := by decide
  refine ⟨?_, ?_, ?_⟩
  · rw [execNativePortScanLog_singleton env o l "[::1]" "22" hsk, hjoin]
  · intro hopen
    have hc : (!env.isLocalExec l.ServerInfo.Port l.ServerInfo.Host &&
        env.IsLoopback "[::1]") = false := hsk
    unfold execNativePortScan
    rw [visit_singleton]
    simp only [nativeLoop, nativePortLoop, hc, hjoin, hopen, Bool.false_eq_true, if_false,
      if_true, List.nil_append]
  · intro hN hT
    have hB : buildInvocation conf t "[::1]" ["22"] =
        some ⟨t, conf.HasPrivileged, "::1", ["22"], true⟩ := by
      unfold buildInvocation
      rw [if_pos (by decide)]
      rfl
    exact execExternalPortScanLog_singleton env conf o l t "[::1]" ["22"] _ hsk hN hT hB

/-- Witness of C11 on the bracketed loopback literal with `bracketEnv`: the
unbracketed `::1` is passed over, the bracketed `[::1]` is dialled and
recorded. -/
theorem loopback_skip_rule_witness :
    execNativePortScanLog bracketEnv (RangeOrder.stored _) ⟨[], oneAddr⟩ [("::1", ["22"])] =
        (([], none), []) ∧
      (execNativePortScanLog bracketEnv (RangeOrder.stored _) ⟨[], oneAddr⟩
        [("[::1]", ["22"])]).2 = ["[::1]:22"] ∧
      execNativePortScan bracketEnv (RangeOrder.stored _) ⟨[], oneAddr⟩ [("[::1]", ["22"])] =
        (["[::1]:22"], none) ∧
      (execExternalPortScanLog bracketEnv externalConf (RangeOrder.stored _) ⟨[], oneAddr⟩
        [("[::1]", ["22"])]).2 = [⟨Technique.ConnectScan, false, "::1", ["22"], true⟩] :=
  ⟨(loopback_skip_rule.2.1 bracketEnv oneAddr "::1" ["22"] [] [] [] (by decide)).trans rfl,
    (loopback_skip_rule.2.2.2.2.2 bracketEnv externalConf (RangeOrder.stored _) ⟨[], oneAddr⟩
      Technique.ConnectScan rfl rfl).1,
    (loopback_skip_rule.2.2.2.2.2 bracketEnv externalConf (RangeOrder.stored _) ⟨[], oneAddr⟩
      Technique.ConnectScan rfl rfl).2.1 rfl,
    (loopback_skip_rule.2.2.2.2.2 bracketEnv externalConf (RangeOrder.stored _) ⟨[], oneAddr⟩
      Technique.ConnectScan rfl rfl).2.2 rfl (by decide)⟩


/-! ## The target handed to the external engine -/

theorem Contains_colon_iff (ip : String) : Contains ip ":" = true ↔ ':' ∈ ip.data := by
  rw [Contains_iff]
  have h1 : (":" : String).data = [':'] := by decide
  rw [h1]
  constructor
  · rintro ⟨pre, post, h⟩
    rw [h]
    simp
  · intro h
    obtain ⟨l1, l2, hl⟩ := List.append_of_mem h
    exact ⟨l1, l2, by simp [hl]⟩

theorem sliceStr_inner (ip : String) (h : 2 ≤ ip.data.length) :
    sliceStr ip 1 ((ip.data.length : Int) - 1) =
      some (String.mk ((ip.data.take (ip.data.length - 1)).drop 1)) := by
  unfold sliceStr
  have hc : (0 : Int) ≤ 1 ∧ (1 : Int) ≤ (ip.data.length : Int) - 1 ∧
      (ip.data.length : Int) - 1 ≤ (ip.data.length : Int) := by omega
  rw [if_pos hc]
  have h1 : ((ip.data.length : Int) - 1).toNat = ip.data.length - 1 := by omega
  have h2 : (1 : Int).toNat = 1 := rfl
  rw [h1, h2]

theorem sliceStr_short (ip : String) (h : ip.data.length < 2) :
    sliceStr ip 1 ((ip.data.length : Int) - 1) = none := by
  unfold sliceStr
  have hc : ¬ ((0 : Int) ≤ 1 ∧ (1 : Int) ≤ (ip.data.length : Int) - 1 ∧
      (ip.data.length : Int) - 1 ≤ (ip.data.length : Int)) := by omega
  rw [if_neg hc]

theorem buildInvocation_colon (conf : PortScanConf) (t : Technique) (ip : String)
    (ports : List String) (hc : Contains ip ":" = true) (h : 2 ≤ ip.data.length) :
    buildInvocation conf t ip ports =
      some ⟨t, conf.HasPrivileged, String.mk ((ip.data.take (ip.data.length - 1)).drop 1),
        ports, true⟩ := by
  unfold buildInvocation
  rw [if_pos hc, sliceStr_inner ip h]
  rfl

theorem buildInvocation_no_colon (conf : PortScanConf) (t : Technique) (ip : String)
    (ports : List String) (hc : Contains ip ":" = false) :
    buildInvocation conf t ip ports = some ⟨t, conf.HasPrivileged, ip, ports, false⟩ := by
  unfold buildInvocation
  simp [hc]

theorem buildInvocation_bracketed (conf : PortScanConf) (t : Technique) (a : String)
    (ports : List String) (ha : ':' ∈ a.data) :
    buildInvocation conf t ("[" ++ a ++ "]") ports =
      some ⟨t, conf.HasPrivileged, a, ports, true⟩ := by
  have hd : ("[" ++ a ++ "]").data = '[' :: (a.data ++ [']']) := by
    simp [String.data_append]
  have hc : Contains ("[" ++ a ++ "]") ":" = true := by
    rw [Contains_colon_iff, hd]
    simp [ha]
  have hlen : 2 ≤ ("[" ++ a ++ "]").data.length := by
    rw [hd]; simp
  rw [buildInvocation_colon conf t _ ports hc hlen, hd]
  have h1 : (List.take (('[' :: (a.data ++ [']'])).length - 1) ('[' :: (a.data ++ [']']))).drop 1
      = a.data := by
    have : ('[' :: (a.data ++ [']'])).length - 1 = a.data.length + 1 := by simp
    rw [this, List.take_succ_cons, List.drop_one, List.tail_cons]
    simp
  rw [h1]

theorem length_pos_of_Contains_colon (ip : String) (hc : Contains ip ":" = true) :
    1 ≤ ip.data.length := by
  have := (Contains_colon_iff ip).mp hc
  exact List.length_pos_of_mem this

theorem eq_colon_of_short (ip : String) (hc : Contains ip ":" = true)
    (h : ip.data.length < 2) : ip = ":" := by
  have hm := (Contains_colon_iff ip).mp hc
  apply String.ext
  have h1 : (":" : String).data = [':'] := by decide
  rw [h1]
  match hd : ip.data, hm, h with
  | [c], hm, _ =>
    simp only [List.mem_singleton] at hm
    rw [hm]
  | [], hm, _ => simp at hm
  | _ :: _ :: _, _, h => exact absurd h (by simp)

theorem buildInvocation_none_iff (conf : PortScanConf) (t : Technique) (ip : String)
    (ports : List String) : buildInvocation conf t ip ports = none ↔ ip = ":" := by
  constructor
  · intro h
    by_cases hc : Contains ip ":" = true
    · by_cases hl : 2 ≤ ip.data.length
      · rw [buildInvocation_colon conf t ip ports hc hl] at h
        simp at h
      · exact eq_colon_of_short ip hc (by omega)
    · have hc' : Contains ip ":" = false := by simpa using hc
      rw [buildInvocation_no_colon conf t ip ports hc'] at h
      simp at h
  · rintro rfl
    unfold buildInvocation
    rw [if_pos (by decide), sliceStr_short ":" (by decide)]
    rfl


theorem goString_ascii (s : String) (h : ∀ c ∈ s.data, c.toNat < 128) : goString s = s := by
  unfold goString
  apply String.ext
  show s.data.flatMap (fun c => (utf8Bytes c).map Char.ofNat) = s.data
  generalize s.data = cs at h
  induction cs with
  | nil => rfl
  | cons c cs ih =>
    have hc : c.toNat < 128 := h c (List.mem_cons_self _ _)
    have hb : utf8Bytes c = [c.toNat] := by simp [utf8Bytes, hc]
    rw [List.flatMap_cons, ih (fun x hx => h x (List.mem_cons_of_mem _ hx)), hb]
    simp

/-- C13, what the code hands to the engine. A key written `[a]`, with a colon
in `a`, is passed as `a` with IPv6 scanning, and a key without a colon is
passed unchanged; the address recorded is the key. A key with a colon that is
not bracketed is not passed unchanged: whatever its first and last bytes are,
they are cut off, so `::1` is passed as `:` and `fe80::1` as `e80::`. The cut
is by bytes: the Go string of the text `é:é` has the bytes c3 a9 3a c3 a9 and
is passed as the bytes a9 3a c3; ASCII text is its own Go string. -/
theorem external_target_form :
    (∀ (conf : PortScanConf) (t : Technique) (a : String) (ports : List String),
      ':' ∈ a.data →
      buildInvocation conf t ("[" ++ a ++ "]") ports =
        some ⟨t, conf.HasPrivileged, a, ports, true⟩) ∧
    (∀ (conf : PortScanConf) (t : Technique) (ip : String) (ports : List String),
      ':' ∉ ip.data →
      buildInvocation conf t ip ports = some ⟨t, conf.HasPrivileged, ip, ports, false⟩) ∧
    (∀ (conf : PortScanConf) (t : Technique) (ip : String) (ports : List String),
      ':' ∈ ip.data → 2 ≤ ip.data.length →
      buildInvocation conf t ip ports =
        some ⟨t, conf.HasPrivileged,
          String.mk ((ip.data.take (ip.data.length - 1)).drop 1), ports, true⟩) ∧
    (∀ (conf : PortScanConf) (t : Technique) (ports : List String),
      buildInvocation conf t "::1" ports = some ⟨t, conf.HasPrivileged, ":", ports, true⟩ ∧
      buildInvocation conf t "fe80::1" ports =
        some ⟨t, conf.HasPrivileged, "e80::", ports, true⟩) ∧
    (∀ (env : Env) (conf : PortScanConf) (o : RangeOrder (String × List String)) (l : base)
        (t : Technique) (hosts : List NmapHost),
      skipped env l.ServerInfo "fe80::1" = false →
      env.NewScanner conf.ScannerBinPath = none →
      setScanTechnique conf = (some t, none) →
      env.Run ⟨t, conf.HasPrivileged, "e80::", ["22"], true⟩ = (hosts, none) →
      execExternalPortScanLog env conf o l [("fe80::1", ["22"])] =
        (some (recordedOf "fe80::1" hosts, none),
          [⟨t, conf.HasPrivileged, "e80::", ["22"], true⟩])) ∧
    (goString "é:é" =
        String.mk [Char.ofNat 195, Char.ofNat 169, Char.ofNat 58, Char.ofNat 195,
          Char.ofNat 169] ∧
      ∀ (conf : PortScanConf) (t : Technique) (ports : List String),
        buildInvocation conf t (goString "é:é") ports =
          some ⟨t, conf.HasPrivileged,
            String.mk [Char.ofNat 169, Char.ofNat 58, Char.ofNat 195], ports, true⟩) ∧
    (∀ text : String, (∀ c ∈ text.data, c.toNat < 128) → goString text = text) := by
  have hv6 : ∀ (conf : PortScanConf) (t : Technique) (ports : List String),
      buildInvocation conf t "fe80::1" ports =
        some ⟨t, conf.HasPrivileged, "e80::", ports, true⟩ := by
    intro conf t ports
    rw [buildInvocation_colon conf t "fe80::1" ports (by decide) (by decide)]
    rfl
  refine ⟨buildInvocation_bracketed, ?_, ?_, ?_, ?_, ⟨by decide, ?_⟩, goString_ascii⟩
  · intro conf t ip ports h
    apply buildInvocation_no_colon
    cases hc : Contains ip ":" with
    | false => rfl
    | true => exact absurd ((Contains_colon_iff ip).mp hc) h
  · intro conf t ip ports h hl
    exact buildInvocation_colon conf t ip ports ((Contains_colon_iff ip).mpr h) hl
  · intro conf t ports
    refine ⟨?_, hv6 conf t ports⟩
    rw [buildInvocation_colon conf t "::1" ports (by decide) (by decide)]
    rfl
  · intro env conf o l t hosts hsk hN hT hR
    unfold execExternalPortScanLog
    rw [visit_singleton, externalLoopLog_probe env conf l.ServerInfo t "fe80::1" ["22"] _ hosts
      [] [] [] hsk hN hT (hv6 conf t ["22"]) hR]
    simp [externalLoopLog]
  · intro conf t ports
    rw [buildInvocation_colon conf t (goString "é:é") ports (by decide) (by decide)]
    rfl

/-- Witness of C13 with `remoteEnv`: the key `fe80::1` reaches the engine as
`e80::`, the bracketed key `[fe80::1]` as `fe80::1`, and the key of five bytes
that is the Go string of `é:é` as its three inner bytes. -/
theorem external_target_form_witness :
    execExternalPortScanLog remoteEnv externalConf (RangeOrder.stored _) ⟨[], oneAddr⟩
        [("fe80::1", ["22"])] =
      (some (["fe80::1:22", "fe80::1:80"], none),
        [⟨Technique.ConnectScan, false, "e80::", ["22"], true⟩]) ∧
    buildInvocation externalConf Technique.ConnectScan ("[" ++ "fe80::1" ++ "]") ["22"] =
      some ⟨Technique.ConnectScan, false, "fe80::1", ["22"], true⟩ ∧
    buildInvocation externalConf Technique.ConnectScan
        (String.mk [Char.ofNat 195, Char.ofNat 169, Char.ofNat 58, Char.ofNat 195,
          Char.ofNat 169]) ["22"] =
      some ⟨Technique.ConnectScan, false,
        String.mk [Char.ofNat 169, Char.ofNat 58, Char.ofNat 195], ["22"], true⟩ :=
  ⟨(external_target_form.2.2.2.2.1 remoteEnv externalConf (RangeOrder.stored _) ⟨[], oneAddr⟩
      Technique.ConnectScan _ (by decide) rfl (by decide) rfl).trans (by decide),
    external_target_form.1 externalConf Technique.ConnectScan "fe80::1" ["22"] (by decide),
    (external_target_form.2.2.1 externalConf Technique.ConnectScan
      (String.mk [Char.ofNat 195, Char.ofNat 169, Char.ofNat 58, Char.ofNat 195,
        Char.ofNat 169]) ["22"] (by decide) (by decide)).trans (by decide)⟩

/-- C20, where the slice is out of range. For a key with a colon the slice
`ip[1 : len(ip)-1]` is within bounds exactly when the key has at least two
bytes; building the invocation panics for exactly one key, the single
colon `:`, for which the slice is `ip[1:0]`, and with that key in the target
map `execExternalPortScan` panics. -/
theorem external_slice_bounds :
    (∀ ip : String, 2 ≤ ip.data.length →
      ∃ target, sliceStr ip 1 ((ip.data.length : Int) - 1) = some target) ∧
    (∀ (conf : PortScanConf) (t : Technique) (ip : String) (ports : List String),
      buildInvocation conf t ip ports = none ↔ ip = ":") ∧
    (Contains ":" ":" = true ∧ ((":" : String).data.length : Int) - 1 = 0 ∧
      sliceStr ":" 1 0 = none) ∧
    (∀ (env : Env) (conf : PortScanConf) (o : RangeOrder (String × List String)) (l : base)
        (t : Technique) (ports : List String),
      skipped env l.ServerInfo ":" = false →
      env.NewScanner conf.ScannerBinPath = none →
      setScanTechnique conf = (some t, none) →
      execExternalPortScan env conf o l [(":", ports)] = none) := by
  refine ⟨fun ip h => ⟨_, sliceStr_inner ip h⟩, buildInvocation_none_iff,
    ⟨by decide, by decide, by decide⟩, ?_⟩
  intro env conf o l t ports hsk hN hT
  have hc : (!env.isLocalExec l.ServerInfo.Port l.ServerInfo.Host && env.IsLoopback ":") =
      false := hsk
  have hB := (buildInvocation_none_iff conf t ":" ports).mpr rfl
  unfold execExternalPortScan
  rw [visit_singleton]
  simp only [externalLoop, hc, hN, hT, hB, Bool.false_eq_true, if_false]

/-- Witness of C20 with `remoteEnv`: the target map with the key `:` makes the
external engine panic. -/
theorem external_slice_bounds_witness :
    execExternalPortScan remoteEnv externalConf (RangeOrder.stored _) ⟨[], oneAddr⟩
        [(":", ["80"])] = none ∧
      (∃ target, sliceStr "::" 1 ((("::" : String).data.length : Int) - 1) = some target) :=
  ⟨external_slice_bounds.2.2.2 remoteEnv externalConf (RangeOrder.stored _) ⟨[], oneAddr⟩
      Technique.ConnectScan ["80"] (by decide) rfl (by decide),
    external_slice_bounds.1 "::" (by decide)⟩

/-! ## The technique is resolved inside the loop -/

theorem externalLoopLog_all_skipped (env : Env) (conf : PortScanConf) (si : ServerInfo)
    (es : List (String × List String)) (acc : List String) (runs : List Invocation)
    (h : ∀ e ∈ es, skipped env si e.1 = true) :
    externalLoopLog env conf si es acc runs = (some (acc, none), runs) := by
  induction es with
  | nil => rfl
  | cons e es ih =>
    obtain ⟨ip, ports⟩ := e
    rw [externalLoopLog_skip env conf si ip ports es acc runs (h (ip, ports)
      (List.mem_cons_self _ _))]
    exact ih (fun e he => h e (List.mem_cons_of_mem _ he))

theorem externalLoopLog_unsupported (env : Env) (conf : PortScanConf) (si : ServerInfo)
    (es : List (String × List String)) (acc : List String) (runs : List Invocation)
    (x : Option Technique) (err : String)
    (hN : env.NewScanner conf.ScannerBinPath = none)
    (hT : setScanTechnique conf = (x, some err))
    (h : ∃ e ∈ es, skipped env si e.1 = false) :
    externalLoopLog env conf si es acc runs = (some ([], some err), runs) := by
  induction es with
  | nil => obtain ⟨e, he, _⟩ := h; simp at he
  | cons e es ih =>
    obtain ⟨ip, ports⟩ := e
    by_cases hsk : skipped env si ip = true
    · rw [externalLoopLog_skip env conf si ip ports es acc runs hsk]
      apply ih
      obtain ⟨e, he, hs⟩ := h
      rcases List.mem_cons.mp he with rfl | he
      · simp [hsk] at hs
      · exact ⟨e, he, hs⟩
    · have hc : (!env.isLocalExec si.Port si.Host && env.IsLoopback ip) = false := by
        simpa [skipped] using hsk
      cases x <;> simp only [externalLoopLog, hc, hN, hT, Bool.false_eq_true, if_false]


/-- C14, as the code has it. The technique is resolved inside the loop, at the
first address that is not skipped. When the configured identifier is not one
of the nine of the table, the scanner can be created and the target map has an
address that is not skipped, `execExternalPortScan` returns the empty list with
the unsupported-technique error and `Run` has not been called; when every
address of the target map is skipped, or the map is empty, it returns the
empty list without error, whatever the identifier, and `Run` has not been
called. -/
theorem unsupported_technique_in_loop (env : Env) (conf : PortScanConf)
    (o : RangeOrder (String × List String)) (l : base) (dest : GoMap (List String)) :
    (conf.ScanTechnique ∉ ["", "sS", "sT", "sN", "sF", "sX", "sA", "sW", "sM"] →
      env.NewScanner conf.ScannerBinPath = none →
      (∃ e ∈ dest, skipped env l.ServerInfo e.1 = false) →
      execExternalPortScanLog env conf o l dest =
          (some ([], some ("Failed to setScanTechnique. cannot support ScanTechnique: "
            ++ conf.ScanTechnique)), []) ∧
        execExternalPortScan env conf o l dest =
          some ([], some ("Failed to setScanTechnique. cannot support ScanTechnique: "
            ++ conf.ScanTechnique))) ∧
    ((∀ e ∈ dest, skipped env l.ServerInfo e.1 = true) →
      execExternalPortScanLog env conf o l dest = (some ([], none), []) ∧
        execExternalPortScan env conf o l dest = some ([], none)) := by
  have hperm := o.perm dest
  constructor
  · intro hbad hN hex
    have hT : setScanTechnique conf =
        (none, some ("Failed to setScanTechnique. cannot support ScanTechnique: "
          ++ conf.ScanTechnique)) := by
      simp only [List.mem_cons, List.mem_singleton, List.not_mem_nil, or_false, not_or] at hbad
      obtain ⟨h0, h1, h2, h3, h4, h5, h6, h7, h8⟩ := hbad
      simp [setScanTechnique, h0, h1, h2, h3, h4, h5, h6, h7, h8]
    have hlog : execExternalPortScanLog env conf o l dest =
        (some ([], some ("Failed to setScanTechnique. cannot support ScanTechnique: "
          ++ conf.ScanTechnique)), []) := by
      unfold execExternalPortScanLog
      apply externalLoopLog_unsupported env conf l.ServerInfo _ [] [] none _ hN hT
      obtain ⟨e, he, hs⟩ := hex
      exact ⟨e, hperm.mem_iff.mpr he, hs⟩
    refine ⟨hlog, ?_⟩
    rw [← execExternalPortScanLog_fst, hlog]
  · intro hall
    have hlog : execExternalPortScanLog env conf o l dest = (some ([], none), []) := by
      unfold execExternalPortScanLog
      apply externalLoopLog_all_skipped
      intro e he
      exact hall e (hperm.mem_iff.mp he)
    refine ⟨hlog, ?_⟩
    rw [← execExternalPortScanLog_fst, hlog]

/-- Witness of C14: with the identifier `sZ`, an address that is not skipped
after one that is gives the error before any run, and the loopback address
alone gives no error; with a supported identifier the loopback address alone
gives no error either. -/
theorem unsupported_technique_in_loop_witness :
    execExternalPortScanLog remoteEnv badConf (RangeOrder.stored _) ⟨[], oneAddr⟩
        [("127.0.0.1", ["22"]), ("10.0.0.5", ["80"])] =
      (some ([], some "Failed to setScanTechnique. cannot support ScanTechnique: sZ"), []) ∧
    execExternalPortScanLog remoteEnv badConf (RangeOrder.stored _) ⟨[], oneAddr⟩
        [("127.0.0.1", ["22"])] = (some ([], none), []) ∧
    execExternalPortScanLog remoteEnv externalConf (RangeOrder.stored _) ⟨[], oneAddr⟩
        [("127.0.0.1", ["22"])] = (some ([], none), []) :=
  ⟨((unsupported_technique_in_loop remoteEnv badConf (RangeOrder.stored _) ⟨[], oneAddr⟩
      [("127.0.0.1", ["22"]), ("10.0.0.5", ["80"])]).1 (by decide) rfl (by decide)).1.trans
      (by decide),
    ((unsupported_technique_in_loop remoteEnv badConf (RangeOrder.stored _) ⟨[], oneAddr⟩
      [("127.0.0.1", ["22"])]).2 (by decide)).1,
    ((unsupported_technique_in_loop remoteEnv externalConf (RangeOrder.stored _) ⟨[], oneAddr⟩
      [("127.0.0.1", ["22"])]).2 (by decide)).1⟩

/-- Counterexample to C14 as stated: with the identifier `sZ`, which
`setScanTechnique` rejects, the empty target map and a target map whose only
address is skipped make `execExternalPortScan` return without error. -/
theorem unsupported_technique_counterexample :
    setScanTechnique badConf =
        (none, some "Failed to setScanTechnique. cannot support ScanTechnique: sZ") ∧
      execExternalPortScan remoteEnv badConf (RangeOrder.stored _) ⟨[], oneAddr⟩ [] =
        some ([], none) ∧
      skipped remoteEnv oneAddr "127.0.0.1" = true ∧
      execExternalPortScan remoteEnv badConf (RangeOrder.stored _) ⟨[], oneAddr⟩
        [("127.0.0.1", ["22"])] = some ([], none) := by
  refine ⟨by decide, by decide, by decide, by decide⟩


/-! ## The order of the ports of an address -/

theorem firstSeen_congr (l s s' : List String) (h : ∀ x, x ∈ s ↔ x ∈ s') :
    firstSeen s l = firstSeen s' l := by
  induction l generalizing s s' with
  | nil => rfl
  | cons e l ih =>
    by_cases he : e ∈ s
    · rw [firstSeen_cons_of_mem l s e he, firstSeen_cons_of_mem l s' e ((h e).mp he)]
      exact ih s s' h
    · have he' : e ∉ s' := fun hm => he ((h e).mpr hm)
      rw [firstSeen_cons_of_not_mem l s e he, firstSeen_cons_of_not_mem l s' e he']
      congr 1
      apply ih
      intro x
      simp only [List.mem_cons, h x]

theorem firstSeen_append (l l' seen : List String) :
    firstSeen seen (l ++ l') = firstSeen seen l ++ firstSeen (l ++ seen) l' := by
  induction l generalizing seen with
  | nil => rfl
  | cons e l ih =>
    by_cases he : e ∈ seen
    · rw [List.cons_append, firstSeen_cons_of_mem _ seen e he, firstSeen_cons_of_mem _ seen e he,
        ih]
      congr 1
      apply firstSeen_congr
      intro x
      simp only [List.mem_append, List.mem_cons]
      constructor
      · rintro (h | h)
        · exact Or.inl (Or.inr h)
        · exact Or.inr h
      · rintro ((h | h) | h)
        · exact Or.inr (h ▸ he)
        · exact Or.inl h
        · exact Or.inr h
    · rw [List.cons_append, firstSeen_cons_of_not_mem _ seen e he,
        firstSeen_cons_of_not_mem _ seen e he, ih, List.cons_append]
      congr 2
      apply firstSeen_congr
      intro x
      simp only [List.mem_append, List.mem_cons]
      tauto

theorem firstSeen_eq_nil (l seen : List String) (h : ∀ x ∈ l, x ∈ seen) :
    firstSeen seen l = [] := by
  induction l with
  | nil => rfl
  | cons e l ih =>
    rw [firstSeen_cons_of_mem l seen e (h e (List.mem_cons_self _ _))]
    exact ih (fun x hx => h x (List.mem_cons_of_mem _ hx))

theorem firstSeen_sublist (l seen : List String) : (firstSeen seen l).Sublist l := by
  induction l generalizing seen with
  | nil => exact List.Sublist.slnil
  | cons e l ih =>
    by_cases he : e ∈ seen
    · rw [firstSeen_cons_of_mem l seen e he]
      exact (ih seen).cons e
    · rw [firstSeen_cons_of_not_mem l seen e he]
      exact (ih _).cons₂ e

theorem firstSeen_repeat {α : Type} (L : List α) (hL : L ≠ []) (w r seen : List String) :
    firstSeen seen (L.flatMap (fun _ => w) ++ r) = firstSeen seen (w ++ r) := by
  induction L generalizing seen with
  | nil => exact absurd rfl hL
  | cons x L ih =>
    cases L with
    | nil => simp
    | cons y L =>
      rw [List.flatMap_cons, List.append_assoc, firstSeen_append, ih (by simp),
        firstSeen_append w r (w ++ seen), firstSeen_append w r seen,
        firstSeen_eq_nil w (w ++ seen) (fun x hx => List.mem_append_left _ hx),
        List.nil_append]
      congr 1
      apply firstSeen_congr
      intro x
      simp only [List.mem_append]
      tauto

theorem lookup_collectListenPorts (o : RangeOrder (String × Package)) (pkgs : Packages)
    (a : String) :
    lookup (collectListenPorts o pkgs) a = declaredPorts (listenPortsOf (o.visit pkgs)) a := by
  rw [collectListenPorts_eq, lookup_appendAll]
  unfold declaredPorts
  generalize listenPortsOf (o.visit pkgs) = walk
  simp only [lookup, List.nil_append]
  induction walk with
  | nil => rfl
  | cons port walk ih =>
    by_cases h : port.Address = a
    · simp only [List.map_cons, List.filter_cons, h, decide_True, if_true, List.flatMap_cons,
        List.singleton_append, ih]
    · simp only [List.map_cons, List.filter_cons, h, decide_False, Bool.false_eq_true,
        if_false, ih]

theorem flatMap_eq_nil_of_keys {β : Type} (c : String × List String → List β)
    (vis : List (String × List String)) (h : ∀ ap ∈ vis, c ap = []) :
    vis.flatMap c = [] := by
  rw [List.flatMap_eq_nil_iff]
  exact h

theorem flatMap_one_key {β : Type} (c : String × List String → List β) (k : String)
    (vis : List (String × List String)) (hn : (keys vis).Nodup)
    (hz : ∀ ap ∈ vis, ap.1 ≠ k → c ap = []) (h0 : c (k, []) = []) :
    vis.flatMap c = c (k, lookup vis k) := by
  induction vis with
  | nil => simp [lookup, h0]
  | cons e vis ih =>
    obtain ⟨k0, v0⟩ := e
    simp only [keys, List.map_cons, List.nodup_cons] at hn
    by_cases hk : k0 = k
    · subst hk
      have hrest : vis.flatMap c = [] := by
        apply flatMap_eq_nil_of_keys
        intro ap hap
        apply hz ap (List.mem_cons_of_mem _ hap)
        intro heq
        exact hn.1 (heq ▸ List.mem_map_of_mem Prod.fst hap)
      simp only [List.flatMap_cons, hrest, List.append_nil, lookup, if_true]
    · have hc : c (k0, v0) = [] := hz (k0, v0) (List.mem_cons_self _ _) hk
      simp only [List.flatMap_cons, hc, List.nil_append, lookup, hk, if_false]
      exact ih hn.2 (fun ap hap => hz ap (List.mem_cons_of_mem _ hap))

theorem flatMap_two_keys {β : Type} (c : String × List String → List β) (k1 k2 : String)
    (hne : k1 ≠ k2) (vis : List (String × List String)) (hn : (keys vis).Nodup)
    (hz : ∀ ap ∈ vis, ap.1 ≠ k1 → ap.1 ≠ k2 → c ap = [])
    (h1 : c (k1, []) = []) (h2 : c (k2, []) = []) :
    vis.flatMap c = c (k1, lookup vis k1) ++ c (k2, lookup vis k2) ∨
      vis.flatMap c = c (k2, lookup vis k2) ++ c (k1, lookup vis k1) := by
  induction vis with
  | nil => simp [lookup, h1, h2]
  | cons e vis ih =>
    obtain ⟨k0, v0⟩ := e
    simp only [keys, List.map_cons, List.nodup_cons] at hn
    by_cases hk1 : k0 = k1
    · subst hk1
      left
      have hrest : vis.flatMap c = c (k2, lookup vis k2) := by
        apply flatMap_one_key c k2 vis hn.2 _ h2
        intro ap hap hap2
        apply hz ap (List.mem_cons_of_mem _ hap) _ hap2
        intro heq
        exact hn.1 (heq ▸ List.mem_map_of_mem Prod.fst hap)
      simp only [List.flatMap_cons, hrest, lookup, if_true, hne, if_false]
    · by_cases hk2 : k0 = k2
      · subst hk2
        right
        have hrest : vis.flatMap c = c (k1, lookup vis k1) := by
          apply flatMap_one_key c k1 vis hn.2 _ h1
          intro ap hap hap1
          apply hz ap (List.mem_cons_of_mem _ hap) hap1
          intro heq
          exact hn.1 (heq ▸ List.mem_map_of_mem Prod.fst hap)
        simp only [List.flatMap_cons, hrest, lookup, if_true, hk1, if_false]
      · have hc : c (k0, v0) = [] := hz (k0, v0) (List.mem_cons_self _ _) hk1 hk2
        simp only [List.flatMap_cons, hc, List.nil_append, lookup, hk1, hk2, if_false]
        exact ih hn.2 (fun ap hap => hz ap (List.mem_cons_of_mem _ hap))


theorem contrib_star (IPv4Addrs : List String) (a : String) (v : List String) :
    ((expandEntry IPv4Addrs ("*", v)).filter (fun x => decide (x.1 = a))).flatMap
        (fun x => x.2) =
      (IPv4Addrs.filter (fun addr => decide (addr = a))).flatMap (fun _ => v) := by
  unfold expandEntry
  simp only [if_true]
  induction IPv4Addrs with
  | nil => rfl
  | cons addr rest ih =>
    by_cases h : addr = a
    · simp only [List.map_cons, List.filter_cons, h, decide_True, if_true, List.flatMap_cons,
        ih]
    · simp only [List.map_cons, List.filter_cons, h, decide_False, Bool.false_eq_true,
        if_false, ih]

theorem contrib_other (IPv4Addrs : List String) (a : String) (ap : String × List String)
    (h : ap.1 ≠ "*") :
    ((expandEntry IPv4Addrs ap).filter (fun x => decide (x.1 = a))).flatMap (fun x => x.2) =
      if ap.1 = a then ap.2 else [] := by
  unfold expandEntry
  rw [if_neg h]
  by_cases ha : ap.1 = a <;> simp [List.filter_cons, ha]

theorem lookup_expandWildcard (o : RangeOrder (String × List String))
    (IPv4Addrs : List String) (m : GoMap (List String)) (hn : (keys m).Nodup) (a : String)
    (ha : a ≠ "*") :
    lookup (expandWildcard o IPv4Addrs m) a =
        (IPv4Addrs.filter (fun addr => decide (addr = a))).flatMap (fun _ => lookup m "*") ++
          lookup m a ∨
      lookup (expandWildcard o IPv4Addrs m) a =
        lookup m a ++
          (IPv4Addrs.filter (fun addr => decide (addr = a))).flatMap
            (fun _ => lookup m "*") := by
  have hv : (keys (o.visit m)).Nodup := (keys_perm (o.perm m)).nodup_iff.mpr hn
  have hform : lookup (expandWildcard o IPv4Addrs m) a =
      (o.visit m).flatMap (fun ap =>
        ((expandEntry IPv4Addrs ap).filter (fun x => decide (x.1 = a))).flatMap
          (fun x => x.2)) := by
    rw [expandWildcard_eq, lookup_appendAll, List.filter_flatMap, List.flatMap_assoc]
    simp [lookup]
  have hstar : ("*" : String) ≠ a := fun h => ha h.symm
  have h2 := flatMap_two_keys (fun ap =>
      ((expandEntry IPv4Addrs ap).filter (fun x => decide (x.1 = a))).flatMap (fun x => x.2))
    "*" a hstar (o.visit m) hv
    (by
      intro ap _ h1 h2
      simp only
      rw [contrib_other IPv4Addrs a ap h1, if_neg h2])
    (by
      simp only
      rw [contrib_star]
      simp)
    (by
      simp only
      rw [contrib_other IPv4Addrs a (a, []) ha]
      simp)
  simp only at h2
  rw [contrib_star, contrib_other IPv4Addrs a (a, lookup (o.visit m) a) ha, if_pos rfl,
    lookup_perm (o.perm m) hn, lookup_perm (o.perm m) hn] at h2
  rw [hform]
  exact h2

theorem flatMap_two_keys_order {β : Type} (c : String × List String → List β)
    (k1 k2 : String) (hne : k1 ≠ k2) (vis : List (String × List String))
    (hn : (keys vis).Nodup)
    (hz : ∀ ap ∈ vis, ap.1 ≠ k1 → ap.1 ≠ k2 → c ap = [])
    (h1 : c (k1, []) = []) (h2 : c (k2, []) = []) :
    vis.flatMap c =
      if List.indexOf k1 (keys vis) < List.indexOf k2 (keys vis) then
        c (k1, lookup vis k1) ++ c (k2, lookup vis k2)
      else c (k2, lookup vis k2) ++ c (k1, lookup vis k1) := by
  induction vis with
  | nil => simp [keys, lookup, h1, h2]
  | cons e vis ih =>
    obtain ⟨k0, v0⟩ := e
    simp only [keys, List.map_cons, List.nodup_cons] at hn
    have hkeys : keys ((k0, v0) :: vis) = k0 :: keys vis := rfl
    by_cases hk1 : k0 = k1
    · subst hk1
      have hrest : vis.flatMap c = c (k2, lookup vis k2) := by
        apply flatMap_one_key c k2 vis hn.2 _ h2
        intro ap hap hap2
        apply hz ap (List.mem_cons_of_mem _ hap) _ hap2
        intro heq
        exact hn.1 (heq ▸ List.mem_map_of_mem Prod.fst hap)
      have hlt : List.indexOf k0 (k0 :: keys vis) < List.indexOf k2 (k0 :: keys vis) := by
        rw [List.indexOf_cons_self, List.indexOf_cons_ne _ hne]
        exact Nat.succ_pos _
      rw [hkeys, if_pos hlt]
      simp only [List.flatMap_cons, hrest, lookup, if_true, hne, if_false]
    · by_cases hk2 : k0 = k2
      · subst hk2
        have hrest : vis.flatMap c = c (k1, lookup vis k1) := by
          apply flatMap_one_key c k1 vis hn.2 _ h1
          intro ap hap hap1
          apply hz ap (List.mem_cons_of_mem _ hap) hap1
          intro heq
          exact hn.1 (heq ▸ List.mem_map_of_mem Prod.fst hap)
        have hlt : ¬ List.indexOf k1 (k0 :: keys vis) < List.indexOf k0 (k0 :: keys vis) := by
          rw [List.indexOf_cons_self]
          exact Nat.not_lt_zero _
        rw [hkeys, if_neg hlt]
        simp only [List.flatMap_cons, hrest, lookup, if_true, hk1, if_false]
      · have hc : c (k0, v0) = [] := hz (k0, v0) (List.mem_cons_self _ _) hk1 hk2
        have hiff : List.indexOf k1 (k0 :: keys vis) < List.indexOf k2 (k0 :: keys vis) ↔
            List.indexOf k1 (keys vis) < List.indexOf k2 (keys vis) := by
          rw [List.indexOf_cons_ne _ hk1, List.indexOf_cons_ne _ hk2]
          exact Nat.succ_lt_succ_iff
        rw [hkeys]
        simp only [List.flatMap_cons, hc, List.nil_append, lookup, hk1, hk2, if_false, hiff]
        exact ih hn.2 (fun ap hap => hz ap (List.mem_cons_of_mem _ hap))

theorem lookup_expandWildcard_order (o : RangeOrder (String × List String))
    (IPv4Addrs : List String) (m : GoMap (List String)) (hn : (keys m).Nodup) (a : String)
    (ha : a ≠ "*") :
    lookup (expandWildcard o IPv4Addrs m) a =
      if List.indexOf "*" (keys (o.visit m)) < List.indexOf a (keys (o.visit m)) then
        (IPv4Addrs.filter (fun addr => decide (addr = a))).flatMap (fun _ => lookup m "*") ++
          lookup m a
      else
        lookup m a ++
          (IPv4Addrs.filter (fun addr => decide (addr = a))).flatMap
            (fun _ => lookup m "*") := by
  have hv : (keys (o.visit m)).Nodup := (keys_perm (o.perm m)).nodup_iff.mpr hn
  have hform : lookup (expandWildcard o IPv4Addrs m) a =
      (o.visit m).flatMap (fun ap =>
        ((expandEntry IPv4Addrs ap).filter (fun x => decide (x.1 = a))).flatMap
          (fun x => x.2)) := by
    rw [expandWildcard_eq, lookup_appendAll, List.filter_flatMap, List.flatMap_assoc]
    simp [lookup]
  have hstar : ("*" : String) ≠ a := fun h => ha h.symm
  have h2 := flatMap_two_keys_order (fun ap =>
      ((expandEntry IPv4Addrs ap).filter (fun x => decide (x.1 = a))).flatMap (fun x => x.2))
    "*" a hstar (o.visit m) hv
    (by
      intro ap _ h1 h2
      simp only
      rw [contrib_other IPv4Addrs a ap h1, if_neg h2])
    (by
      simp only
      rw [contrib_star]
      simp)
    (by
      simp only
      rw [contrib_other IPv4Addrs a (a, []) ha]
      simp)
  simp only at h2
  rw [contrib_star, contrib_other IPv4Addrs a (a, lookup (o.visit m) a) ha, if_pos rfl,
    lookup_perm (o.perm m) hn, lookup_perm (o.perm m) hn] at h2
  rw [hform]
  exact h2

theorem mem_keys_collectListenPorts (o : RangeOrder (String × Package)) (pkgs : Packages)
    (k : String) :
    k ∈ keys (collectListenPorts o pkgs) ↔
      declaredPorts (listenPortsOf (o.visit pkgs)) k ≠ [] := by
  rw [collectListenPorts_eq, mem_keys_appendAll]
  unfold declaredPorts
  constructor
  · rintro (h | ⟨x, hx, rfl⟩)
    · simp [keys] at h
    · obtain ⟨port, hport, rfl⟩ := List.mem_map.mp hx
      intro hnil
      have hmem : port ∈ (listenPortsOf (o.visit pkgs)).filter
          (fun q => decide (q.Address = port.Address)) :=
        List.mem_filter.mpr ⟨hport, by simp⟩
      rw [List.map_eq_nil_iff] at hnil
      rw [hnil] at hmem
      simp at hmem
  · intro hne
    right
    obtain ⟨p, hp⟩ := List.exists_mem_of_ne_nil _ hne
    obtain ⟨port, hport, _⟩ := List.mem_map.mp hp
    obtain ⟨hport1, hport2⟩ := List.mem_filter.mp hport
    exact ⟨(port.Address, [port.Port]), List.mem_map.mpr ⟨port, hport1, rfl⟩,
      by simpa using hport2⟩

/-- C18, as the code has it. For an address `a` other than the wildcard, with
`own` the ports declared under `a` and `wild` the ports declared with the
wildcard, each in the order of the walk over packages, processes and listen
ports: when `a` is not a host address the ports of `a` are the distinct ports
of `own` in first-seen order, whatever the iteration orders of the maps; when
`a` is a host address they are the distinct ports, in first-seen order, of
`wild` followed by `own` when the loop over the intermediate address map
visits the key `*` before the key `a`, and of `own` followed by `wild`
otherwise; the two agree with the first-seen order of the walk when `own` or
`wild` is empty. The keys the loop visits are the addresses with a declared
port, each once, a key that is absent counting as visited last. First-seen
order of a list keeps each element once, at its first position. -/
theorem detectScanDest_order (sch : Schedule) (l : base) (a : String) (ha : a ≠ "*") :
    (a ∉ l.ServerInfo.IPv4Addrs →
      lookup (detectScanDest sch l) a =
        firstSeen [] (declaredPorts (listenPortsOf (sch.packages.visit l.Packages)) a)) ∧
    (a ∈ l.ServerInfo.IPv4Addrs →
      lookup (detectScanDest sch l) a =
        if List.indexOf "*"
              (keys (sch.scanIPPorts.visit (collectListenPorts sch.packages l.Packages))) <
            List.indexOf a
              (keys (sch.scanIPPorts.visit (collectListenPorts sch.packages l.Packages)))
        then
          firstSeen [] (declaredPorts (listenPortsOf (sch.packages.visit l.Packages)) "*" ++
            declaredPorts (listenPortsOf (sch.packages.visit l.Packages)) a)
        else
          firstSeen [] (declaredPorts (listenPortsOf (sch.packages.visit l.Packages)) a ++
            declaredPorts (listenPortsOf (sch.packages.visit l.Packages)) "*")) ∧
    (declaredPorts (listenPortsOf (sch.packages.visit l.Packages)) "*" = [] →
      lookup (detectScanDest sch l) a =
        firstSeen [] (declaredPorts (listenPortsOf (sch.packages.visit l.Packages)) a)) ∧
    (a ∈ l.ServerInfo.IPv4Addrs →
      declaredPorts (listenPortsOf (sch.packages.visit l.Packages)) a = [] →
      lookup (detectScanDest sch l) a =
        firstSeen [] (declaredPorts (listenPortsOf (sch.packages.visit l.Packages)) "*")) ∧
    (∀ ps, (a, ps) ∈ detectScanDest sch l → ps = lookup (detectScanDest sch l) a) ∧
    ((keys (sch.scanIPPorts.visit (collectListenPorts sch.packages l.Packages))).Nodup ∧
      ∀ k, k ∈ keys (sch.scanIPPorts.visit (collectListenPorts sch.packages l.Packages)) ↔
        declaredPorts (listenPortsOf (sch.packages.visit l.Packages)) k ≠ []) ∧
    (∀ xs : List String, (firstSeen [] xs).Nodup ∧ (∀ x, x ∈ firstSeen [] xs ↔ x ∈ xs) ∧
      (firstSeen [] xs).Sublist xs) := by
  have hcases := lookup_expandWildcard_order sch.scanIPPorts l.ServerInfo.IPv4Addrs
    (collectListenPorts sch.packages l.Packages) (nodup_keys_collectListenPorts _ _) a ha
  rw [lookup_collectListenPorts, lookup_collectListenPorts] at hcases
  have hin : a ∈ l.ServerInfo.IPv4Addrs →
      lookup (detectScanDest sch l) a =
        if List.indexOf "*"
              (keys (sch.scanIPPorts.visit (collectListenPorts sch.packages l.Packages))) <
            List.indexOf a
              (keys (sch.scanIPPorts.visit (collectListenPorts sch.packages l.Packages)))
        then
          firstSeen [] (declaredPorts (listenPortsOf (sch.packages.visit l.Packages)) "*" ++
            declaredPorts (listenPortsOf (sch.packages.visit l.Packages)) a)
        else
          firstSeen [] (declaredPorts (listenPortsOf (sch.packages.visit l.Packages)) a ++
            declaredPorts (listenPortsOf (sch.packages.visit l.Packages)) "*") := by
    intro hmem
    have hL : l.ServerInfo.IPv4Addrs.filter (fun addr => decide (addr = a)) ≠ [] := by
      intro hnil
      have := List.filter_eq_nil_iff.mp hnil a hmem
      simp at this
    rw [lookup_detectScanDest, hcases]
    by_cases hlt : List.indexOf "*"
        (keys (sch.scanIPPorts.visit (collectListenPorts sch.packages l.Packages))) <
        List.indexOf a
          (keys (sch.scanIPPorts.visit (collectListenPorts sch.packages l.Packages)))
    · rw [if_pos hlt, if_pos hlt, firstSeen_repeat _ hL]
    · rw [if_neg hlt, if_neg hlt, firstSeen_append, firstSeen_append]
      congr 1
      have := firstSeen_repeat _ hL
        (declaredPorts (listenPortsOf (sch.packages.visit l.Packages)) "*") []
        (declaredPorts (listenPortsOf (sch.packages.visit l.Packages)) a ++ [])
      simpa using this
  have hout : a ∉ l.ServerInfo.IPv4Addrs →
      lookup (detectScanDest sch l) a =
        firstSeen [] (declaredPorts (listenPortsOf (sch.packages.visit l.Packages)) a) := by
    intro hmem
    have hL : l.ServerInfo.IPv4Addrs.filter (fun addr => decide (addr = a)) = [] := by
      rw [List.filter_eq_nil_iff]
      intro x hx
      have : x ≠ a := fun h => hmem (h ▸ hx)
      simpa using this
    rw [lookup_detectScanDest, hcases, hL]
    split_ifs <;> simp
  refine ⟨hout, hin, ?_, ?_, ?_, ⟨?_, ?_⟩, ?_⟩
  · intro hw
    by_cases hmem : a ∈ l.ServerInfo.IPv4Addrs
    · rw [hin hmem, hw]
      split_ifs <;> simp
    · exact hout hmem
  · intro hmem hown
    rw [hin hmem, hown]
    split_ifs <;> simp
  · intro ps hps
    exact mem_detectScanDest sch l (a, ps) hps
  · exact (keys_perm (sch.scanIPPorts.perm _)).nodup_iff.mpr (nodup_keys_collectListenPorts _ _)
  · intro k
    rw [(keys_perm (sch.scanIPPorts.perm _)).mem_iff]
    exact mem_keys_collectListenPorts sch.packages l.Packages k
  · intro xs
    refine ⟨nodup_firstSeen xs [], ?_, firstSeen_sublist xs []⟩
    intro x
    rw [mem_firstSeen]
    simp

/-- Witness of C18. On `dupBase`, `10.0.0.5` is not a host address and its
ports are the distinct ports declared under it. On `orderBase` the host
address `192.168.1.10` has own ports 80, 443 and the wildcard port 22: the
loop that visits the key of the address first gives 80, 443, 22, the loop that
visits the key `*` first gives 22, 80, 443. -/
theorem detectScanDest_order_witness :
    lookup (detectScanDest Schedule.wildcardFirst dupBase) "10.0.0.5" = ["80"] ∧
      lookup (detectScanDest Schedule.stored orderBase) "192.168.1.10" = ["80", "443", "22"] ∧
      lookup (detectScanDest Schedule.wildcardFirst orderBase) "192.168.1.10" =
        ["22", "80", "443"] :=
  ⟨((detectScanDest_order Schedule.wildcardFirst dupBase "10.0.0.5" (by decide)).1
      (by decide)).trans (by decide),
    ((detectScanDest_order Schedule.stored orderBase "192.168.1.10" (by decide)).2.1
      (by decide)).trans (by decide),
    ((detectScanDest_order Schedule.wildcardFirst orderBase "192.168.1.10" (by decide)).2.1
      (by decide)).trans (by decide)⟩

/-- Counterexample to C18 as stated. The walk of `orderBase` sees, for the host
address `192.168.1.10`, the ports 80, 22 (through the wildcard) and 443 in
that order. The code lists 80, 443, 22 when the intermediate map is visited in
the order it is kept, and 22, 80, 443 when it is visited in the opposite
order: neither is the order of the walk, and the two differ. -/
theorem detectScanDest_order_counterexample :
    (listenPortsOf orderBase.Packages).map (fun e => (e.Address, e.Port)) =
        [("192.168.1.10", "80"), ("*", "22"), ("192.168.1.10", "443")] ∧
      detectScanDest Schedule.stored orderBase = [("192.168.1.10", ["80", "443", "22"])] ∧
      detectScanDest Schedule.wildcardFirst orderBase =
        [("192.168.1.10", ["22", "80", "443"])] := by
  refine ⟨by decide, by decide, by decide⟩

end Scan
